import Mathlib

/-!
ALSA output driver of MOC (`alsa.c`): staging buffer, write/recovery loop,
stream negotiation, close/drain and the mixer controller.

The driver keeps its state in file-scope variables; here they are the fields
of `Driver` (PCM session) and `Mixer` (volume control).  Everything the driver
learns from the sound hardware arrives as return values of ALSA library
calls; those values are inputs of the model (`DevResp` for one round of the
flush loop, `OpenResp` for one negotiation, `ElemHw` for a mixer element) and
the calls that were issued are recorded in a `World`.  C `int` values are
`Int`; the staging array is a map from integer offsets to bytes, so that
`alsa_buf + written` is plain integer addition.
-/

namespace Alsa

/-! ## Basic types and constants -/

abbrev Byte := UInt8

/-- The constant `sizeof (alsa_buf)`: the array is `char alsa_buf[512 * 1024]`. -/
def alsa_buf_size : Int := 512 * 1024

/-- The errno value `EAGAIN` (Linux). -/
def EAGAIN : Int := 11

/-- The constant `BUFFER_MAX_USEC`. -/
def BUFFER_MAX_USEC : Nat := 300000

/-- Conversion of an integer value to a 32-bit `int` (two's complement). -/
def wrap32 (x : Int) : Int :=
  (x + 2 ^ 31) % 2 ^ 32 - 2 ^ 31

/-- Conversion of an `int` to `unsigned int`. -/
def to_uint (x : Int) : Nat :=
  (x % 2 ^ 32).toNat

/-- Conversion of a `size_t` to `int`. -/
def size_to_int (n : Nat) : Int :=
  wrap32 n

/-- Modelled from the spec: the macro `RANGE (min, val, max)` of `common.h`
(not part of the sources) tests `min <= val <= max`; the spec's volume range
is `0 <= v <= 100`. -/
def RANGE (lo val hi : Int) : Bool :=
  decide (lo ≤ val) && decide (val ≤ hi)

/-- Calls made to the ALSA library (and `xsleep`), in the order they were
issued, with the arguments and return values that matter. -/
inductive Call where
  | pcm_open (rc : Int)
  | pcm_close (h : Option Nat)
  | hw_params_malloc (rc : Int)
  | hw_params_any (rc : Int)
  | hw_params_free
  | set_access (rc : Int)
  | set_format (fmt : Int) (rc : Int)
  | set_rate_near (rate : Nat) (rc : Int)
  | set_channels (ch : Nat) (rc : Int)
  | get_buffer_time_max (rc : Int)
  | set_period_time_near (usec : Nat) (rc : Int)
  | set_buffer_time_near (usec : Nat) (rc : Int)
  | hw_params (rc : Int)
  | get_period_size
  | get_buffer_size
  | pcm_prepare (rc : Int)
  | pcm_writei (off : Int) (frames : Int) (rc : Int)
  | pcm_recover (err : Int) (rc : Int)
  | pcm_wait (rc : Int)
  | set_silence (fmt : Int) (off : Int) (samples : Nat)
  | pcm_delay (rc : Int)
  | xsleep (frames : Int) (rate : Nat)
  | pcm_drop (rc : Int)
  | get_channels_min (rc : Int)
  | get_channels_max (rc : Int)
  | format_mask_malloc (rc : Int)
  | get_format_mask
  | format_mask_free
deriving DecidableEq, Repr

/-- The PCM hardware as far as the driver can affect it: the bytes the device
has accepted so far (in order), the number of device handles handed out, the
handles that are open right now, and the trace of library calls. -/
structure World where
  played : List Byte
  opened : Nat
  live : List Nat
  log : List Call

/-- Record one library call. -/
def World.call (w : World) (c : Call) : World :=
  { w with log := w.log ++ [c] }

/-- The file-scope variables of `alsa.c` that belong to the PCM session.
`handle = none` is the C `NULL`. -/
structure Driver where
  handle : Option Nat
  params_channels : Nat
  params_rate : Nat
  params_format : Int
  buffer_frames : Nat
  chunk_frames : Nat
  chunk_bytes : Int
  alsa_buf : Int → Byte
  alsa_buf_fill : Int
  bytes_per_frame : Int

/-- Outcome of running a driver function.  `ret` is a normal return, `abort`
is a failed `assert` (or a crash), and `pending d w` means that the supplied
device script (or the iteration budget) ended while the function was still
inside a loop, in driver state `d` and world `w`. -/
inductive Res (α : Type) where
  | ret (a : α)
  | abort
  | pending (d : Driver) (w : World)

/-- The bytes `buf[off .. off + len)`, in order. -/
def slice (buf : Int → Byte) (off len : Int) : List Byte :=
  (List.range len.toNat).map (fun (i : Nat) => buf (off + (i : Int)))

/-- The staged bytes `alsa_buf[0 .. alsa_buf_fill)`. -/
def Driver.staged (d : Driver) : List Byte :=
  slice d.alsa_buf 0 d.alsa_buf_fill

/-- Effect of `memmove (alsa_buf, alsa_buf + off, n)`. -/
def memmove_front (buf : Int → Byte) (off n : Int) : Int → Byte :=
  fun i => if 0 ≤ i ∧ i < n then buf (i + off) else buf i

/-- Effect of `memcpy (alsa_buf + dst, buff + pos, n)` where `buff` is the
caller's byte string. -/
def memcpy_in (buf : Int → Byte) (dst : Int) (buff : List Byte) (pos n : Int) :
    Int → Byte :=
  fun i => if dst ≤ i ∧ i < dst + n then buff.getD (pos + (i - dst)).toNat 0 else buf i

/-! ## The write/recovery loop -/

/-- What the device answers during one iteration of the flush loop:
the value of `int rc` after `rc = snd_pcm_writei (...)`, the value returned
by `snd_pcm_recover` (only asked for when the write returned an error) and
the value returned by `snd_pcm_wait` (only asked for when recovery returned
`-EAGAIN`).  `snd_pcm_writei` returns a `snd_pcm_sframes_t`; the loop only
ever looks at the `int` that the assignment leaves in `rc`, and that `int`
is what `writei` stands for (`DevResp.in_range` says that the field holds a
value of an `int`). -/
structure DevResp where
  writei : Int
  recover : Int
  wait : Int
deriving DecidableEq, Repr

/-- The `while (alsa_buf_fill >= chunk_bytes)` loop of `play_buf_chunks`
together with the final `memmove`; `written` is the local variable.  Each
iteration takes the next device answer from the script; `r.writei` is the
local variable `rc` after `rc = snd_pcm_writei (...)`.  The value is the
return value of `play_buf_chunks`, the new driver state, the new world and
the unused rest of the script.  (`zero_logged` only throttles a debug message
and is left out.) -/
def flush_loop (written : Int) (d : Driver) (w : World) :
    List DevResp → Res (Int × Driver × World × List DevResp)
  | [] =>
    if d.alsa_buf_fill ≥ d.chunk_bytes then .pending d w
    else .ret (written,
      { d with alsa_buf := memmove_front d.alsa_buf written d.alsa_buf_fill }, w, [])
  | r :: rs =>
    if d.alsa_buf_fill ≥ d.chunk_bytes then
      let frames := Int.tdiv d.chunk_bytes d.bytes_per_frame
      let w1 := w.call (.pcm_writei written frames r.writei)
      if r.writei = 0 then
        flush_loop written d w1 rs
      else if r.writei > 0 then
        let written_bytes := r.writei * d.bytes_per_frame
        flush_loop (written + written_bytes)
          { d with alsa_buf_fill := d.alsa_buf_fill - written_bytes }
          { w1 with played := w1.played ++ slice d.alsa_buf written written_bytes } rs
      else
        let w2 := w1.call (.pcm_recover r.writei r.recover)
        if r.recover = 0 then
          flush_loop written d w2 rs
        else if r.recover = -EAGAIN then
          flush_loop written d (w2.call (.pcm_wait r.wait)) rs
        else
          .ret (-1, d, w2, rs)
    else .ret (written,
      { d with alsa_buf := memmove_front d.alsa_buf written d.alsa_buf_fill }, w, r :: rs)

/-- The function `play_buf_chunks`. -/
def play_buf_chunks (d : Driver) (w : World) (rs : List DevResp) :
    Res (Int × Driver × World × List DevResp) :=
  flush_loop 0 d w rs

/-- The `while (to_write)` loop of `alsa_play`; `to_write` and `buf_pos` are
the local variables, `fuel` bounds the number of iterations.  A negative
`to_copy` would reach `memcpy` as a huge `size_t`; that crash is `abort`. -/
def play_loop (buff : List Byte) :
    Nat → Int → Int → Driver → World → List DevResp →
      Res (Int × Driver × World × List DevResp)
  | 0, to_write, _, d, w, rs =>
    if to_write = 0 then .ret (size_to_int buff.length, d, w, rs) else .pending d w
  | fuel + 1, to_write, buf_pos, d, w, rs =>
    if to_write = 0 then .ret (size_to_int buff.length, d, w, rs)
    else
      let to_copy := min to_write (alsa_buf_size - d.alsa_buf_fill)
      if to_copy < 0 then .abort
      else
        let d1 := { d with
          alsa_buf := memcpy_in d.alsa_buf d.alsa_buf_fill buff buf_pos to_copy
          alsa_buf_fill := d.alsa_buf_fill + to_copy }
        match play_buf_chunks d1 w rs with
        | .ret (r, d2, w2, rs2) =>
          if r < 0 then .ret (-1, d2, w2, rs2)
          else play_loop buff fuel (to_write - to_copy) (buf_pos + to_copy) d2 w2 rs2
        | .abort => .abort
        | .pending d2 w2 => .pending d2 w2

/-- The function `alsa_play (buff, size)` with `size = buff.length`. -/
def alsa_play (fuel : Nat) (buff : List Byte) (d : Driver) (w : World)
    (rs : List DevResp) : Res (Int × Driver × World × List DevResp) :=
  if d.chunk_bytes > 0 then
    play_loop buff fuel (size_to_int buff.length) 0 d w rs
  else .abort

/-- A device answer on which the flush loop gives up: the write failed and
recovery returned something other than success or `-EAGAIN`. -/
def DevResp.fatal (r : DevResp) : Prop :=
  r.writei < 0 ∧ r.recover ≠ 0 ∧ r.recover ≠ -EAGAIN

instance (r : DevResp) : Decidable r.fatal := by
  unfold DevResp.fatal; infer_instance

/-- The device never reports more frames than `snd_pcm_writei` was asked to
write (`chunk_bytes / bytes_per_frame`). -/
def DevResp.within (d : Driver) (r : DevResp) : Prop :=
  r.writei ≤ Int.tdiv d.chunk_bytes d.bytes_per_frame

instance (d : Driver) (r : DevResp) : Decidable (r.within d) := by
  unfold DevResp.within; infer_instance

/-- A device answer that, when it reports frames written, reports at most the
requested number: a zero-frame, partial or full-chunk write, or an error
code. -/
def DevResp.bounded (d : Driver) (r : DevResp) : Prop :=
  0 < r.writei → r.writei ≤ Int.tdiv d.chunk_bytes d.bytes_per_frame

instance (d : Driver) (r : DevResp) : Decidable (r.bounded d) := by
  unfold DevResp.bounded; infer_instance

/-- A device answer that keeps the contract of `snd_pcm_writei` as
`play_buf_chunks` sees it: `rc` holds a value of an `int` (from `-2^31` to
`2^31 - 1`), and it is an error code, zero, or a count of at most the
`chunk_bytes / bytes_per_frame` frames that were asked for. -/
def DevResp.in_range (d : Driver) (r : DevResp) : Prop :=
  -2 ^ 31 ≤ r.writei ∧ r.writei < 2 ^ 31 ∧
  r.writei ≤ Int.tdiv d.chunk_bytes d.bytes_per_frame

instance (d : Driver) (r : DevResp) : Decidable (r.in_range d) := by
  unfold DevResp.in_range; infer_instance

/-- Sum of the frame counts in a script of device answers (negative values
are error codes, not frame counts). -/
def script_frames : List DevResp → Int
  | [] => 0
  | x :: xs => (if x.writei > 0 then x.writei else 0) + script_frames xs

/-- Sum of the frame counts reported by `snd_pcm_writei` calls in a trace
(negative return values are error codes, not frame counts). -/
def frames_reported : List Call → Int
  | [] => 0
  | .pcm_writei _ _ rc :: cs => (if rc > 0 then rc else 0) + frames_reported cs
  | _ :: cs => frames_reported cs

/-- Number of `snd_pcm_writei` calls in a trace. -/
def writes_issued : List Call → Nat
  | [] => 0
  | .pcm_writei _ _ _ :: cs => 1 + writes_issued cs
  | _ :: cs => writes_issued cs

/-- All session variables other than the staging array and its fill agree. -/
def Driver.same_config (d d' : Driver) : Prop :=
  d'.handle = d.handle ∧ d'.params_channels = d.params_channels ∧
  d'.params_rate = d.params_rate ∧ d'.params_format = d.params_format ∧
  d'.buffer_frames = d.buffer_frames ∧ d'.chunk_frames = d.chunk_frames ∧
  d'.chunk_bytes = d.chunk_bytes ∧ d'.bytes_per_frame = d.bytes_per_frame

/-- The facts about the session variables that `alsa_play` relies on while a
session is Streaming: an open handle, a positive chunk and frame size, and a
staging fill inside the array. -/
def Driver.streaming (d : Driver) : Prop :=
  d.handle ≠ none ∧ 0 < d.chunk_bytes ∧ 0 < d.bytes_per_frame ∧
  0 ≤ d.alsa_buf_fill ∧ d.alsa_buf_fill ≤ alsa_buf_size

instance (d : Driver) : Decidable d.streaming := by
  unfold Driver.streaming; infer_instance

/-! ## Sample formats -/

/-- Modelled from the spec: the portable sample formats are the bits of a
bitmask; `audio.h`, which defines them, is not part of the sources.  The
values are those of MOC's `enum sfmt_fmt`. -/
def SFMT_S8 : Int := 0x01

/-- Modelled from the spec: portable format bit for unsigned 8-bit samples. -/
def SFMT_U8 : Int := 0x02

/-- Modelled from the spec: portable format bit for signed 16-bit samples. -/
def SFMT_S16 : Int := 0x04

/-- Modelled from the spec: portable format bit for unsigned 16-bit samples. -/
def SFMT_U16 : Int := 0x08

/-- Modelled from the spec: portable format bit for signed 32-bit samples. -/
def SFMT_S32 : Int := 0x10

/-- Modelled from the spec: portable format bit for unsigned 32-bit samples. -/
def SFMT_U32 : Int := 0x20

/-- Modelled from the spec: portable format bit for float samples. -/
def SFMT_FLOAT : Int := 0x40

/-- Modelled from the spec: the part of a format word that holds the format
bits (the rest holds the endianness). -/
def SFMT_MASK_FORMAT : Int := 0xfff

/-- ALSA's `SND_PCM_FORMAT_UNKNOWN`. -/
def SND_PCM_FORMAT_UNKNOWN : Int := -1

/-- ALSA's `SND_PCM_FORMAT_S8`. -/
def SND_PCM_FORMAT_S8 : Int := 0

/-- ALSA's `SND_PCM_FORMAT_U8`. -/
def SND_PCM_FORMAT_U8 : Int := 1

/-- ALSA's `SND_PCM_FORMAT_S16` (little-endian host). -/
def SND_PCM_FORMAT_S16 : Int := 2

/-- ALSA's `SND_PCM_FORMAT_U16` (little-endian host). -/
def SND_PCM_FORMAT_U16 : Int := 4

/-- ALSA's `SND_PCM_FORMAT_S32` (little-endian host). -/
def SND_PCM_FORMAT_S32 : Int := 10

/-- ALSA's `SND_PCM_FORMAT_U32` (little-endian host). -/
def SND_PCM_FORMAT_U32 : Int := 12

/-- The table `format_masks`: pairs of an ALSA format and a MOC format. -/
def format_masks : List (Int × Int) :=
  [(SND_PCM_FORMAT_S8, SFMT_S8), (SND_PCM_FORMAT_U8, SFMT_U8),
   (SND_PCM_FORMAT_S16, SFMT_S16), (SND_PCM_FORMAT_U16, SFMT_U16),
   (SND_PCM_FORMAT_S32, SFMT_S32), (SND_PCM_FORMAT_U32, SFMT_U32)]

/-- The loop of `mask_to_format` over a part of the table; `mask` is the
device's format set (`snd_pcm_format_mask_test`). -/
def mask_to_format_loop (mask : Int → Bool) : List (Int × Int) → Int → Int
  | [], result => result
  | e :: rest, result =>
    mask_to_format_loop mask rest (if mask e.1 then Int.lor result e.2 else result)

/-- The function `mask_to_format`. -/
def mask_to_format (mask : Int → Bool) : Int :=
  mask_to_format_loop mask format_masks 0

/-- The loop of `format_to_mask` over a part of the table. -/
def format_to_mask_loop (format : Int) : List (Int × Int) → Int
  | [] => SND_PCM_FORMAT_UNKNOWN
  | e :: rest => if e.2 = format then e.1 else format_to_mask_loop format rest

/-- The function `format_to_mask`. -/
def format_to_mask (format : Int) : Int :=
  format_to_mask_loop format format_masks

/-- Modelled from the spec: `sfmt_Bps` of `audio.c` (not part of the sources)
gives the bytes per sample of a format word, 1 for the 8-bit, 2 for the 16-bit
and 4 for the 32-bit and float formats; `none` is its failed
`assert (Bps > 0)`. -/
def sfmt_Bps (format : Int) : Option Int :=
  let f := Int.land format SFMT_MASK_FORMAT
  if f = SFMT_S8 ∨ f = SFMT_U8 then some 1
  else if f = SFMT_S16 ∨ f = SFMT_U16 then some 2
  else if f = SFMT_S32 ∨ f = SFMT_U32 ∨ f = SFMT_FLOAT then some 4
  else none

/-! ## Opening a session -/

/-- The `struct sound_params` handed to `alsa_open`. -/
structure sound_params where
  channels : Int
  rate : Int
  fmt : Int

/-- What the device answers to the calls of one `alsa_open`: the return code
of each call and the values it stores through its pointer arguments.  An
answer is only looked at when its call is reached. -/
structure OpenResp where
  pcm_open : Int
  hw_params_malloc : Int
  hw_params_any : Int
  set_access : Int
  set_format : Int
  set_rate_near : Int
  rate : Nat
  set_channels : Int
  get_buffer_time_max : Int
  buffer_time_max : Nat
  set_period_time_near : Int
  set_buffer_time_near : Int
  hw_params : Int
  period_size : Nat
  buffer_size : Nat
  prepare : Int

/-- The call `snd_pcm_close (handle)`: the handle stops being open. -/
def snd_pcm_close (d : Driver) (w : World) : World :=
  match d.handle with
  | some h => { w.call (.pcm_close (some h)) with live := w.live.erase h }
  | none => w.call (.pcm_close none)

/-- The function `alsa_open_device`.  The Boolean tells whether a
parameter structure is returned (`false` is `NULL`).  A successful
`snd_pcm_open` stores a fresh handle in `handle`; a failed one leaves
`handle` as it was. -/
def alsa_open_device (open_rc malloc_rc any_rc : Int) (d : Driver) (w : World) :
    Bool × Driver × World :=
  let w1 := w.call (.pcm_open open_rc)
  if open_rc < 0 then (false, d, w1)
  else
    let d1 := { d with handle := some w.opened }
    let w2 := { w1 with opened := w.opened + 1, live := w.opened :: w.live }
    let w3 := w2.call (.hw_params_malloc malloc_rc)
    if malloc_rc < 0 then (false, d1, snd_pcm_close d1 w3)
    else
      let w4 := w3.call (.hw_params_any any_rc)
      if any_rc < 0 then (false, d1, snd_pcm_close d1 (w4.call .hw_params_free))
      else (true, d1, w4)

/-- The part of `alsa_open` after the hardware parameters were applied:
read back period and buffer size, compute the frame and chunk size, reject
period == buffer, prepare the device. -/
def alsa_open_finish (sp : sound_params) (r : OpenResp) (Bps : Int) (d : Driver)
    (w : World) : Int × Driver × World :=
  let d1 := { d with chunk_frames := r.period_size }
  let w1 := w.call .get_period_size
  let d2 := { d1 with buffer_frames := r.buffer_size }
  let w2 := w1.call .get_buffer_size
  let d3 := { d2 with bytes_per_frame := wrap32 (sp.channels * Bps) }
  let d4 := { d3 with chunk_bytes := wrap32 ((d3.chunk_frames : Int) * d3.bytes_per_frame) }
  if d4.chunk_frames = d4.buffer_frames then
    (0, d4, w2.call .hw_params_free)
  else
    let w3 := (w2.call .hw_params_free).call (.pcm_prepare r.prepare)
    if r.prepare < 0 then (0, d4, w3)
    else
      (1, { d4 with params_channels := to_uint sp.channels, alsa_buf_fill := 0 }, w3)

/-- The part of `alsa_open` between setting the channel count and applying
the hardware parameters: buffer and period time. -/
def alsa_open_times (sp : sound_params) (r : OpenResp) (Bps : Int) (d : Driver)
    (w : World) : Int × Driver × World :=
  let w1 := w.call (.get_buffer_time_max r.get_buffer_time_max)
  if r.get_buffer_time_max < 0 then (0, d, w1.call .hw_params_free)
  else
    let buffer_time :=
      if r.buffer_time_max > BUFFER_MAX_USEC then BUFFER_MAX_USEC else r.buffer_time_max
    let period_time := buffer_time / 4
    let w2 := w1.call (.set_period_time_near period_time r.set_period_time_near)
    if r.set_period_time_near < 0 then (0, d, w2.call .hw_params_free)
    else
      let w3 := w2.call (.set_buffer_time_near buffer_time r.set_buffer_time_near)
      if r.set_buffer_time_near < 0 then (0, d, w3.call .hw_params_free)
      else
        let w4 := w3.call (.hw_params r.hw_params)
        if r.hw_params < 0 then (0, d, w4.call .hw_params_free)
        else alsa_open_finish sp r Bps d w4

/-- The function `alsa_open`.  The value is the return value (1 on success,
0 on failure), the new driver state and the new world. -/
def alsa_open (sp : sound_params) (r : OpenResp) (d : Driver) (w : World) :
    Res (Int × Driver × World) :=
  let d0 := { d with params_format := format_to_mask (Int.land sp.fmt SFMT_MASK_FORMAT) }
  if d0.params_format = SND_PCM_FORMAT_UNKNOWN then .ret (0, d0, w)
  else
    match alsa_open_device r.pcm_open r.hw_params_malloc r.hw_params_any d0 w with
    | (false, d1, w1) => .ret (0, d1, w1)
    | (true, d1, w1) =>
      let w2 := w1.call (.set_access r.set_access)
      if r.set_access < 0 then .ret (0, d1, w2.call .hw_params_free)
      else
        let w3 := w2.call (.set_format d1.params_format r.set_format)
        if r.set_format < 0 then .ret (0, d1, w3.call .hw_params_free)
        else
          match sfmt_Bps sp.fmt with
          | none => .abort
          | some Bps =>
            let d2 := { d1 with params_rate := to_uint sp.rate }
            let w4 := w3.call (.set_rate_near d2.params_rate r.set_rate_near)
            if r.set_rate_near < 0 then .ret (0, d2, w4.call .hw_params_free)
            else
              let d3 := { d2 with params_rate := r.rate }
              let w5 := w4.call (.set_channels (to_uint sp.channels) r.set_channels)
              if r.set_channels < 0 then .ret (0, d3, w5.call .hw_params_free)
              else .ret (alsa_open_times sp r Bps d3 w5)

/-! ## Closing a session -/

/-- The two facts about ALSA sample formats that `snd_pcm_format_set_silence`
depends on: the bytes one sample takes, and the byte at a given position of a
run of silent samples. -/
structure PcmLib where
  sample_bytes : Int → Nat
  silence : Int → Nat → Byte

/-- The sample sizes and silence patterns of the six mapped formats on a
little-endian host: zero bytes for the signed formats, `0x80` in the most
significant byte of each sample for the unsigned ones. -/
def pcm_lib_le : PcmLib where
  sample_bytes := fun f =>
    if f = SND_PCM_FORMAT_S8 ∨ f = SND_PCM_FORMAT_U8 then 1
    else if f = SND_PCM_FORMAT_S16 ∨ f = SND_PCM_FORMAT_U16 then 2
    else if f = SND_PCM_FORMAT_S32 ∨ f = SND_PCM_FORMAT_U32 then 4
    else 0
  silence := fun f k =>
    if f = SND_PCM_FORMAT_U8 then 0x80
    else if f = SND_PCM_FORMAT_U16 then (if k % 2 = 1 then 0x80 else 0)
    else if f = SND_PCM_FORMAT_U32 then (if k % 4 = 3 then 0x80 else 0)
    else 0

/-- The call `snd_pcm_format_set_silence (format, alsa_buf + off, samples)`:
it fills `samples` samples, that is `samples * sample_bytes format` bytes. -/
def snd_pcm_format_set_silence (lib : PcmLib) (format : Int) (buf : Int → Byte)
    (off : Int) (samples : Nat) : Int → Byte :=
  fun i =>
    if off ≤ i ∧ i < off + ((samples * lib.sample_bytes format : Nat) : Int)
    then lib.silence format (i - off).toNat else buf i

/-- The number of samples `alsa_close` asks to be silenced:
`(chunk_bytes - alsa_buf_fill) / bytes_per_frame * params.channels`. -/
def silence_samples (d : Driver) : Nat :=
  to_uint (Int.tdiv (d.chunk_bytes - d.alsa_buf_fill) d.bytes_per_frame * d.params_channels)

/-- The first `n` bytes of a run of silent samples of a format. -/
def silence_run (lib : PcmLib) (format : Int) (n : Nat) : List Byte :=
  (List.range n).map (lib.silence format)

/-- The padding step of `alsa_close`: silence after the staged bytes, then
`alsa_buf_fill = chunk_bytes`. -/
def alsa_close_pad (lib : PcmLib) (d : Driver) (w : World) : Driver × World :=
  ({ d with
      alsa_buf := snd_pcm_format_set_silence lib d.params_format d.alsa_buf
        d.alsa_buf_fill (silence_samples d)
      alsa_buf_fill := d.chunk_bytes },
   w.call (.set_silence d.params_format d.alsa_buf_fill (silence_samples d)))

/-- What the device answers to `snd_pcm_delay` in `alsa_close`. -/
structure CloseResp where
  delay_rc : Int
  delay : Int

/-- The end of `alsa_close`: sleep for the queued frames, close the device,
clear the session variables. -/
def alsa_close_finish (cr : CloseResp) (d : Driver) (w : World) : Driver × World :=
  let w1 := w.call (.pcm_delay cr.delay_rc)
  let w2 := if cr.delay_rc = 0 then w1.call (.xsleep cr.delay d.params_rate) else w1
  let w3 := snd_pcm_close d w2
  ({ d with
      params_format := 0, params_rate := 0, params_channels := 0,
      buffer_frames := 0, chunk_frames := 0, chunk_bytes := -1, handle := none },
   w3)

/-- The flush at the end of the padding branch of `alsa_close`
(`play_buf_chunks ()`, its return value ignored) followed by the end of
`alsa_close`. -/
def alsa_close_flush (cr : CloseResp) (d : Driver) (w : World) (rs : List DevResp) :
    Res (Driver × World × List DevResp) :=
  match play_buf_chunks d w rs with
  | .ret (_, d2, w2, rs2) =>
    .ret ((alsa_close_finish cr d2 w2).1, (alsa_close_finish cr d2 w2).2, rs2)
  | .abort => .abort
  | .pending d2 w2 => .pending d2 w2

/-- The function `alsa_close`.  The flush of the padded chunk takes its device
answers from the script `rs`. -/
def alsa_close (lib : PcmLib) (cr : CloseResp) (d : Driver) (w : World)
    (rs : List DevResp) : Res (Driver × World × List DevResp) :=
  if d.handle = none then .abort
  else if d.alsa_buf_fill ≠ 0 then
    if d.alsa_buf_fill < d.chunk_bytes then
      alsa_close_flush cr (alsa_close_pad lib d w).1 (alsa_close_pad lib d w).2 rs
    else .abort
  else .ret ((alsa_close_finish cr d w).1, (alsa_close_finish cr d w).2, rs)

/-! ## The mixer -/

/-- The constant `SND_MIXER_SCHN_LAST`. -/
def SND_MIXER_SCHN_LAST : Nat := 31

/-- A mixer element as the ALSA simple-mixer interface shows it: whether its
playback volume is joined, which sub-channels it has, the volume of each
sub-channel, and the return codes it gives to reads and to writes. -/
structure ElemHw where
  joined : Bool
  has_channel : Nat → Bool
  volume : Nat → Int
  get_rc : Nat → Int
  set_rc : Int

/-- Calls made to the mixer part of the ALSA library. -/
inductive MixerCall where
  | set_volume_all (elem : Nat) (vol : Int) (rc : Int)
  | get_volume (elem : Nat) (chan : Nat) (rc : Int)
  | mixer_open (rc : Int)
  | mixer_attach (rc : Int)
  | mixer_register (rc : Int)
  | mixer_load (rc : Int)
  | mixer_close
  | find_selem (elem : Option Nat)
  | set_volume_range (elem : Nat) (rc : Int)
deriving DecidableEq, Repr

/-- The mixer hardware: the elements by identity, the external volume changes
(element, sub-channel, volume) that are waiting to be picked up by
`handle_mixer_events`, and the trace of volume calls. -/
structure MixerWorld where
  elem : Nat → ElemHw
  events : List (Nat × Nat × Int)
  log : List MixerCall

/-- The file-scope variables of `alsa.c` that belong to the mixer; `none` is
`NULL`, an element pointer is the identity of the element. -/
structure Mixer where
  mixer_handle : Option Nat
  mixer_elem1 : Option Nat
  mixer_elem2 : Option Nat
  mixer_elem_curr : Option Nat
  volume1 : Int
  volume2 : Int

/-- One external change applied to the elements. -/
def apply_event (elem : Nat → ElemHw) (ev : Nat × Nat × Int) : Nat → ElemHw :=
  fun e =>
    if e = ev.1 then
      { elem e with volume := fun c => if c = ev.2.1 then ev.2.2 else (elem e).volume c }
    else elem e

/-- The function `handle_mixer_events`: pending external changes become
visible to the volume reads that follow. -/
def handle_mixer_events (mw : MixerWorld) : MixerWorld :=
  { mw with elem := mw.events.foldl apply_event mw.elem, events := [] }

/-- The `for (chan_id ...)` loop of `alsa_read_mixer_raw` over the remaining
sub-channel ids; `nchannels` and `volume` are the local variables.  `ret none`
is the early `return -1` after a failed read, `abort` the failed
`assert (RANGE(0, vol, 100))`. -/
def read_channels (id : Nat) (e : ElemHw) :
    List Nat → Int → Int → MixerWorld → Res (Option (Int × Int) × MixerWorld)
  | [], nchannels, volume, mw => .ret (some (nchannels, volume), mw)
  | c :: cs, nchannels, volume, mw =>
    if e.has_channel c then
      let mw1 := { mw with log := mw.log ++ [.get_volume id c (e.get_rc c)] }
      if e.get_rc c < 0 then .ret (none, mw1)
      else if RANGE 0 (e.volume c) 100 then
        if e.joined then .ret (some (nchannels + 1, volume + e.volume c), mw1)
        else read_channels id e cs (nchannels + 1) (volume + e.volume c) mw1
      else .abort
    else if e.joined then .ret (some (nchannels, volume), mw)
    else read_channels id e cs nchannels volume mw

/-- The function `alsa_read_mixer_raw (elem)`. -/
def alsa_read_mixer_raw (m : Mixer) (mw : MixerWorld) (elem : Option Nat) :
    Res (Int × MixerWorld) :=
  if m.mixer_handle = none then .ret (-1, mw)
  else
    match elem with
    | none => .abort
    | some id =>
      let mw1 := handle_mixer_events mw
      match read_channels id (mw1.elem id) (List.range SND_MIXER_SCHN_LAST) 0 0 mw1 with
      | .ret (none, mw2) => .ret (-1, mw2)
      | .ret (some (nchannels, volume), mw2) =>
        if nchannels = 0 then .ret (-1, mw2)
        else .ret (Int.tdiv volume nchannels, mw2)
      | .abort => .abort
      | .pending d w => .pending d w

/-- The function `alsa_read_mixer`. -/
def alsa_read_mixer (m : Mixer) (mw : MixerWorld) : Res (Int × Mixer × MixerWorld) :=
  match alsa_read_mixer_raw m mw m.mixer_elem_curr with
  | .ret (actual_vol, mw1) =>
    if RANGE 0 actual_vol 100 then
      if m.mixer_elem_curr = m.mixer_elem1 then
        .ret (actual_vol,
          if m.volume1 ≠ actual_vol then { m with volume1 := actual_vol } else m, mw1)
      else
        .ret (actual_vol,
          if m.volume2 ≠ actual_vol then { m with volume2 := actual_vol } else m, mw1)
    else .abort
  | .abort => .abort
  | .pending d w => .pending d w

/-- The call `snd_mixer_selem_set_playback_volume_all (elem, vol)`: when the
element accepts the write every sub-channel gets the volume. -/
def snd_mixer_selem_set_playback_volume_all (mw : MixerWorld) (id : Nat) (vol : Int) :
    MixerWorld :=
  let e := mw.elem id
  { mw with
    elem := fun i =>
      if i = id ∧ 0 ≤ e.set_rc then { e with volume := fun _ => vol } else mw.elem i
    log := mw.log ++ [.set_volume_all id vol e.set_rc] }

/-- The function `alsa_set_mixer (vol)`.  Passing a `NULL` element to the
library is a failed assertion inside the library. -/
def alsa_set_mixer (vol : Int) (m : Mixer) (mw : MixerWorld) : Res (Mixer × MixerWorld) :=
  if RANGE 0 vol 100 then
    if m.mixer_handle ≠ none then
      let m1 :=
        if m.mixer_elem_curr = m.mixer_elem1 then { m with volume1 := vol }
        else { m with volume2 := vol }
      match m.mixer_elem_curr with
      | none => .abort
      | some id => .ret (m1, snd_mixer_selem_set_playback_volume_all mw id vol)
    else .ret (m, mw)
  else .abort

/-- The function `alsa_set_mixer (vol)` followed statement by statement to
the point where the call ends.  The Boolean tells whether the call returned
(`false`: a failed assertion ended the process there); the mixer variables
and the mixer hardware are those at that point, so that whatever was done
before a failed assertion stays visible.  `ndebug` tells whether the file is
compiled with `NDEBUG` defined, which makes `assert (RANGE(0, vol, 100))`
expand to nothing.  Passing a `NULL` element to the library is a failed
assertion inside the library. -/
def alsa_set_mixer_run (ndebug : Bool) (vol : Int) (m : Mixer) (mw : MixerWorld) :
    Bool × Mixer × MixerWorld :=
  if ndebug = false ∧ RANGE 0 vol 100 = false then (false, m, mw)
  else if m.mixer_handle ≠ none then
    let m1 :=
      if m.mixer_elem_curr = m.mixer_elem1 then { m with volume1 := vol }
      else { m with volume2 := vol }
    match m.mixer_elem_curr with
    | none => (false, m1, mw)
    | some id => (true, m1, snd_mixer_selem_set_playback_volume_all mw id vol)
  else (true, m, mw)


/-! ## Postconditions of the two loops -/

/-- How a run of the flush loop that gave up ends: the consumed answers are
non-fatal ones followed by one fatal answer, and the last two library calls
are the failed write and the failed recovery. -/
def gave_up (used : List DevResp) (calls : List Call) : Prop :=
  ∃ pre f calls0 off frames, used = pre ++ [f] ∧ f.fatal ∧ (∀ x ∈ pre, ¬ x.fatal) ∧
    calls = calls0 ++ [.pcm_writei off frames f.writei, .pcm_recover f.writei f.recover]

/-- What a returned run of the flush loop guarantees.  `used` are the device
answers it consumed, `acc` the bytes the device accepted, `calls` the library
calls it made. -/
structure FlushPost (written : Int) (d : Driver) (w : World) (rs : List DevResp)
    (r : Int) (d' : Driver) (w' : World) (rs' : List DevResp)
    (used : List DevResp) (acc : List Byte) (calls : List Call) : Prop where
  config : d.same_config d'
  script : rs = used ++ rs'
  played : w'.played = w.played ++ acc
  opened : w'.opened = w.opened
  live : w'.live = w.live
  log : w'.log = w.log ++ calls
  frames : frames_reported calls * d.bytes_per_frame = acc.length
  frames_script : frames_reported calls = script_frames used
  writes : writes_issued calls = used.length
  acc_eq : acc = slice d.alsa_buf written acc.length
  fill : d'.alsa_buf_fill = d.alsa_buf_fill - acc.length
  nonneg : 0 < d.chunk_bytes → (∀ x ∈ used, x.within d) →
    0 ≤ d.alsa_buf_fill → 0 ≤ d'.alsa_buf_fill
  cases : (r = written + acc.length ∧ d'.alsa_buf_fill < d.chunk_bytes ∧
            d'.alsa_buf = memmove_front d.alsa_buf r d'.alsa_buf_fill ∧
            (∀ x ∈ used, ¬ x.fatal)) ∨
          (r = -1 ∧ d.chunk_bytes ≤ d'.alsa_buf_fill ∧ d'.alsa_buf = d.alsa_buf ∧
            gave_up used calls)

/-- What a returned run of the copy-and-flush loop of `alsa_play` guarantees.
The facts in `sane` need a device that never reports more frames than it was
asked to write; the others hold for every device. -/
structure PlayPost (buff : List Byte) (buf_pos : Int) (d : Driver) (w : World)
    (rs : List DevResp) (r : Int) (d' : Driver) (w' : World) (rs' : List DevResp)
    (used : List DevResp) (acc : List Byte) (calls : List Call) : Prop where
  config : d.same_config d'
  script : rs = used ++ rs'
  played : w'.played = w.played ++ acc
  opened : w'.opened = w.opened
  live : w'.live = w.live
  log : w'.log = w.log ++ calls
  frames : frames_reported calls * d.bytes_per_frame = acc.length
  frames_script : frames_reported calls = script_frames used
  writes : writes_issued calls = used.length
  fill_le : d'.alsa_buf_fill ≤ alsa_buf_size
  sane : (∀ x ∈ used, x.within d) → 0 ≤ d.alsa_buf_fill →
    0 ≤ d'.alsa_buf_fill ∧
    (r = buff.length → acc ++ d'.staged = d.staged ++ buff.drop buf_pos.toNat)
  cases : (r = buff.length ∧
            (d.alsa_buf_fill < d.chunk_bytes → d'.alsa_buf_fill < d.chunk_bytes) ∧
            (∀ x ∈ used, ¬ x.fatal)) ∨
          (r = -1 ∧ d.chunk_bytes ≤ d'.alsa_buf_fill ∧ gave_up used calls)

/-! ## Concrete sessions used in worked examples -/

/-- The value of a returned call, or `dflt` when the call did not return. -/
def Res.get {α : Type} (x : Res α) (dflt : α) : α :=
  match x with
  | .ret a => a
  | _ => dflt

/-- A small Streaming session: frames of 2 bytes, chunks of 2 frames, nothing
staged. -/
def tiny_driver : Driver where
  handle := some 0
  params_channels := 1
  params_rate := 8000
  params_format := SND_PCM_FORMAT_S16
  buffer_frames := 8
  chunk_frames := 2
  chunk_bytes := 4
  alsa_buf := fun _ => 0
  alsa_buf_fill := 0
  bytes_per_frame := 2

/-- A world in which one handle (number 0) is open and nothing was played. -/
def tiny_world : World where
  played := []
  opened := 1
  live := [0]
  log := []

/-- A device script with a zero-frame write, a partial write, a write error
that recovers, a write error whose recovery has to wait, and full writes. -/
def tiny_script : List DevResp :=
  [⟨0, 0, 0⟩, ⟨1, 0, 0⟩, ⟨-32, 0, 0⟩, ⟨-11, -11, 0⟩, ⟨2, 0, 0⟩, ⟨2, 0, 0⟩]

/-- Playing six bytes on the small session against `tiny_script`. -/
def tiny_run : Res (Int × Driver × World × List DevResp) :=
  alsa_play 10 [1, 2, 3, 4, 5, 6] tiny_driver tiny_world tiny_script

/-- The outcome of `tiny_run`. -/
def tiny_out : Int × Driver × World × List DevResp :=
  tiny_run.get (0, tiny_driver, tiny_world, [])

/-! ## Sequences of calls -/

/-- A sequence of `alsa_play` calls, one for each byte string, each made when
the previous one has returned; the return values are collected. -/
def play_all (fuel : Nat) :
    List (List Byte) → Driver → World → List DevResp →
      Res (List Int × Driver × World × List DevResp)
  | [], d, w, rs => .ret ([], d, w, rs)
  | b :: bs, d, w, rs =>
    match alsa_play fuel b d w rs with
    | .ret (r, d1, w1, rs1) =>
      match play_all fuel bs d1 w1 rs1 with
      | .ret (outs, d2, w2, rs2) => .ret (r :: outs, d2, w2, rs2)
      | .abort => .abort
      | .pending d2 w2 => .pending d2 w2
    | .abort => .abort
    | .pending d1 w1 => .pending d1 w1

/-- Total byte length of a sequence of byte strings. -/
def total_bytes (bufs : List (List Byte)) : Nat :=
  (bufs.map List.length).sum

/-- The session variables right after a successful `alsa_open` whose chunk
size did not overflow: an open handle, a positive frame size and period,
`chunk_bytes = chunk_frames * bytes_per_frame`, and nothing staged. -/
def Driver.fresh (d : Driver) : Prop :=
  d.handle ≠ none ∧ 0 < d.bytes_per_frame ∧ 0 < d.chunk_frames ∧
  d.chunk_bytes = (d.chunk_frames : Int) * d.bytes_per_frame ∧ d.alsa_buf_fill = 0

instance (d : Driver) : Decidable d.fresh := by
  unfold Driver.fresh; infer_instance

/-- A device answer that is a zero-frame write or a write of the whole
requested chunk. -/
def DevResp.zero_or_full (d : Driver) (r : DevResp) : Prop :=
  r.writei = 0 ∨ r.writei = Int.tdiv d.chunk_bytes d.bytes_per_frame

instance (d : Driver) (r : DevResp) : Decidable (r.zero_or_full d) := by
  unfold DevResp.zero_or_full; infer_instance

/-- One call of exactly one chunk on the small session, answered by a partial
write of one frame. -/
def short_run : Res (List Int × Driver × World × List DevResp) :=
  play_all 10 [[1, 2, 3, 4]] tiny_driver tiny_world [⟨1, 0, 0⟩]

/-- The outcome of `short_run`. -/
def short_out : List Int × Driver × World × List DevResp :=
  short_run.get ([], tiny_driver, tiny_world, [])

/-- Two calls that together make two chunks on the small session, answered by
zero-frame and full-chunk writes. -/
def whole_run : Res (List Int × Driver × World × List DevResp) :=
  play_all 10 [[1, 2, 3], [4, 5, 6, 7, 8]] tiny_driver tiny_world
    [⟨0, 0, 0⟩, ⟨2, 0, 0⟩, ⟨2, 0, 0⟩]

/-- The outcome of `whole_run`. -/
def whole_out : List Int × Driver × World × List DevResp :=
  whole_run.get ([], tiny_driver, tiny_world, [])

/-- Number of answers in a script that report at least one frame written. -/
def progress_count : List DevResp → Nat
  | [] => 0
  | x :: xs => (if x.writei > 0 then 1 else 0) + progress_count xs

/-! ## Reachable session states -/

/-- The driver state in which a call ended (returned) or is waiting for the
next device answer (pending). -/
def Res.driver? : Res (Int × Driver × World × List DevResp) → Option Driver
  | .ret (_, d, _, _) => some d
  | .pending d _ => some d
  | .abort => none

/-- Session states reachable from a successful `alsa_open` by `alsa_play`
calls, against device answers that are zero-frame, partial or full-chunk
writes (or error codes).
The state of a call that is waiting for the next device answer counts as
reachable, so the states between the hardware writes of one call are covered
as well as the states between calls. -/
inductive Reachable : Driver → Prop where
  | opened (sp : sound_params) (r : OpenResp) (d0 : Driver) (w0 : World) (d : Driver)
      (w : World) : alsa_open sp r d0 w0 = .ret (1, d, w) → Reachable d
  | played (d : Driver) (fuel : Nat) (buff : List Byte) (w : World) (rs : List DevResp)
      (d' : Driver) : Reachable d → (∀ x ∈ rs, x.bounded d) →
      (alsa_play fuel buff d w rs).driver? = some d' → Reachable d'

/-- A request for 16-bit signed stereo at 44100 Hz. -/
def cd_params : sound_params where
  channels := 2
  rate := 44100
  fmt := SFMT_S16

/-- A device that accepts every call, reports a maximal buffer time of
500000 us, and settles on a period of 3307 frames in a buffer of 13230. -/
def cd_resp : OpenResp where
  pcm_open := 0
  hw_params_malloc := 0
  hw_params_any := 0
  set_access := 0
  set_format := 0
  set_rate_near := 0
  rate := 44100
  set_channels := 0
  get_buffer_time_max := 0
  buffer_time_max := 500000
  set_period_time_near := 0
  set_buffer_time_near := 0
  hw_params := 0
  period_size := 3307
  buffer_size := 13230
  prepare := 0

/-- The driver before any session was opened (the initial values of the
file-scope variables). -/
def closed_driver : Driver where
  handle := none
  params_channels := 0
  params_rate := 0
  params_format := SND_PCM_FORMAT_UNKNOWN
  buffer_frames := 0
  chunk_frames := 0
  chunk_bytes := -1
  alsa_buf := fun _ => 0
  alsa_buf_fill := 0
  bytes_per_frame := 0

/-- A world in which no handle was opened yet. -/
def new_world : World where
  played := []
  opened := 0
  live := []
  log := []

/-- The outcome of opening the 16-bit stereo session from the closed state. -/
def cd_open : Int × Driver × World :=
  (alsa_open cd_params cd_resp closed_driver new_world).get (0, closed_driver, new_world)

/-- The session opened by `cd_open`. -/
def cd_driver : Driver := cd_open.2.1

/-- A call of four bytes on the opened session (four bytes are less than a
chunk, so nothing is written to the device). -/
def cd_play : Int × Driver × World × List DevResp :=
  (alsa_play 5 [1, 2, 3, 4] cd_driver cd_open.2.2 []).get (0, cd_driver, cd_open.2.2, [])

/-- The session after `cd_play`: open, with four bytes staged. -/
def cd_after : Driver := cd_play.2.1

/-- The library calls recorded in `w` since `w0` all satisfy `P`. -/
def World.since (w0 w : World) (P : Call → Prop) : Prop :=
  ∃ calls, w.log = w0.log ++ calls ∧ ∀ c ∈ calls, P c

/-- The call is not `snd_pcm_prepare`. -/
def Call.not_prepare : Call → Prop
  | .pcm_prepare _ => False
  | _ => True

/-- A device like `cd_resp` on which `snd_pcm_hw_params_set_access` fails. -/
def no_access_resp : OpenResp := { cd_resp with set_access := -22 }

/-- The outcome of opening from the closed state on `no_access_resp`. -/
def no_access_open : Int × Driver × World :=
  (alsa_open cd_params no_access_resp closed_driver new_world).get
    (1, closed_driver, new_world)

/-- A device like `cd_resp` that hands out a second handle: the outcome of
calling `alsa_open` again while the session of `cd_play` is open. -/
def second_open : Int × Driver × World :=
  (alsa_open cd_params cd_resp cd_after cd_play.2.2.1).get (0, cd_after, cd_play.2.2.1)

/-- A device that refuses to be opened (`-EBUSY`). -/
def busy_resp : OpenResp := { cd_resp with pcm_open := -16 }

/-! ## Closing: worked examples -/

/-- The session variables agree with the negotiated format the way
`alsa_open` sets them up: a frame is `params.channels` samples of
`params.format`, a chunk is a whole number of frames, and `chunk_bytes` is in
the range of `int`. -/
def Driver.framed (lib : PcmLib) (d : Driver) : Prop :=
  0 < d.bytes_per_frame ∧
  d.bytes_per_frame = ((d.params_channels * lib.sample_bytes d.params_format : Nat) : Int) ∧
  d.bytes_per_frame ∣ d.chunk_bytes ∧ d.chunk_bytes < 2 ^ 31

instance (lib : PcmLib) (d : Driver) : Decidable (d.framed lib) := by
  unfold Driver.framed; infer_instance

/-- Five bytes played on the small session (frames of 2 bytes, chunks of 4
bytes) against one full write: one byte stays staged. -/
def odd_play : Int × Driver × World × List DevResp :=
  (alsa_play 5 [1, 2, 3, 4, 5] tiny_driver tiny_world [⟨2, 0, 0⟩]).get
    (0, tiny_driver, tiny_world, [])

/-- The padded state of `alsa_close` after `odd_play`. -/
def odd_padded : Driver :=
  (alsa_close_pad pcm_lib_le odd_play.2.1 odd_play.2.2.1).1

/-- The small session (frames of 2 bytes, chunks of 4 bytes) with one frame,
the bytes 7 and 9, staged. -/
def half_driver : Driver :=
  { tiny_driver with
    alsa_buf := fun i => if i = 0 then 7 else if i = 1 then 9 else 0
    alsa_buf_fill := 2 }

/-- The outcome of `alsa_close` on `half_driver` when the device takes the
whole padded chunk at once. -/
def half_close : Driver × World × List DevResp :=
  (alsa_close pcm_lib_le ⟨0, 0⟩ half_driver tiny_world [⟨2, 0, 0⟩]).get
    (half_driver, tiny_world, [])

/-- Four bytes played on the small session against a write error whose
recovery fails with `-ENODEV`. -/
def fatal_play : Int × Driver × World × List DevResp :=
  (alsa_play 5 [1, 2, 3, 4] tiny_driver tiny_world [⟨-32, -19, 0⟩]).get
    (0, tiny_driver, tiny_world, [])

/-! ## The mixer: worked examples -/

/-- A two-channel element (sub-channels 0 and 1, not joined) at volume 30
that accepts reads and writes. -/
def stereo_elem : ElemHw where
  joined := false
  has_channel := fun c => decide (c < 2)
  volume := fun _ => 30
  get_rc := fun _ => 0
  set_rc := 0

/-- A joined element whose only sub-channel has id 1, at volume 30, that
accepts reads and writes. -/
def joined_elem : ElemHw where
  joined := true
  has_channel := fun c => decide (c = 1)
  volume := fun _ => 30
  get_rc := fun _ => 0
  set_rc := 0

/-- A two-channel element at volume 30 that refuses volume writes. -/
def readonly_elem : ElemHw := { stereo_elem with set_rc := -1 }

/-- Mixer variables with the first element (identity 0) present and current,
and no second element. -/
def one_mixer : Mixer where
  mixer_handle := some 0
  mixer_elem1 := some 0
  mixer_elem2 := none
  mixer_elem_curr := some 0
  volume1 := 30
  volume2 := -1

/-- Mixer hardware whose elements all behave like `e`, with no external
change pending. -/
def mixer_world (e : ElemHw) : MixerWorld where
  elem := fun _ => e
  events := []
  log := []

/-- The call `alsa_set_mixer (50)` followed by `alsa_read_mixer ()` on
`one_mixer` with element `e`: the outcome of the read, or `none` when one of
the two calls does not return. -/
def set_then_read (e : ElemHw) : Option Int :=
  match alsa_set_mixer 50 one_mixer (mixer_world e) with
  | .ret (m1, mw1) =>
    match alsa_read_mixer m1 mw1 with
    | .ret (v, _, _) => some v
    | _ => none
  | _ => none

/-- Whether `alsa_read_mixer` after `alsa_set_mixer (50)` on `one_mixer` with
element `e` fails an assertion. -/
def set_then_read_aborts (e : ElemHw) : Bool :=
  match alsa_set_mixer 50 one_mixer (mixer_world e) with
  | .ret (m1, mw1) =>
    match alsa_read_mixer m1 mw1 with
    | .abort => true
    | _ => false
  | _ => false

/-! ## Driver initialisation, mixer toggle, reset and the capability probe -/

/-- Record one mixer library call. -/
def MixerWorld.call (mw : MixerWorld) (c : MixerCall) : MixerWorld :=
  { mw with log := mw.log ++ [c] }

/-- What the mixer library answers while `alsa_init_mixer_channel` sets up one
named element: the element found by `snd_mixer_find_selem` (`none` is
`NULL`), whether it has a playback volume, and the return code of
`snd_mixer_selem_set_playback_volume_range`. -/
structure ElemInit where
  found : Option Nat
  has_playback_volume : Bool
  set_range : Int

/-- What the mixer library answers to the calls of `alsa_init`: the return
codes of opening, attaching, registering and loading the mixer, and the
answers for the elements named by `ALSAMixer1` and `ALSAMixer2`. -/
structure InitResp where
  mixer_open : Int
  mixer_attach : Int
  mixer_register : Int
  mixer_load : Int
  elem1 : ElemInit
  elem2 : ElemInit

/-- The initial values of the mixer variables of `alsa.c`. -/
def mixer_start : Mixer where
  mixer_handle := none
  mixer_elem1 := none
  mixer_elem2 := none
  mixer_elem_curr := none
  volume1 := -1
  volume2 := -1

/-- The function `alsa_init_mixer_channel (name)`; the value is the element
or `none` for `NULL`. -/
def alsa_init_mixer_channel (ei : ElemInit) (mw : MixerWorld) : Option Nat × MixerWorld :=
  match ei.found with
  | none => (none, mw.call (.find_selem none))
  | some id =>
    let mw1 := mw.call (.find_selem (some id))
    if ei.has_playback_volume = false then (none, mw1)
    else
      let mw2 := mw1.call (.set_volume_range id ei.set_range)
      if ei.set_range < 0 then (none, mw2) else (some id, mw2)

/-- The start of `alsa_init`: open, attach, register and load the mixer; on a
failure the mixer is closed again (when it was opened) and `mixer_handle` is
`NULL`. -/
def alsa_init_open (ir : InitResp) (m : Mixer) (mw : MixerWorld) : Mixer × MixerWorld :=
  let mw1 := mw.call (.mixer_open ir.mixer_open)
  if ir.mixer_open < 0 then ({ m with mixer_handle := none }, mw1)
  else
    let mw2 := mw1.call (.mixer_attach ir.mixer_attach)
    if ir.mixer_attach < 0 then ({ m with mixer_handle := none }, mw2.call .mixer_close)
    else
      let mw3 := mw2.call (.mixer_register ir.mixer_register)
      if ir.mixer_register < 0 then ({ m with mixer_handle := none }, mw3.call .mixer_close)
      else
        let mw4 := mw3.call (.mixer_load ir.mixer_load)
        if ir.mixer_load < 0 then ({ m with mixer_handle := none }, mw4.call .mixer_close)
        else ({ m with mixer_handle := some 0 }, mw4)

/-- The `if (mixer_handle)` block of `alsa_init` that sets up the two
elements. -/
def alsa_init_elems (ir : InitResp) (m : Mixer) (mw : MixerWorld) : Mixer × MixerWorld :=
  if m.mixer_handle ≠ none then
    ({ m with
        mixer_elem1 := (alsa_init_mixer_channel ir.elem1 mw).1
        mixer_elem2 :=
          (alsa_init_mixer_channel ir.elem2 (alsa_init_mixer_channel ir.elem1 mw).2).1 },
     (alsa_init_mixer_channel ir.elem2 (alsa_init_mixer_channel ir.elem1 mw).2).2)
  else (m, mw)

/-- The first `if`/`else` inside `if (mixer_elem_curr)` of `alsa_init`: the
initial read of the first element. -/
def alsa_init_read1 (m : Mixer) (mw : MixerWorld) : Res (Mixer × MixerWorld) :=
  match m.mixer_elem1 with
  | none => .ret ({ m with mixer_elem1 := none, mixer_elem_curr := m.mixer_elem2 }, mw)
  | some id =>
    match alsa_read_mixer_raw m mw (some id) with
    | .ret (vol, mw1) =>
      if vol ≠ -1 then
        if RANGE 0 vol 100 then .ret ({ m with volume1 := vol }, mw1) else .abort
      else .ret ({ m with mixer_elem1 := none, mixer_elem_curr := m.mixer_elem2 }, mw1)
    | .abort => .abort
    | .pending d w => .pending d w

/-- The second `if`/`else` inside `if (mixer_elem_curr)` of `alsa_init`: the
initial read of the second element. -/
def alsa_init_read2 (m : Mixer) (mw : MixerWorld) : Res (Mixer × MixerWorld) :=
  match m.mixer_elem2 with
  | none => .ret ({ m with mixer_elem2 := none, mixer_elem_curr := m.mixer_elem1 }, mw)
  | some id =>
    match alsa_read_mixer_raw m mw (some id) with
    | .ret (vol, mw1) =>
      if vol ≠ -1 then
        if RANGE 0 vol 100 then .ret ({ m with volume2 := vol }, mw1) else .abort
      else .ret ({ m with mixer_elem2 := none, mixer_elem_curr := m.mixer_elem1 }, mw1)
    | .abort => .abort
    | .pending d w => .pending d w

/-- The body of `if (mixer_elem_curr)` in `alsa_init`: the two initial reads,
then closing the mixer when no element is left. -/
def alsa_init_reads (m : Mixer) (mw : MixerWorld) : Res (Mixer × MixerWorld) :=
  match alsa_init_read1 m mw with
  | .ret (m4, mw4) =>
    match alsa_init_read2 m4 mw4 with
    | .ret (m5, mw5) =>
      if m5.mixer_elem_curr = none then
        .ret ({ m5 with mixer_handle := none }, mw5.call .mixer_close)
      else .ret (m5, mw5)
    | .abort => .abort
    | .pending d w => .pending d w
  | .abort => .abort
  | .pending d w => .pending d w

/-- The mixer part of `alsa_init` (everything before the call of
`fill_capabilities`). -/
def alsa_init_mixer (ir : InitResp) (m : Mixer) (mw : MixerWorld) : Res (Mixer × MixerWorld) :=
  let p := alsa_init_elems ir (alsa_init_open ir m mw).1 (alsa_init_open ir m mw).2
  let m3 : Mixer := { p.1 with
    mixer_elem_curr := if p.1.mixer_elem1 ≠ none then p.1.mixer_elem1 else p.1.mixer_elem2 }
  if m3.mixer_elem_curr ≠ none then alsa_init_reads m3 p.2
  else if m3.mixer_handle ≠ none then
    .ret ({ m3 with mixer_handle := none }, p.2.call .mixer_close)
  else .ret (m3, p.2)

/-- The function `alsa_toggle_mixer_channel`. -/
def alsa_toggle_mixer_channel (m : Mixer) : Mixer :=
  if m.mixer_elem_curr = m.mixer_elem1 ∧ m.mixer_elem2 ≠ none then
    { m with mixer_elem_curr := m.mixer_elem2 }
  else if m.mixer_elem1 ≠ none then
    { m with mixer_elem_curr := m.mixer_elem1 }
  else m

/-- What the device answers to the two calls of `alsa_reset`. -/
structure ResetResp where
  drop : Int
  prepare : Int

/-- The function `alsa_reset`. -/
def alsa_reset (rr : ResetResp) (d : Driver) (w : World) : Int × Driver × World :=
  if d.handle ≠ none then
    let w1 := w.call (.pcm_drop rr.drop)
    if rr.drop < 0 then (0, d, w1)
    else
      let w2 := w1.call (.pcm_prepare rr.prepare)
      if rr.prepare < 0 then (0, d, w2)
      else (1, { d with alsa_buf_fill := 0 }, w2)
  else (1, d, w)

/-- Modelled from the spec: the native-endianness bit of a format word
(`SFMT_NE` of `audio.h`, not part of the sources), on a little-endian host. -/
def SFMT_NE : Int := 0x1000

/-- The `struct output_driver_caps` filled by the capability probe. -/
structure output_driver_caps where
  formats : Int
  min_channels : Int
  max_channels : Int

/-- What the device answers to the calls of `fill_capabilities`: return codes
and the values stored through pointer arguments. -/
structure ProbeResp where
  pcm_open : Int
  hw_params_malloc : Int
  hw_params_any : Int
  get_channels_min : Int
  channels_min : Nat
  get_channels_max : Int
  channels_max : Nat
  format_mask_malloc : Int
  format_mask : Int → Bool

/-- The function `fill_capabilities (caps)`.  The value is the return value
(1 on success, 0 on error), the capabilities, the new driver state and the new
world. -/
def fill_capabilities (pr : ProbeResp) (caps : output_driver_caps) (d : Driver)
    (w : World) : Int × output_driver_caps × Driver × World :=
  match alsa_open_device pr.pcm_open pr.hw_params_malloc pr.hw_params_any d w with
  | (false, d1, w1) => (0, caps, d1, w1)
  | (true, d1, w1) =>
    let w2 := w1.call (.get_channels_min pr.get_channels_min)
    if pr.get_channels_min < 0 then
      (0, caps, d1, snd_pcm_close d1 (w2.call .hw_params_free))
    else
      let caps1 := { caps with min_channels := pr.channels_min }
      let w3 := w2.call (.get_channels_max pr.get_channels_max)
      if pr.get_channels_max < 0 then
        (0, caps1, d1, snd_pcm_close d1 (w3.call .hw_params_free))
      else
        let caps2 := { caps1 with max_channels := pr.channels_max }
        let w4 := w3.call (.format_mask_malloc pr.format_mask_malloc)
        if pr.format_mask_malloc < 0 then
          (0, caps2, d1, snd_pcm_close d1 (w4.call .hw_params_free))
        else
          let w5 := w4.call .get_format_mask
          let caps3 := { caps2 with
            formats := Int.lor (mask_to_format pr.format_mask) SFMT_NE }
          let w6 := (w5.call .format_mask_free).call .hw_params_free
          (1, caps3, { d1 with handle := none }, snd_pcm_close d1 w6)

/-- The function `alsa_init (caps)`: the mixer part, then the capability
probe, whose result it returns. -/
def alsa_init (ir : InitResp) (pr : ProbeResp) (caps : output_driver_caps) (m : Mixer)
    (mw : MixerWorld) (d : Driver) (w : World) :
    Res (Int × output_driver_caps × Mixer × MixerWorld × Driver × World) :=
  match alsa_init_mixer ir m mw with
  | .ret (m1, mw1) =>
    .ret ((fill_capabilities pr caps d w).1, (fill_capabilities pr caps d w).2.1, m1, mw1,
      (fill_capabilities pr caps d w).2.2.1, (fill_capabilities pr caps d w).2.2.2)
  | .abort => .abort
  | .pending d1 w1 => .pending d1 w1

/-! ## Observations used by the statements about init, mixer, reset and probe -/

/-- The library calls recorded in `w` after those of `w0`. -/
def World.new_calls (w0 w : World) : List Call :=
  w.log.drop w0.log.length

/-- The mixer calls recorded in `mw` after those of `mw0`. -/
def MixerWorld.new_calls (mw0 mw : MixerWorld) : List MixerCall :=
  mw.log.drop mw0.log.length

/-- The handle closed by a call, when the call is `snd_pcm_close`. -/
def Call.closed : Call → Option (Option Nat)
  | .pcm_close h => some h
  | _ => none

/-- The handles closed by a list of calls, in order, one entry for each
`snd_pcm_close`. -/
def handles_closed (cs : List Call) : List (Option Nat) :=
  cs.filterMap Call.closed

/-- The call writes a volume to an element other than `id`. -/
def MixerCall.writes_other (id : Nat) : MixerCall → Prop
  | .set_volume_all e _ _ => e ≠ id
  | _ => False

/-- The volumes of the sub-channels of `e` that a read can reach lie in
0..100. -/
def volumes_in_range (e : ElemHw) : Prop :=
  ∀ c, c < SND_MIXER_SCHN_LAST → e.has_channel c = true → RANGE 0 (e.volume c) 100 = true

/-- The sub-channels present in element `e`. -/
def present_channels (e : ElemHw) : List Nat :=
  (List.range SND_MIXER_SCHN_LAST).filter (fun c => e.has_channel c)

/-- The sub-channels whose volume a read of `e` counts, in the words of the
mixer description: sub-channel 0 alone (when present) for a joined element,
all present sub-channels otherwise. -/
def spec_counted_channels (e : ElemHw) : List Nat :=
  if e.joined = true then (if e.has_channel 0 = true then [0] else [])
  else present_channels e

/-- The result of a raw read of `e`, in the words of the mixer description:
the error value -1 when the read of a counted sub-channel fails or no
sub-channel is counted, else the truncated average of the counted
sub-channels. -/
def spec_read_value (e : ElemHw) : Int :=
  if (spec_counted_channels e).any (fun c => decide (e.get_rc c < 0)) = true then -1
  else if (spec_counted_channels e).length = 0 then -1
  else ((spec_counted_channels e).map e.volume).sum / ((spec_counted_channels e).length : Int)

/-- Whether all four calls that open the mixer in `alsa_init` succeed. -/
def InitResp.opens (ir : InitResp) : Bool :=
  decide (0 ≤ ir.mixer_open) && decide (0 ≤ ir.mixer_attach) &&
    decide (0 ≤ ir.mixer_register) && decide (0 ≤ ir.mixer_load)

/-- Mixer states reachable from `alsa_init` on the initial variables by calls
of `alsa_toggle_mixer_channel`, `alsa_set_mixer` and `alsa_read_mixer` that
return, against any mixer hardware. -/
inductive MixerReachable : Mixer → Prop where
  | init (ir : InitResp) (pr : ProbeResp) (caps : output_driver_caps) (mw : MixerWorld)
      (d : Driver) (w : World)
      (out : Int × output_driver_caps × Mixer × MixerWorld × Driver × World) :
      alsa_init ir pr caps mixer_start mw d w = .ret out → MixerReachable out.2.2.1
  | toggle (m : Mixer) : MixerReachable m → MixerReachable (alsa_toggle_mixer_channel m)
  | set (m : Mixer) (v : Int) (mw : MixerWorld) (out : Mixer × MixerWorld) :
      MixerReachable m → alsa_set_mixer v m mw = .ret out → MixerReachable out.1
  | read (m : Mixer) (mw : MixerWorld) (out : Int × Mixer × MixerWorld) :
      MixerReachable m → alsa_read_mixer m mw = .ret out → MixerReachable out.2.1

/-- A mixer library on which every call of `alsa_init` succeeds; the two
configured names are elements 0 and 1. -/
def init_both : InitResp where
  mixer_open := 0
  mixer_attach := 0
  mixer_register := 0
  mixer_load := 0
  elem1 := { found := some 0, has_playback_volume := true, set_range := 0 }
  elem2 := { found := some 1, has_playback_volume := true, set_range := 0 }

/-- A mixer library on which the second configured name is not found. -/
def init_first_only : InitResp :=
  { init_both with elem2 := { found := none, has_playback_volume := false, set_range := 0 } }

/-- A mixer library on which `snd_mixer_open` fails. -/
def init_no_mixer : InitResp := { init_both with mixer_open := -2 }

/-- A device that answers every call of the capability probe with success:
one to two channels, signed 16-bit samples only. -/
def probe_resp : ProbeResp where
  pcm_open := 0
  hw_params_malloc := 0
  hw_params_any := 0
  get_channels_min := 0
  channels_min := 1
  get_channels_max := 0
  channels_max := 2
  format_mask_malloc := 0
  format_mask := fun f => decide (f = SND_PCM_FORMAT_S16)

/-- Capabilities with nothing filled in. -/
def no_caps : output_driver_caps where
  formats := 0
  min_channels := 0
  max_channels := 0

/-- The outcome of `alsa_init` on the initial variables, against mixer answers
`ir`, hardware whose elements all behave like `e`, and `probe_resp`. -/
def init_out (ir : InitResp) (e : ElemHw) :
    Int × output_driver_caps × Mixer × MixerWorld × Driver × World :=
  (alsa_init ir probe_resp no_caps mixer_start (mixer_world e) closed_driver new_world).get
    (0, no_caps, mixer_start, mixer_world e, closed_driver, new_world)

/-- The mixer variables after `init_out`. -/
def init_mixer (ir : InitResp) (e : ElemHw) : Mixer := (init_out ir e).2.2.1

/-- Whether `alsa_read_mixer` fails an assertion. -/
def read_mixer_aborts (m : Mixer) (mw : MixerWorld) : Bool :=
  match alsa_read_mixer m mw with
  | .abort => true
  | _ => false

/-- The value returned by a raw read of element `id`, or `none` when the read
does not return. -/
def raw_value (m : Mixer) (mw : MixerWorld) (id : Nat) : Option Int :=
  match alsa_read_mixer_raw m mw (some id) with
  | .ret (v, _) => some v
  | _ => none

/-- A device that answers every call of `alsa_reset` with success. -/
def reset_ok : ResetResp where
  drop := 0
  prepare := 0

/-- The element that the setup of one configured name yields, in the words of
the mixer description: the element found, when it has a playback volume and
its range could be set to 0..100; else `none` (the element is absent). -/
def ElemInit.spec_usable (ei : ElemInit) : Option Nat :=
  match ei.found with
  | some id => if ei.has_playback_volume = true ∧ 0 ≤ ei.set_range then some id else none
  | none => none

/-- The current element is one of the two elements, it is `NULL` only when
both elements are, and a mixer handle is held exactly when an element is
current. -/
def Mixer.consistent (m : Mixer) : Prop :=
  (m.mixer_elem_curr = m.mixer_elem1 ∨ m.mixer_elem_curr = m.mixer_elem2) ∧
  (m.mixer_elem_curr = none → m.mixer_elem1 = none ∧ m.mixer_elem2 = none) ∧
  (m.mixer_handle = none ↔ m.mixer_elem_curr = none)

/-- Whether the call is `snd_mixer_close`. -/
def MixerCall.is_close : MixerCall → Bool
  | .mixer_close => true
  | _ => false

/-- The log of `mw` is the log of `mw0` followed by calls of which `n` are
`snd_mixer_close`. -/
def closes_between (mw0 mw : MixerWorld) (n : Nat) : Prop :=
  ∃ calls, mw.log = mw0.log ++ calls ∧ (calls.filter MixerCall.is_close).length = n

/-- A call that is no time request, or a time request that asks for the
buffer time `bt` or for the period time `bt / 4`. -/
def Call.times_ok (bt : Nat) : Call → Prop
  | .set_period_time_near u _ => u = bt / 4
  | .set_buffer_time_near u _ => u = bt
  | _ => True

/-- The period time asked for by a call, when the call is
`snd_pcm_hw_params_set_period_time_near`. -/
def Call.period_time : Call → Option Nat
  | .set_period_time_near u _ => some u
  | _ => none

/-- The buffer time asked for by a call, when the call is
`snd_pcm_hw_params_set_buffer_time_near`. -/
def Call.buffer_time : Call → Option Nat
  | .set_buffer_time_near u _ => some u
  | _ => none

/-- The period times (in microseconds) that a list of calls asks for. -/
def period_requests (cs : List Call) : List Nat :=
  cs.filterMap Call.period_time

/-- The buffer times (in microseconds) that a list of calls asks for. -/
def buffer_requests (cs : List Call) : List Nat :=
  cs.filterMap Call.buffer_time

/-- The number of whole frames played in `usec` microseconds at `rate` Hz. -/
def usec_to_frames (usec rate : Nat) : Nat :=
  usec * rate / 1000000

/-- A device like `cd_resp` that reports a period of 2^30 frames in a buffer
of 2^31 frames. -/
def huge_period_resp : OpenResp :=
  { cd_resp with period_size := 2 ^ 30, buffer_size := 2 ^ 31 }

/-- The outcome of opening the 16-bit stereo session from the closed state on
`huge_period_resp`. -/
def huge_period_open : Int × Driver × World :=
  (alsa_open cd_params huge_period_resp closed_driver new_world).get
    (0, closed_driver, new_world)

/-! ## Iterations of the two loops of the play path -/

/-- One pass through the body of the `while` loop of `play_buf_chunks`, entered
with `alsa_buf_fill >= chunk_bytes`, for the device answer `r`: the hardware
write, then the bookkeeping or the recovery.  The value is the next value of
`written` with the next session variables (`none` is the `return -1`) and the
next world. -/
def flush_iter (written : Int) (d : Driver) (w : World) (r : DevResp) :
    Option (Int × Driver) × World :=
  let frames := Int.tdiv d.chunk_bytes d.bytes_per_frame
  let w1 := w.call (.pcm_writei written frames r.writei)
  if r.writei = 0 then (some (written, d), w1)
  else if r.writei > 0 then
    let written_bytes := r.writei * d.bytes_per_frame
    (some (written + written_bytes,
        { d with alsa_buf_fill := d.alsa_buf_fill - written_bytes }),
      { w1 with played := w1.played ++ slice d.alsa_buf written written_bytes })
  else
    let w2 := w1.call (.pcm_recover r.writei r.recover)
    if r.recover = 0 then (some (written, d), w2)
    else if r.recover = -EAGAIN then (some (written, d), w2.call (.pcm_wait r.wait))
    else (none, w2)

/-- The value of `written` and the session variables each time the condition
of the `while` loop of `play_buf_chunks` is evaluated, for the device answers
of the script: one entry for each iteration, then the state in which the
loop is left or waits for the next answer. -/
def flush_heads (written : Int) (d : Driver) (w : World) :
    List DevResp → List (Int × Driver)
  | [] => [(written, d)]
  | r :: rs =>
    (written, d) ::
      (if d.alsa_buf_fill ≥ d.chunk_bytes then
        match flush_iter written d w r with
        | (some (written1, d1), w1) => flush_heads written1 d1 w1 rs
        | (none, _) => []
      else [])

/-- The value of `to_write` and the session variables each time the condition
of the `while (to_write)` loop of `alsa_play` is evaluated; `fuel` bounds the
number of iterations as in `play_loop`. -/
def play_heads (buff : List Byte) :
    Nat → Int → Int → Driver → World → List DevResp → List (Int × Driver)
  | 0, to_write, _, d, _, _ => [(to_write, d)]
  | fuel + 1, to_write, buf_pos, d, w, rs =>
    (to_write, d) ::
      (if to_write = 0 then []
      else
        let to_copy := min to_write (alsa_buf_size - d.alsa_buf_fill)
        if to_copy < 0 then []
        else
          let d1 := { d with
            alsa_buf := memcpy_in d.alsa_buf d.alsa_buf_fill buff buf_pos to_copy
            alsa_buf_fill := d.alsa_buf_fill + to_copy }
          match play_buf_chunks d1 w rs with
          | .ret (r, d2, w2, rs2) =>
            if r < 0 then []
            else play_heads buff fuel (to_write - to_copy) (buf_pos + to_copy) d2 w2 rs2
          | .abort => []
          | .pending _ _ => [])

/-- The size of the slice that `alsa_play` copies at the start of an
iteration: `MIN(to_write, ssizeof(alsa_buf) - alsa_buf_fill)`. -/
def to_copy (to_write : Int) (d : Driver) : Int :=
  min to_write (alsa_buf_size - d.alsa_buf_fill)

/-- The world in which a call ended (returned) or is waiting for the next
device answer (pending). -/
def Res.world? : Res (Int × Driver × World × List DevResp) → Option World
  | .ret (_, _, w, _) => some w
  | .pending _ w => some w
  | .abort => none

/-- A device answer that reports between 0 and the requested number of
frames written. -/
def DevResp.counted (d : Driver) (r : DevResp) : Prop :=
  0 ≤ r.writei ∧ r.writei ≤ Int.tdiv d.chunk_bytes d.bytes_per_frame

instance (d : Driver) (r : DevResp) : Decidable (r.counted d) := by
  unfold DevResp.counted; infer_instance

/-- A device answer that accepts at least one and at most the requested
number of frames. -/
def DevResp.accepts (d : Driver) (r : DevResp) : Prop :=
  1 ≤ r.writei ∧ r.writei ≤ Int.tdiv d.chunk_bytes d.bytes_per_frame

instance (d : Driver) (r : DevResp) : Decidable (r.accepts d) := by
  unfold DevResp.accepts; infer_instance

/-- A call that is no hardware write, or a hardware write of exactly one
chunk of `cb` bytes (in frames of `bpf` bytes), `alsa_buf[off .. off + cb)`,
that lies inside `[0, F)`. -/
def Call.chunk_inside (cb bpf F : Int) : Call → Prop
  | .pcm_writei off frames _ => 0 ≤ off ∧ off + cb ≤ F ∧ frames * bpf = cb
  | _ => True

/-- The six portable formats that the description of the format mapper
names: S8, U8, S16, U16, S32 and U32.  The list is written out here and is
not read off the table `format_masks`. -/
def portable_formats : List Int :=
  [SFMT_S8, SFMT_U8, SFMT_S16, SFMT_U16, SFMT_S32, SFMT_U32]

/-- The portable format set of a device format set `S`, in the words of the
format mapper's description: the bitwise OR of those of the six portable
formats whose platform code belongs to `S`. -/
def spec_mask_to_format (S : Int → Bool) : Int :=
  (portable_formats.map (fun f => if S (format_to_mask f) = true then f else 0)).foldl
    Int.lor 0

/-- The device format set that holds the platform code `c` only. -/
def singleton_mask (c : Int) : Int → Bool :=
  fun x => decide (x = c)

/-- The small session with seven bytes staged: byte `i` of the staging array
holds the value `i`. -/
def staged_driver : Driver :=
  { tiny_driver with alsa_buf := fun i => UInt8.ofNat i.toNat, alsa_buf_fill := 7 }

/-- The outcome of `play_buf_chunks` on `staged_driver` against a partial
write of one frame and a full write of two frames. -/
def staged_flush : Int × Driver × World × List DevResp :=
  (play_buf_chunks staged_driver tiny_world [⟨1, 0, 0⟩, ⟨2, 0, 0⟩]).get
    (0, staged_driver, tiny_world, [])

/-- An input of 524288 bytes, as many as the staging array holds. -/
def full_buff : List Byte := List.replicate 524288 0

/-- The small session after `full_buff` was copied into the empty staging
array: the array is full. -/
def full_driver : Driver :=
  { tiny_driver with
    alsa_buf := memcpy_in tiny_driver.alsa_buf 0 full_buff 0 524288
    alsa_buf_fill := 524288 }

/-- The world after a hardware write on the small session that failed with
`-EPIPE` and whose recovery failed with `-ENODEV`. -/
def full_world : World :=
  (tiny_world.call (.pcm_writei 0 2 (-32))).call (.pcm_recover (-32) (-19))

/-- The outcome of playing six bytes on the small session against writes that
accept one or two frames. -/
def steady_play : Int × Driver × World × List DevResp :=
  (alsa_play 8 [1, 2, 3, 4, 5, 6] tiny_driver tiny_world
    [⟨2, 0, 0⟩, ⟨1, 0, 0⟩, ⟨1, 0, 0⟩]).get (0, tiny_driver, tiny_world, [])

/-! ## Lemmas on the staging array -/

theorem slice_length (buf : Int → Byte) (off len : Int) :
    (slice buf off len).length = len.toNat := by
  simp [slice]

theorem slice_nonpos (buf : Int → Byte) (off len : Int) (h : len ≤ 0) :
    slice buf off len = [] := by
  simp [slice, Int.toNat_eq_zero.mpr h]

theorem slice_add (buf : Int → Byte) (off a b : Int) (ha : 0 ≤ a) (hb : 0 ≤ b) :
    slice buf off (a + b) = slice buf off a ++ slice buf (off + a) b := by
  unfold slice
  rw [Int.toNat_add ha hb, List.range_add, List.map_append, List.map_map]
  congr 1
  apply List.map_congr_left
  intro i _
  simp only [Function.comp_apply, Nat.cast_add, Int.toNat_of_nonneg ha]
  congr 1
  ring

theorem slice_congr (f g : Int → Byte) (off len : Int)
    (h : ∀ i, off ≤ i → i < off + len → f i = g i) :
    slice f off len = slice g off len := by
  unfold slice
  apply List.map_congr_left
  intro i hi
  have hi2 : i < len.toNat := List.mem_range.mp hi
  apply h
  · omega
  · omega

theorem slice_memmove_front (buf : Int → Byte) (off n : Int) :
    slice (memmove_front buf off n) 0 n = slice buf off n := by
  unfold slice
  apply List.map_congr_left
  intro i hi
  have hi2 : i < n.toNat := List.mem_range.mp hi
  have h1 : (0:Int) ≤ 0 + (i:Int) ∧ 0 + (i:Int) < n := by omega
  simp only [memmove_front, h1, and_self, if_true]
  congr 1
  ring

theorem slice_eq_take_drop (buff : List Byte) (pos n : Nat) (h : pos + n ≤ buff.length) :
    (List.range n).map (fun i => buff.getD (pos + i) 0) = (buff.drop pos).take n := by
  apply List.ext_getElem
  · simp; omega
  · intro i h1 h2
    simp at h1
    simp [List.getD_eq_getElem?_getD]
    rw [List.getElem?_eq_getElem (by omega)]
    simp

theorem slice_memcpy_in (buf : Int → Byte) (fill : Int) (buff : List Byte) (pos n : Int)
    (hf : 0 ≤ fill) (hn : 0 ≤ n) (hp : 0 ≤ pos) (hlen : pos + n ≤ buff.length) :
    slice (memcpy_in buf fill buff pos n) 0 (fill + n)
      = slice buf 0 fill ++ (buff.drop pos.toNat).take n.toNat := by
  rw [slice_add _ _ _ _ hf hn]
  congr 1
  · apply slice_congr
    intro i h0 h1
    have : ¬ (fill ≤ i ∧ i < fill + n) := by omega
    simp only [memcpy_in, this, if_false]
  · rw [← slice_eq_take_drop buff pos.toNat n.toNat (by omega)]
    unfold slice
    apply List.map_congr_left
    intro i hi
    have hi2 : i < n.toNat := List.mem_range.mp hi
    have h1 : fill ≤ 0 + fill + (i:Int) ∧ 0 + fill + (i:Int) < fill + n := by omega
    simp only [memcpy_in, h1, and_self, if_true]
    congr 1
    omega

/-! ## The flush loop -/

theorem frames_reported_append (a b : List Call) :
    frames_reported (a ++ b) = frames_reported a + frames_reported b := by
  induction a with
  | nil => simp [frames_reported]
  | cons c cs ih => cases c <;> simp [frames_reported, ih, add_assoc]

theorem writes_issued_append (a b : List Call) :
    writes_issued (a ++ b) = writes_issued a + writes_issued b := by
  induction a with
  | nil => simp [writes_issued]
  | cons c cs ih => cases c <;> simp [writes_issued, ih, add_assoc]

theorem same_config_refl (d : Driver) : d.same_config d := by
  simp [Driver.same_config]

theorem same_config_trans {a b c : Driver} (h1 : a.same_config b) (h2 : b.same_config c) :
    a.same_config c := by
  unfold Driver.same_config at *
  obtain ⟨a1, a2, a3, a4, a5, a6, a7, a8⟩ := h1
  obtain ⟨b1, b2, b3, b4, b5, b6, b7, b8⟩ := h2
  exact ⟨b1.trans a1, b2.trans a2, b3.trans a3, b4.trans a4, b5.trans a5, b6.trans a6,
    b7.trans a7, b8.trans a8⟩

theorem tdiv_mul_le (cb bpf : Int) (h1 : 0 < cb) (h2 : 0 < bpf) :
    Int.tdiv cb bpf * bpf ≤ cb := by
  rw [Int.tdiv_eq_ediv (le_of_lt h1) (le_of_lt h2)]
  exact Int.ediv_mul_le cb (ne_of_gt h2)

theorem gave_up_cons {used : List DevResp} {calls : List Call} (x : DevResp)
    (cs : List Call) (hx : ¬ x.fatal) (h : gave_up used calls) :
    gave_up (x :: used) (cs ++ calls) := by
  obtain ⟨pre, f, calls0, off, frames, h1, h2, h3, h4⟩ := h
  refine ⟨x :: pre, f, cs ++ calls0, off, frames, by rw [h1]; rfl, h2, ?_,
    by rw [h4, List.append_assoc]⟩
  intro y hy
  rcases List.mem_cons.mp hy with rfl | hy
  · exact hx
  · exact h3 y hy

theorem gave_up_append {used : List DevResp} {calls : List Call} (us : List DevResp)
    (cs : List Call) (hx : ∀ x ∈ us, ¬ x.fatal) (h : gave_up used calls) :
    gave_up (us ++ used) (cs ++ calls) := by
  obtain ⟨pre, f, calls0, off, frames, h1, h2, h3, h4⟩ := h
  refine ⟨us ++ pre, f, cs ++ calls0, off, frames, by rw [h1, List.append_assoc], h2, ?_,
    by rw [h4, List.append_assoc]⟩
  intro y hy
  rcases List.mem_append.mp hy with hy | hy
  · exact hx y hy
  · exact h3 y hy

theorem script_frames_append (a b : List DevResp) :
    script_frames (a ++ b) = script_frames a + script_frames b := by
  induction a with
  | nil => simp [script_frames]
  | cons c cs ih => simp [script_frames, ih, add_assoc]

theorem FlushPost.stop (written : Int) (d : Driver) (w : World) (rs : List DevResp)
    (h : ¬ d.alsa_buf_fill ≥ d.chunk_bytes) :
    FlushPost written d w rs written
      { d with alsa_buf := memmove_front d.alsa_buf written d.alsa_buf_fill } w rs [] [] [] := by
  constructor <;>
    simp [same_config_refl, Driver.same_config, frames_reported, writes_issued, slice,
      script_frames]
  omega

theorem FlushPost.skip {written : Int} {d : Driver} {w w1 : World} {x : DevResp}
    {xs : List DevResp} {r : Int} {d' : Driver} {w' : World} {rs' used : List DevResp}
    {acc : List Byte} {calls : List Call} (cs : List Call)
    (P : FlushPost written d w1 xs r d' w' rs' used acc calls)
    (hp : w1.played = w.played) (ho : w1.opened = w.opened) (hv : w1.live = w.live)
    (hl : w1.log = w.log ++ cs)
    (hf : frames_reported cs = 0) (hw : writes_issued cs = 1)
    (hx : ¬ x.fatal) (hle : x.writei ≤ 0) :
    FlushPost written d w (x :: xs) r d' w' rs' (x :: used) acc (cs ++ calls) where
  config := P.config
  script := by rw [P.script]; rfl
  played := by rw [P.played, hp]
  opened := by rw [P.opened, ho]
  live := by rw [P.live, hv]
  log := by rw [P.log, hl, List.append_assoc]
  frames := by rw [frames_reported_append, hf, zero_add]; exact P.frames
  frames_script := by
    have : ¬ x.writei > 0 := by omega
    rw [frames_reported_append, hf, zero_add, P.frames_script]
    simp [script_frames, this]
  writes := by rw [writes_issued_append, hw, P.writes, List.length_cons]; omega
  acc_eq := P.acc_eq
  fill := P.fill
  nonneg := fun h1 h2 h3 => P.nonneg h1 (fun y hy => h2 y (List.mem_cons_of_mem _ hy)) h3
  cases := by
    rcases P.cases with ⟨h1, h2, h3, h4⟩ | ⟨h1, h2, h3, h4⟩
    · left
      refine ⟨h1, h2, h3, ?_⟩
      intro y hy
      rcases List.mem_cons.mp hy with rfl | hy
      · exact hx
      · exact h4 y hy
    · right
      exact ⟨h1, h2, h3, gave_up_cons x cs hx h4⟩

theorem FlushPost.advance {written : Int} {d : Driver} {w : World} {x : DevResp}
    {xs : List DevResp} {r : Int} {d' : Driver} {w' : World} {rs' used : List DevResp}
    {acc : List Byte} {calls : List Call}
    (hbpf : 0 < d.bytes_per_frame) (hpos : 0 < x.writei)
    (P : FlushPost (written + x.writei * d.bytes_per_frame)
      { d with alsa_buf_fill := d.alsa_buf_fill - x.writei * d.bytes_per_frame }
      { w.call (.pcm_writei written (Int.tdiv d.chunk_bytes d.bytes_per_frame) x.writei) with
        played := w.played ++ slice d.alsa_buf written (x.writei * d.bytes_per_frame) }
      xs r d' w' rs' used acc calls)
    (hge : d.chunk_bytes ≤ d.alsa_buf_fill) :
    FlushPost written d w (x :: xs) r d' w' rs' (x :: used)
      (slice d.alsa_buf written (x.writei * d.bytes_per_frame) ++ acc)
      (.pcm_writei written (Int.tdiv d.chunk_bytes d.bytes_per_frame) x.writei :: calls) := by
  have hwb : 0 ≤ x.writei * d.bytes_per_frame := le_of_lt (mul_pos hpos hbpf)
  have hlen : ((slice d.alsa_buf written (x.writei * d.bytes_per_frame)).length : Int)
      = x.writei * d.bytes_per_frame := by
    rw [slice_length, Int.toNat_of_nonneg hwb]
  have hfat : ¬ x.fatal := by
    intro hf
    have := hf.1
    omega
  constructor
  · exact same_config_trans (c := d') (a := d) P.config (by simp [Driver.same_config])
  · rw [P.script]; rfl
  · rw [P.played]; simp [World.call]
  · rw [P.opened]; rfl
  · rw [P.live]; rfl
  · rw [P.log]; simp [World.call]
  · have := P.frames
    simp only [frames_reported, if_pos hpos, List.length_append,
      Nat.cast_add, hlen] at this ⊢
    rw [add_mul, this]
  · simp only [frames_reported, script_frames, gt_iff_lt, if_pos hpos, P.frames_script]
  · simp [writes_issued, P.writes]; omega
  · have := P.acc_eq
    simp only at this
    rw [List.length_append, Nat.cast_add, hlen, slice_add _ _ _ _ hwb (Int.ofNat_nonneg _),
      ← this]
  · have := P.fill
    simp only at this
    rw [this, List.length_append, Nat.cast_add, hlen]
    ring
  · intro h1 h2 h3
    apply P.nonneg h1 (fun y hy => h2 y (List.mem_cons_of_mem _ hy))
    have hx : x.writei ≤ Int.tdiv d.chunk_bytes d.bytes_per_frame :=
      h2 x (List.mem_cons_self _ _)
    have := tdiv_mul_le _ _ h1 hbpf
    have : x.writei * d.bytes_per_frame
        ≤ Int.tdiv d.chunk_bytes d.bytes_per_frame * d.bytes_per_frame :=
      mul_le_mul_of_nonneg_right hx (le_of_lt hbpf)
    simp only
    omega
  · rcases P.cases with ⟨h1, h2, h3, h4⟩ | ⟨h1, h2, h3, h4⟩
    · left
      refine ⟨?_, h2, h3, ?_⟩
      · rw [h1, List.length_append, Nat.cast_add, hlen]; ring
      · intro y hy
        rcases List.mem_cons.mp hy with rfl | hy
        · exact hfat
        · exact h4 y hy
    · right
      exact ⟨h1, h2, h3, gave_up_cons x
        [.pcm_writei written (Int.tdiv d.chunk_bytes d.bytes_per_frame) x.writei] hfat h4⟩

theorem FlushPost.give_up (written : Int) (d : Driver) (w : World) (x : DevResp)
    (xs : List DevResp) (hge : d.chunk_bytes ≤ d.alsa_buf_fill) (hx : x.fatal) :
    FlushPost written d w (x :: xs) (-1) d
      ((w.call (.pcm_writei written (Int.tdiv d.chunk_bytes d.bytes_per_frame) x.writei)).call
        (.pcm_recover x.writei x.recover))
      xs [x] []
      [.pcm_writei written (Int.tdiv d.chunk_bytes d.bytes_per_frame) x.writei,
       .pcm_recover x.writei x.recover] := by
  have hneg : ¬ x.writei > 0 := by have := hx.1; omega
  have hneg2 : ¬ 0 < x.writei := hneg
  constructor <;>
    simp [same_config_refl, World.call, frames_reported, writes_issued, slice, hneg, hneg2,
      script_frames]
  right
  exact ⟨hge, [], x, [], written, _, rfl, hx, by simp, rfl⟩

theorem flush_loop_spec (rs : List DevResp) :
    ∀ (written : Int) (d : Driver) (w : World) (r : Int) (d' : Driver) (w' : World)
      (rs' : List DevResp),
      0 < d.bytes_per_frame →
      flush_loop written d w rs = .ret (r, d', w', rs') →
      ∃ used acc calls, FlushPost written d w rs r d' w' rs' used acc calls := by
  induction rs with
  | nil =>
    intro written d w r d' w' rs' hbpf h
    simp only [flush_loop] at h
    split at h
    · cases h
    · rename_i hlt
      injection h with h
      simp only [Prod.mk.injEq] at h
      obtain ⟨rfl, rfl, rfl, rfl⟩ := h
      exact ⟨[], [], [], FlushPost.stop _ _ _ _ hlt⟩
  | cons x xs ih =>
    intro written d w r d' w' rs' hbpf h
    simp only [flush_loop] at h
    split at h
    · rename_i hge
      split at h
      · rename_i hz
        obtain ⟨used, acc, calls, P⟩ := ih _ _ _ _ _ _ _ hbpf h
        refine ⟨x :: used, acc, _, FlushPost.skip (w := w)
          [Call.pcm_writei written (Int.tdiv d.chunk_bytes d.bytes_per_frame) x.writei]
          P rfl rfl rfl rfl ?_ ?_ ?_ (le_of_eq hz)⟩
        · simp [frames_reported, hz]
        · simp [writes_issued]
        · intro hf; have := hf.1; omega
      · rename_i hnz
        split at h
        · rename_i hpos
          obtain ⟨used, acc, calls, P⟩ := ih (written + x.writei * d.bytes_per_frame)
            { d with alsa_buf_fill := d.alsa_buf_fill - x.writei * d.bytes_per_frame }
            _ _ _ _ _ hbpf h
          exact ⟨_, _, _, FlushPost.advance hbpf hpos P hge⟩
        · rename_i hneg
          split at h
          · rename_i hrec
            obtain ⟨used, acc, calls, P⟩ := ih _ _ _ _ _ _ _ hbpf h
            refine ⟨x :: used, acc, _, FlushPost.skip (w := w)
              [Call.pcm_writei written (Int.tdiv d.chunk_bytes d.bytes_per_frame) x.writei,
               Call.pcm_recover x.writei x.recover] P rfl rfl rfl ?_ ?_ ?_ ?_ (by omega)⟩
            · simp [World.call]
            · simp [frames_reported, hneg]
            · simp [writes_issued]
            · intro hf; exact hf.2.1 hrec
          · rename_i hrec
            split at h
            · rename_i hag
              obtain ⟨used, acc, calls, P⟩ := ih _ _ _ _ _ _ _ hbpf h
              refine ⟨x :: used, acc, _, FlushPost.skip (w := w)
                [Call.pcm_writei written (Int.tdiv d.chunk_bytes d.bytes_per_frame) x.writei,
                 Call.pcm_recover x.writei x.recover, Call.pcm_wait x.wait]
                P rfl rfl rfl ?_ ?_ ?_ ?_ (by omega)⟩
              · simp [World.call]
              · simp [frames_reported, hneg]
              · simp [writes_issued]
              · intro hf; exact hf.2.2 hag
            · rename_i hag
              injection h with h
              simp only [Prod.mk.injEq] at h
              obtain ⟨rfl, rfl, rfl, rfl⟩ := h
              exact ⟨_, _, _, FlushPost.give_up _ _ _ _ _ hge ⟨by omega, hrec, hag⟩⟩
    · rename_i hlt
      injection h with h
      simp only [Prod.mk.injEq] at h
      obtain ⟨rfl, rfl, rfl, rfl⟩ := h
      exact ⟨[], [], [], FlushPost.stop _ _ _ _ hlt⟩

theorem wrap32_small (x : Int) (h0 : 0 ≤ x) (h1 : x < 2 ^ 31) : wrap32 x = x := by
  unfold wrap32
  omega

theorem size_to_int_small (n : Nat) (h : n < 2 ^ 31) : size_to_int n = n := by
  unfold size_to_int
  exact wrap32_small _ (Int.ofNat_nonneg _) (by exact_mod_cast h)

/-- Byte conservation for a flush that returned normally. -/
theorem FlushPost.conserve {written : Int} {d : Driver} {w : World} {rs : List DevResp}
    {r : Int} {d' : Driver} {w' : World} {rs' used : List DevResp}
    {acc : List Byte} {calls : List Call}
    (P : FlushPost written d w rs r d' w' rs' used acc calls)
    (hr : r = written + acc.length) (hfill : 0 ≤ d'.alsa_buf_fill)
    (hbuf : d'.alsa_buf = memmove_front d.alsa_buf r d'.alsa_buf_fill) :
    acc ++ d'.staged = slice d.alsa_buf written d.alsa_buf_fill := by
  have h1 : d.alsa_buf_fill = (acc.length : Int) + d'.alsa_buf_fill := by
    have := P.fill; omega
  rw [h1, slice_add _ _ _ _ (Int.ofNat_nonneg _) hfill, ← P.acc_eq]
  congr 1
  unfold Driver.staged
  rw [hbuf, slice_memmove_front, hr]

theorem within_congr {d d' : Driver} {x : DevResp} (hc : d.same_config d')
    (h : x.within d) : x.within d' := by
  unfold DevResp.within at h ⊢
  rw [hc.2.2.2.2.2.2.1, hc.2.2.2.2.2.2.2]
  exact h

theorem play_loop_spec (buff : List Byte) (hsize : buff.length < 2 ^ 31) (fuel : Nat) :
    ∀ (to_write buf_pos : Int) (d : Driver) (w : World) (rs : List DevResp)
      (r : Int) (d' : Driver) (w' : World) (rs' : List DevResp),
      0 < d.chunk_bytes → 0 < d.bytes_per_frame → d.alsa_buf_fill ≤ alsa_buf_size →
      0 ≤ to_write → 0 ≤ buf_pos → buf_pos + to_write = buff.length →
      play_loop buff fuel to_write buf_pos d w rs = .ret (r, d', w', rs') →
      ∃ used acc calls, PlayPost buff buf_pos d w rs r d' w' rs' used acc calls := by
  have done : ∀ (buf_pos : Int) (d : Driver) (w : World) (rs : List DevResp),
      d.alsa_buf_fill ≤ alsa_buf_size → buf_pos = buff.length →
      PlayPost buff buf_pos d w rs (size_to_int buff.length) d w rs [] [] [] := by
    intro buf_pos d w rs h2 h3
    constructor <;>
      simp [same_config_refl, frames_reported, writes_issued, h2,
        size_to_int_small _ hsize, script_frames]
    intro h1
    exact ⟨h1, by omega⟩
  induction fuel with
  | zero =>
    intro to_write buf_pos d w rs r d' w' rs' hcb hbpf hf1 htw hbp hsum h
    simp only [play_loop] at h
    split at h
    · rename_i hz
      injection h with h
      simp only [Prod.mk.injEq] at h
      obtain ⟨rfl, rfl, rfl, rfl⟩ := h
      exact ⟨[], [], [], done _ _ _ _ hf1 (by omega)⟩
    · cases h
  | succ n ih =>
    intro to_write buf_pos d w rs r d' w' rs' hcb hbpf hf1 htw hbp hsum h
    simp only [play_loop] at h
    split at h
    · rename_i hz
      injection h with h
      simp only [Prod.mk.injEq] at h
      obtain ⟨rfl, rfl, rfl, rfl⟩ := h
      exact ⟨[], [], [], done _ _ _ _ hf1 (by omega)⟩
    · rename_i hnz
      set d1 : Driver := { d with
        alsa_buf := memcpy_in d.alsa_buf d.alsa_buf_fill buff buf_pos
          (min to_write (alsa_buf_size - d.alsa_buf_fill))
        alsa_buf_fill := d.alsa_buf_fill + min to_write (alsa_buf_size - d.alsa_buf_fill) }
        with hd1
      have e1 : d1.chunk_bytes = d.chunk_bytes := rfl
      have e2 : d1.bytes_per_frame = d.bytes_per_frame := rfl
      have e3 : d1.alsa_buf_fill
          = d.alsa_buf_fill + min to_write (alsa_buf_size - d.alsa_buf_fill) := rfl
      have e4 : d1.alsa_buf = memcpy_in d.alsa_buf d.alsa_buf_fill buff buf_pos
          (min to_write (alsa_buf_size - d.alsa_buf_fill)) := rfl
      have e5 : d.same_config d1 := by simp [Driver.same_config, hd1]
      clear_value d1
      unfold play_buf_chunks at h
      split at h
      · cases h
      split at h
      · rename_i hcneg r1 d2 w2 rs2 heq
        have hcopy0 : 0 ≤ min to_write (alsa_buf_size - d.alsa_buf_fill) := by omega
        have hcopy1 : min to_write (alsa_buf_size - d.alsa_buf_fill) ≤ to_write :=
          min_le_left _ _
        have hcopy2 : min to_write (alsa_buf_size - d.alsa_buf_fill)
            ≤ alsa_buf_size - d.alsa_buf_fill := min_le_right _ _
        obtain ⟨used1, acc1, calls1, P⟩ :=
          flush_loop_spec rs 0 d1 w r1 d2 w2 rs2 (by rw [e2]; exact hbpf) heq
        have hd2 : (∀ x ∈ used1, x.within d) → 0 ≤ d.alsa_buf_fill → 0 ≤ d2.alsa_buf_fill :=
          fun hw hf0 => P.nonneg (by rw [e1]; exact hcb)
            (fun y hy => within_congr e5 (hw y hy)) (by omega)
        have hd2le : d2.alsa_buf_fill ≤ alsa_buf_size := by
          have := P.fill
          omega
        have c12 : d.same_config d2 := same_config_trans e5 P.config
        have c2cb : d2.chunk_bytes = d.chunk_bytes := c12.2.2.2.2.2.2.1
        have c2bpf : d2.bytes_per_frame = d.bytes_per_frame := c12.2.2.2.2.2.2.2
        split at h
        · -- the flush gave up
          rename_i hneg
          injection h with h
          simp only [Prod.mk.injEq] at h
          obtain ⟨rfl, rfl, rfl, rfl⟩ := h
          rcases P.cases with ⟨h1, _⟩ | ⟨h1, h2, h3, h4⟩
          · omega
          · refine ⟨used1, acc1, calls1, ?_⟩
            exact {
              config := c12
              script := P.script
              played := P.played
              opened := P.opened
              live := P.live
              log := P.log
              frames := by rw [← e2]; exact P.frames
              frames_script := P.frames_script
              writes := P.writes
              fill_le := hd2le
              sane := fun hw hf0 => ⟨hd2 hw hf0, fun hr => by omega⟩
              cases := Or.inr ⟨rfl, by rw [← e1]; exact h2, h4⟩ }
        · rename_i hpos
          rcases P.cases with ⟨h1, h2, h3, h4⟩ | ⟨h1, _⟩
          swap
          · omega
          obtain ⟨used2, acc2, calls2, Q⟩ := ih _ _ d2 w2 rs2 r d' w' rs'
            (by rw [c2cb]; exact hcb) (by rw [c2bpf]; exact hbpf) hd2le
            (by omega) (by omega) (by omega) h
          refine ⟨used1 ++ used2, acc1 ++ acc2, calls1 ++ calls2, ?_⟩
          exact {
            config := same_config_trans c12 Q.config
            script := by rw [P.script, Q.script, List.append_assoc]
            played := by rw [Q.played, P.played, List.append_assoc]
            opened := by rw [Q.opened, P.opened]
            live := by rw [Q.live, P.live]
            log := by rw [Q.log, P.log, List.append_assoc]
            frames := by
              have q := Q.frames
              have p := P.frames
              rw [c2bpf] at q
              rw [e2] at p
              rw [frames_reported_append, add_mul, p, q, List.length_append]
              push_cast; ring
            frames_script := by
              rw [frames_reported_append, script_frames_append, P.frames_script,
                Q.frames_script]
            writes := by rw [writes_issued_append, P.writes, Q.writes, List.length_append]
            fill_le := Q.fill_le
            sane := by
              intro hw hf0
              have hw1 : ∀ x ∈ used1, x.within d :=
                fun x hx => hw x (List.mem_append_left _ hx)
              have hw2 : ∀ x ∈ used2, x.within d2 :=
                fun x hx => within_congr c12 (hw x (List.mem_append_right _ hx))
              have h2nn := hd2 hw1 hf0
              obtain ⟨s1, s2⟩ := Q.sane hw2 h2nn
              refine ⟨s1, fun hr => ?_⟩
              have q3 := s2 hr
              have hcons := P.conserve h1 h2nn h3
              rw [e3, e4, slice_memcpy_in _ _ _ _ _ hf0 hcopy0 hbp (by omega)] at hcons
              rw [List.append_assoc, q3, ← List.append_assoc, hcons, List.append_assoc]
              congr 1
              have : (buf_pos + min to_write (alsa_buf_size - d.alsa_buf_fill)).toNat
                  = buf_pos.toNat + (min to_write (alsa_buf_size - d.alsa_buf_fill)).toNat :=
                Int.toNat_add hbp hcopy0
              rw [this, ← List.drop_drop, List.take_append_drop]
            cases := by
              rcases Q.cases with ⟨q1, q2, q4⟩ | ⟨q1, q2, q4⟩
              · left
                refine ⟨q1, ?_, ?_⟩
                · intro _
                  rw [c2cb] at q2
                  apply q2
                  rw [← e1]; exact h2
                · intro y hy
                  rcases List.mem_append.mp hy with hy | hy
                  · exact h4 y hy
                  · exact q4 y hy
              · right
                exact ⟨q1, by rw [← c2cb]; exact q2, gave_up_append used1 calls1 h4 q4⟩ }
      · cases h
      · cases h

theorem alsa_play_spec (fuel : Nat) (buff : List Byte) (d : Driver) (w : World)
    (rs : List DevResp) (r : Int) (d' : Driver) (w' : World) (rs' : List DevResp)
    (hd : d.streaming) (hsize : buff.length < 2 ^ 31)
    (h : alsa_play fuel buff d w rs = .ret (r, d', w', rs')) :
    ∃ used acc calls, PlayPost buff 0 d w rs r d' w' rs' used acc calls := by
  obtain ⟨_, hcb, hbpf, _, hf1⟩ := hd
  unfold alsa_play at h
  rw [if_pos hcb, size_to_int_small _ hsize] at h
  exact play_loop_spec buff hsize fuel _ 0 d w rs r d' w' rs'
    hcb hbpf hf1 (Int.ofNat_nonneg _) (le_refl _) (by simp) h

theorem PlayPost.streaming {buff : List Byte} {buf_pos : Int} {d : Driver} {w : World}
    {rs : List DevResp} {r : Int} {d' : Driver} {w' : World} {rs' used : List DevResp}
    {acc : List Byte} {calls : List Call}
    (P : PlayPost buff buf_pos d w rs r d' w' rs' used acc calls) (hd : d.streaming)
    (hw : ∀ x ∈ used, x.within d) : d'.streaming := by
  obtain ⟨h1, h2, h3, h4, _⟩ := hd
  obtain ⟨c1, _, _, _, _, _, c7, c8⟩ := P.config
  exact ⟨by rw [c1]; exact h1, by rw [c7]; exact h2, by rw [c8]; exact h3,
    (P.sane hw h4).1, P.fill_le⟩

/-- Length form of byte conservation for a call that returned its size. -/
theorem PlayPost.balance {buff : List Byte} {d : Driver} {w : World}
    {rs : List DevResp} {r : Int} {d' : Driver} {w' : World} {rs' used : List DevResp}
    {acc : List Byte} {calls : List Call}
    (P : PlayPost buff 0 d w rs r d' w' rs' used acc calls) (hd : 0 ≤ d.alsa_buf_fill)
    (hw : ∀ x ∈ used, x.within d) (hr : r = buff.length) :
    (acc.length : Int) + d'.alsa_buf_fill = d.alsa_buf_fill + buff.length := by
  obtain ⟨hnn, hacc⟩ := P.sane hw hd
  have h := congrArg List.length (hacc hr)
  simp only [List.length_append, Driver.staged, slice_length, Int.toNat_zero, List.drop_zero]
    at h
  have h1 := Int.toNat_of_nonneg hnn
  have h2 := Int.toNat_of_nonneg hd
  omega

/-! ## C1: byte conservation of `alsa_play` -/

/-- C1 (as amended): for every Streaming session state and every
`alsa_play (buff, size)` call with `size` representable as a non-negative
`int` that returns, under any sequence of device answers that are zero-frame
writes, partial writes, full-chunk writes, or write errors followed by a
successful recovery or a would-block wait, the bytes accepted by the hardware
during the call, in order, followed by the bytes left staged in
`alsa_buf[0 .. alsa_buf_fill)`, are exactly the bytes staged before the call
followed by the input bytes. -/
theorem alsa_play_conserves_bytes (fuel : Nat) (buff : List Byte) (d : Driver) (w : World)
    (rs : List DevResp) (r : Int) (d' : Driver) (w' : World) (rs' : List DevResp)
    (hd : d.streaming) (hsize : buff.length < 2 ^ 31)
    (hdev : ∀ x ∈ rs, x.within d ∧ ¬ x.fatal)
    (h : alsa_play fuel buff d w rs = .ret (r, d', w', rs')) :
    ∃ acc, w'.played = w.played ++ acc ∧ acc ++ d'.staged = d.staged ++ buff := by
  obtain ⟨used, acc, calls, P⟩ := alsa_play_spec fuel buff d w rs r d' w' rs' hd hsize h
  refine ⟨acc, P.played, ?_⟩
  have hw : ∀ x ∈ used, x.within d :=
    fun x hx => (hdev x (by rw [P.script]; exact List.mem_append_left _ hx)).1
  rcases P.cases with ⟨hr, _, _⟩ | ⟨_, _, pre, f, _, _, _, h4, h5, _, _⟩
  · simpa using (P.sane hw hd.2.2.2.1).2 hr
  · exact absurd h5 (hdev f (by rw [P.script, h4]; simp)).2

/-- Worked example for C1: six bytes played on the small session against a
script with a zero-frame write, a partial write and two recovered errors. -/
theorem alsa_play_conserves_bytes_witness :
    tiny_driver.streaming ∧ tiny_run = .ret tiny_out ∧
    ∃ acc, tiny_out.2.2.1.played = tiny_world.played ++ acc ∧
      acc ++ tiny_out.2.1.staged = tiny_driver.staged ++ [1, 2, 3, 4, 5, 6] :=
  ⟨by decide, rfl,
   alsa_play_conserves_bytes 10 [1, 2, 3, 4, 5, 6] tiny_driver tiny_world tiny_script
    tiny_out.1 tiny_out.2.1 tiny_out.2.2.1 tiny_out.2.2.2 (by decide) (by decide)
    (by decide) rfl⟩

/-- Counterexample to C1 as stated: a call whose `size` is `2 ^ 32` returns at
once (`int to_write = size` is 0) without staging or playing a single byte, so
the input bytes are skipped. -/
theorem alsa_play_huge_size_skips_input :
    tiny_driver.streaming ∧
    alsa_play 0 (List.replicate (2 ^ 32) 7) tiny_driver tiny_world []
      = .ret (0, tiny_driver, tiny_world, []) ∧
    ¬ ∃ acc, tiny_world.played = tiny_world.played ++ acc ∧
      acc ++ tiny_driver.staged = tiny_driver.staged ++ List.replicate (2 ^ 32) 7 := by
  refine ⟨by decide, ?_, ?_⟩
  · have h0 : size_to_int (List.replicate (2 ^ 32) (7 : Byte)).length = 0 := by
      rw [List.length_replicate]; decide
    have hcb : tiny_driver.chunk_bytes > 0 := by decide
    unfold alsa_play
    rw [if_pos hcb]
    unfold play_loop
    rw [h0, if_pos rfl]
  · rintro ⟨acc, h1, h2⟩
    have hacc : acc = [] := List.self_eq_append_right.mp h1
    have hlen := congrArg List.length h2
    rw [hacc, List.length_append, List.length_append, List.length_replicate] at hlen
    simp only [List.length_nil] at hlen
    omega

/-! ## C2: whole chunks leave nothing staged -/

theorem fresh_streaming {d : Driver} (h : d.fresh) : d.streaming := by
  obtain ⟨h1, h2, h3, h4, h5⟩ := h
  refine ⟨h1, ?_, h2, by rw [h5], by rw [h5]; decide⟩
  rw [h4]
  exact mul_pos (by exact_mod_cast h3) h2

theorem script_frames_dvd (F : Int) (us : List DevResp)
    (h : ∀ x ∈ us, x.writei = 0 ∨ x.writei = F) : F ∣ script_frames us := by
  induction us with
  | nil => simp [script_frames]
  | cons x xs ih =>
    have hx := h x (List.mem_cons_self _ _)
    have hxs := ih (fun y hy => h y (List.mem_cons_of_mem _ hy))
    simp only [script_frames]
    apply dvd_add _ hxs
    split
    · rcases hx with hx | hx
      · omega
      · rw [hx]
    · exact dvd_zero _

/-- What a returned sequence of calls guarantees when no answer is fatal. -/
theorem play_all_spec (fuel : Nat) (bufs : List (List Byte)) :
    ∀ (d : Driver) (w : World) (rs : List DevResp) (outs : List Int) (d' : Driver)
      (w' : World) (rs' : List DevResp),
      d.streaming → (∀ b ∈ bufs, b.length < 2 ^ 31) →
      (∀ x ∈ rs, x.within d ∧ ¬ x.fatal) →
      play_all fuel bufs d w rs = .ret (outs, d', w', rs') →
      ∃ used calls, rs = used ++ rs' ∧ w'.log = w.log ++ calls ∧
        frames_reported calls = script_frames used ∧
        frames_reported calls * d.bytes_per_frame + d'.alsa_buf_fill
          = d.alsa_buf_fill + total_bytes bufs ∧
        0 ≤ d'.alsa_buf_fill ∧
        (d.alsa_buf_fill < d.chunk_bytes → d'.alsa_buf_fill < d.chunk_bytes) ∧
        d.same_config d' := by
  induction bufs with
  | nil =>
    intro d w rs outs d' w' rs' hd _ _ h
    simp only [play_all] at h
    injection h with h
    simp only [Prod.mk.injEq] at h
    obtain ⟨_, rfl, rfl, rfl⟩ := h
    exact ⟨[], [], rfl, by simp, rfl, by simp [frames_reported, total_bytes], hd.2.2.2.1,
      fun h => h, same_config_refl _⟩
  | cons b bs ih =>
    intro d w rs outs d' w' rs' hd hsz hdev h
    simp only [play_all] at h
    split at h
    · rename_i r d1 w1 rs1 heq
      split at h
      · rename_i outs2 d2 w2 rs2 heq2
        injection h with h
        simp only [Prod.mk.injEq] at h
        obtain ⟨_, rfl, rfl, rfl⟩ := h
        obtain ⟨used, acc, calls, P⟩ := alsa_play_spec fuel b d w rs r d1 w1 rs1 hd
          (hsz b (List.mem_cons_self _ _)) heq
        have hw : ∀ x ∈ used, x.within d :=
          fun x hx => (hdev x (by rw [P.script]; exact List.mem_append_left _ hx)).1
        have hd1 := P.streaming hd hw
        obtain ⟨_, _, _, _, _, _, c7, c8⟩ := P.config
        have hdev1 : ∀ x ∈ rs1, x.within d1 ∧ ¬ x.fatal := by
          intro x hx
          have := hdev x (by rw [P.script]; exact List.mem_append_right _ hx)
          refine ⟨?_, this.2⟩
          have h1 := this.1
          unfold DevResp.within at h1 ⊢
          rw [c7, c8]; exact h1
        obtain ⟨used2, calls2, q1, q2, q3, q4, q5, q6, q7⟩ := ih d1 w1 rs1 outs2 d2 w2 rs2
          hd1 (fun y hy => hsz y (List.mem_cons_of_mem _ hy)) hdev1 heq2
        rcases P.cases with ⟨p1, p2, p4⟩ | ⟨_, _, pre, f, _, _, _, p4, p5, _, _⟩
        swap
        · exact absurd p5 (hdev f (by rw [P.script, p4]; simp)).2
        have hbal := P.balance hd.2.2.2.1 hw p1
        have hfr := P.frames
        refine ⟨used ++ used2, calls ++ calls2, by rw [P.script, q1, List.append_assoc],
          by rw [q2, P.log, List.append_assoc],
          by rw [frames_reported_append, script_frames_append, P.frames_script, q3],
          ?_, q5, ?_, same_config_trans P.config q7⟩
        · rw [c8] at q4
          rw [frames_reported_append, add_mul]
          simp only [total_bytes, List.map_cons, List.sum_cons, Nat.cast_add] at q4 ⊢
          omega
        · intro hlt
          rw [c7] at q6
          exact q6 (p2 hlt)
      · cases h
      · cases h
    · cases h
    · cases h

/-- C2 (as amended): for every sequence of `alsa_play` calls (each size
representable as a non-negative `int`) made on a freshly opened session whose
total byte length is a multiple of `chunk_bytes`, and in which every hardware
write reports either zero frames or the whole requested chunk (no write error
and no partial write), once all calls have returned the sum of the frame
counts reported by the hardware writes equals total bytes divided by
`bytes_per_frame`, and no byte remains staged: `alsa_buf_fill` is 0. -/
theorem play_all_whole_chunks (fuel : Nat) (bufs : List (List Byte)) (d : Driver)
    (w : World) (rs : List DevResp) (outs : List Int) (d' : Driver) (w' : World)
    (rs' : List DevResp)
    (hfresh : d.fresh) (hsz : ∀ b ∈ bufs, b.length < 2 ^ 31)
    (hdev : ∀ x ∈ rs, x.zero_or_full d)
    (hmul : (total_bytes bufs : Int) % d.chunk_bytes = 0)
    (h : play_all fuel bufs d w rs = .ret (outs, d', w', rs')) :
    ∃ calls, w'.log = w.log ++ calls ∧
      frames_reported calls = (total_bytes bufs : Int) / d.bytes_per_frame ∧
      d'.alsa_buf_fill = 0 := by
  have hd := fresh_streaming hfresh
  obtain ⟨_, hbpf, hcf, hcb, hfill⟩ := hfresh
  have hcbpos : 0 < d.chunk_bytes := hd.2.1
  have hF : Int.tdiv d.chunk_bytes d.bytes_per_frame = d.chunk_frames := by
    rw [Int.tdiv_eq_ediv (le_of_lt hcbpos) (le_of_lt hbpf), hcb]
    exact Int.mul_ediv_cancel _ (ne_of_gt hbpf)
  have hdev' : ∀ x ∈ rs, x.within d ∧ ¬ x.fatal := by
    intro x hx
    have hx' : x.writei = 0 ∨ x.writei = Int.tdiv d.chunk_bytes d.bytes_per_frame :=
      hdev x hx
    rw [hF] at hx'
    have hc : (0 : Int) < d.chunk_frames := by exact_mod_cast hcf
    constructor
    · unfold DevResp.within
      rw [hF]
      rcases hx' with h0 | h0 <;> omega
    · intro hf
      have := hf.1
      rcases hx' with h0 | h0 <;> omega
  obtain ⟨used, calls, q1, q2, q3, q4, q5, q6, _⟩ :=
    play_all_spec fuel bufs d w rs outs d' w' rs' hd hsz hdev' h
  have hdvd : (d.chunk_frames : Int) ∣ script_frames used := by
    apply script_frames_dvd
    intro x hx
    have hx' : x.writei = 0 ∨ x.writei = Int.tdiv d.chunk_bytes d.bytes_per_frame :=
      hdev x (by rw [q1]; exact List.mem_append_left _ hx)
    rw [hF] at hx'
    exact hx'
  obtain ⟨k, hk⟩ := hdvd
  have hlt := q6 (by rw [hfill]; exact hcbpos)
  rw [hfill, zero_add, q3, hk] at q4
  have hmod : d'.alsa_buf_fill % d.chunk_bytes = 0 := by
    have e : d'.alsa_buf_fill = (total_bytes bufs : Int) - d.chunk_bytes * k := by
      rw [hcb]; linarith
    rw [e]
    exact Int.emod_eq_zero_of_dvd
      (dvd_sub (Int.dvd_of_emod_eq_zero hmul) (dvd_mul_right _ _))
  have hzero : d'.alsa_buf_fill = 0 := by
    have := Int.emod_eq_of_lt q5 hlt
    omega
  refine ⟨calls, q2, ?_, hzero⟩
  rw [hzero, add_zero] at q4
  rw [q3, hk, ← q4]
  exact (Int.mul_ediv_cancel _ (ne_of_gt hbpf)).symm

/-- Worked example for C2: two calls of three and five bytes (two chunks of
four bytes) answered by a zero-frame write and two full writes. -/
theorem play_all_whole_chunks_witness :
    tiny_driver.fresh ∧ whole_run = .ret whole_out ∧
    ∃ calls, whole_out.2.2.1.log = tiny_world.log ++ calls ∧
      frames_reported calls
        = (total_bytes [[1, 2, 3], [4, 5, 6, 7, 8]] : Int)
            / tiny_driver.bytes_per_frame ∧
      whole_out.2.1.alsa_buf_fill = 0 :=
  ⟨by decide, rfl,
   play_all_whole_chunks 10 [[1, 2, 3], [4, 5, 6, 7, 8]] tiny_driver tiny_world
    [⟨0, 0, 0⟩, ⟨2, 0, 0⟩, ⟨2, 0, 0⟩] whole_out.1 whole_out.2.1 whole_out.2.2.1
    whole_out.2.2.2 (by decide) (by decide) (by decide) (by decide) rfl⟩

/-- Counterexample to C2 as stated: on a fresh session with chunks of 4 bytes
one call of 4 bytes is answered by a partial write of one frame (no error).
The call returns 4, the hardware has reported 1 frame instead of 4 / 2 = 2,
and 2 bytes remain staged. -/
theorem play_all_short_write_leaves_bytes :
    tiny_driver.fresh ∧ short_run = .ret short_out ∧
    short_out.1 = [4] ∧
    (total_bytes [[1, 2, 3, 4]] : Int) % tiny_driver.chunk_bytes = 0 ∧
    frames_reported short_out.2.2.1.log = 1 ∧
    (total_bytes [[1, 2, 3, 4]] : Int) / tiny_driver.bytes_per_frame = 2 ∧
    short_out.2.1.alsa_buf_fill = 2 := by
  refine ⟨by decide, rfl, by decide, by decide, by decide, by decide, by decide⟩

/-! ## C3: the return value of `alsa_play`, and that it returns -/

theorem progress_count_append (a b : List DevResp) :
    progress_count (a ++ b) = progress_count a + progress_count b := by
  induction a with
  | nil => simp [progress_count]
  | cons c cs ih => simp [progress_count, ih, add_assoc]

theorem progress_count_le_frames (us : List DevResp) :
    (progress_count us : Int) ≤ script_frames us := by
  induction us with
  | nil => simp [progress_count, script_frames]
  | cons x xs ih =>
    simp only [progress_count, script_frames]
    split <;> push_cast <;> omega

/-- The flush loop returns when the script holds enough answers that report
progress. -/
theorem flush_loop_returns (rs : List DevResp) :
    ∀ (written : Int) (d : Driver) (w : World),
      0 < d.bytes_per_frame →
      d.alsa_buf_fill < d.chunk_bytes + progress_count rs * d.bytes_per_frame →
      ∃ r d' w' rs', flush_loop written d w rs = .ret (r, d', w', rs') := by
  induction rs with
  | nil =>
    intro written d w hbpf hlen
    simp only [progress_count, Nat.cast_zero, zero_mul, add_zero] at hlen
    simp only [flush_loop, ge_iff_le, not_le.mpr hlen, if_false]
    exact ⟨_, _, _, _, rfl⟩
  | cons x xs ih =>
    intro written d w hbpf hlen
    simp only [flush_loop]
    split
    · rename_i hge
      split
      · rename_i hz
        apply ih _ _ _ hbpf
        simpa [progress_count, hz] using hlen
      · split
        · rename_i hpos
          refine ih _ _ _ ?_ ?_
          · exact hbpf
          · simp only [progress_count, if_pos hpos] at hlen
            push_cast at hlen
            have : d.bytes_per_frame ≤ x.writei * d.bytes_per_frame :=
              le_mul_of_one_le_left (le_of_lt hbpf) hpos
            simp only
            linarith
        · rename_i hneg
          simp only [progress_count, if_neg hneg, zero_add] at hlen
          split
          · exact ih _ _ _ hbpf hlen
          · split
            · exact ih _ _ _ hbpf hlen
            · exact ⟨_, _, _, _, rfl⟩
    · exact ⟨_, _, _, _, rfl⟩

/-- The copy-and-flush loop returns when the script holds enough answers that
report progress and the iteration budget covers the bytes to copy. -/
theorem play_loop_returns (buff : List Byte) (fuel : Nat) :
    ∀ (to_write buf_pos : Int) (d : Driver) (w : World) (rs : List DevResp),
      0 < d.chunk_bytes → d.chunk_bytes ≤ alsa_buf_size → 0 < d.bytes_per_frame →
      d.alsa_buf_fill ≤ alsa_buf_size → 0 ≤ to_write →
      d.alsa_buf_fill + to_write < d.chunk_bytes + progress_count rs * d.bytes_per_frame →
      ((d.alsa_buf_fill < d.chunk_bytes ∧ to_write + 1 ≤ fuel) ∨ to_write + 2 ≤ fuel) →
      ∃ r d' w' rs', play_loop buff fuel to_write buf_pos d w rs = .ret (r, d', w', rs') := by
  induction fuel with
  | zero =>
    intro to_write buf_pos d w rs _ _ _ _ htw _ hfuel
    have : to_write = 0 := by
      rcases hfuel with ⟨_, h⟩ | h <;> simp at h <;> omega
    simp only [play_loop, this, if_true]
    exact ⟨_, _, _, _, rfl⟩
  | succ n ih =>
    intro to_write buf_pos d w rs hcb hcap hbpf hf1 htw hlen hfuel
    simp only [play_loop]
    split
    · exact ⟨_, _, _, _, rfl⟩
    · rename_i hnz
      have hcopy0 : ¬ min to_write (alsa_buf_size - d.alsa_buf_fill) < 0 := by omega
      rw [if_neg hcopy0]
      set d1 : Driver := { d with
        alsa_buf := memcpy_in d.alsa_buf d.alsa_buf_fill buff buf_pos
          (min to_write (alsa_buf_size - d.alsa_buf_fill))
        alsa_buf_fill := d.alsa_buf_fill + min to_write (alsa_buf_size - d.alsa_buf_fill) }
        with hd1
      have e1 : d1.chunk_bytes = d.chunk_bytes := rfl
      have e2 : d1.bytes_per_frame = d.bytes_per_frame := rfl
      have e3 : d1.alsa_buf_fill
          = d.alsa_buf_fill + min to_write (alsa_buf_size - d.alsa_buf_fill) := rfl
      clear_value d1
      obtain ⟨r1, d2, w2, rs2, hret⟩ := flush_loop_returns rs 0 d1 w
        (by rw [e2]; exact hbpf) (by rw [e1, e2, e3]; omega)
      unfold play_buf_chunks
      rw [hret]
      simp only
      split
      · exact ⟨_, _, _, _, rfl⟩
      · rename_i hr1
        obtain ⟨used, acc, calls, P⟩ :=
          flush_loop_spec rs 0 d1 w r1 d2 w2 rs2 (by rw [e2]; exact hbpf) hret
        obtain ⟨_, _, _, _, _, _, c7, c8⟩ := P.config
        rcases P.cases with ⟨p1, p2, p3, p4⟩ | ⟨p1, _⟩
        swap
        · omega
        have hfill := P.fill
        have hcount : (progress_count rs : Int)
            = progress_count used + progress_count rs2 := by
          rw [P.script, progress_count_append]; push_cast; rfl
        have hused := progress_count_le_frames used
        have hfr := P.frames
        rw [P.frames_script, e2] at hfr
        have hmul : (progress_count used : Int) * d.bytes_per_frame
            ≤ script_frames used * d.bytes_per_frame :=
          mul_le_mul_of_nonneg_right hused (le_of_lt hbpf)
        apply ih
        · rw [c7, e1]; exact hcb
        · rw [c7, e1]; exact hcap
        · rw [c8, e2]; exact hbpf
        · omega
        · omega
        · rw [c7, c8, e1, e2]
          rw [hcount, add_mul] at hlen
          omega
        · left
          rw [c7]
          refine ⟨p2, ?_⟩
          rcases hfuel with ⟨h1, h2⟩ | h2
          · push_cast at h2 ⊢
            omega
          · push_cast at h2 ⊢
            omega

/-- C3: for every input of size n (n representable as a non-negative `int`)
played on a Streaming session, against device answers that keep the contract
of `snd_pcm_writei` (each answer is a value of the `int rc` that receives it,
and is an error code, zero, or a count of at most the frames asked for):
whenever `alsa_play` returns, it returns n if and only if no consumed device
answer is a write error whose recovery is unrecoverable, and -1 if and only
if some consumed answer is a write error followed by a recovery result other
than success or `-EAGAIN`; in the latter case that answer is the last one
consumed and the failed write and recovery are the last library calls, so no
further hardware write is attempted; and the session is still Streaming.  And
the call does return when the staging array can hold a chunk, the script
holds enough answers that report progress, and the iteration budget covers
the input. -/
theorem alsa_play_result (fuel : Nat) (buff : List Byte) (d : Driver) (w : World)
    (rs : List DevResp) (hd : d.streaming) (hsize : buff.length < 2 ^ 31)
    (hdev : ∀ x ∈ rs, x.in_range d) :
    (∀ r d' w' rs', alsa_play fuel buff d w rs = .ret (r, d', w', rs') →
      ∃ used calls, rs = used ++ rs' ∧ w'.log = w.log ++ calls ∧
        writes_issued calls = used.length ∧
        (r = buff.length ↔ ∀ x ∈ used, ¬ x.fatal) ∧
        (r = -1 ↔ ∃ x ∈ used, x.fatal) ∧
        (r = -1 → gave_up used calls) ∧
        d'.streaming) ∧
    (d.chunk_bytes ≤ alsa_buf_size →
      d.alsa_buf_fill + buff.length
        < d.chunk_bytes + progress_count rs * d.bytes_per_frame →
      buff.length + 2 ≤ fuel →
      ∃ r d' w' rs', alsa_play fuel buff d w rs = .ret (r, d', w', rs')) := by
  constructor
  · intro r d' w' rs' h
    obtain ⟨used, acc, calls, P⟩ := alsa_play_spec fuel buff d w rs r d' w' rs' hd hsize h
    have hused : ∀ x ∈ used, x.within d := by
      intro x hx
      exact (hdev x (by rw [P.script]; exact List.mem_append_left _ hx)).2.2
    have hstr : d'.streaming := by
      obtain ⟨c1, _, _, _, _, _, c7, c8⟩ := P.config
      obtain ⟨hh, hcb, hbpf, hf0, _⟩ := hd
      exact ⟨by rw [c1]; exact hh, by rw [c7]; exact hcb, by rw [c8]; exact hbpf,
        (P.sane hused hf0).1, P.fill_le⟩
    refine ⟨used, calls, P.script, P.log, P.writes, ?_⟩
    rcases P.cases with ⟨p1, _, p4⟩ | ⟨p1, _, p3⟩
    · refine ⟨⟨fun _ => p4, fun _ => p1⟩, ⟨fun h1 => ?_, fun ⟨x, hx, hf⟩ => absurd hf (p4 x hx)⟩,
        fun h1 => ?_, hstr⟩ <;> omega
    · obtain ⟨pre, f, calls0, off, frames, q1, q2, q3, q4⟩ := p3
      have hmem : f ∈ used := by rw [q1]; simp
      refine ⟨⟨fun h1 => by omega, fun h1 => absurd q2 (h1 f hmem)⟩,
        ⟨fun _ => ⟨f, hmem, q2⟩, fun _ => p1⟩,
        fun _ => ⟨pre, f, calls0, off, frames, q1, q2, q3, q4⟩, hstr⟩
  · intro hcap hlen hfuel
    obtain ⟨_, hcb, hbpf, hf0, hf1⟩ := hd
    unfold alsa_play
    rw [if_pos hcb, size_to_int_small _ hsize]
    exact play_loop_returns buff fuel _ 0 d w rs hcb hcap hbpf hf1
      (Int.ofNat_nonneg _) hlen (Or.inr (by exact_mod_cast hfuel))

/-- Worked example for C3: the six-byte call on the small session returns 6,
no consumed answer being fatal. -/
theorem alsa_play_result_witness :
    tiny_driver.streaming ∧ (∀ x ∈ tiny_script, x.in_range tiny_driver) ∧
    tiny_run = .ret tiny_out ∧
    (∃ used calls, tiny_script = used ++ tiny_out.2.2.2 ∧
        tiny_out.2.2.1.log = tiny_world.log ++ calls ∧
        writes_issued calls = used.length ∧
        (tiny_out.1 = ([1, 2, 3, 4, 5, 6] : List Byte).length ↔ ∀ x ∈ used, ¬ x.fatal) ∧
        (tiny_out.1 = -1 ↔ ∃ x ∈ used, x.fatal) ∧
        (tiny_out.1 = -1 → gave_up used calls) ∧
        tiny_out.2.1.streaming) ∧
    ∃ r d' w' rs',
      alsa_play 10 [1, 2, 3, 4, 5, 6] tiny_driver tiny_world tiny_script
        = .ret (r, d', w', rs') :=
  ⟨by decide, by decide, rfl,
   (alsa_play_result 10 [1, 2, 3, 4, 5, 6] tiny_driver tiny_world tiny_script
      (by decide) (by decide) (by decide)).1 tiny_out.1 tiny_out.2.1 tiny_out.2.2.1
      tiny_out.2.2.2 rfl,
   (alsa_play_result 10 [1, 2, 3, 4, 5, 6] tiny_driver tiny_world tiny_script
      (by decide) (by decide) (by decide)).2 (by decide) (by decide) (by decide)⟩

/-! ## C4: the staging fill stays inside the array -/

theorem tdiv_pos_imp (cb bpf k : Int) (hcb : 0 < cb) (h1 : 0 < k) (h2 : k ≤ Int.tdiv cb bpf) :
    0 < bpf := by
  by_contra hn
  have := Int.tdiv_nonpos (le_of_lt hcb) (not_lt.mp hn)
  omega

/-- The unused rest of the script is part of the script. -/
theorem flush_loop_suffix (rs : List DevResp) :
    ∀ (written : Int) (d : Driver) (w : World) (r : Int) (d' : Driver) (w' : World)
      (rs' : List DevResp),
      flush_loop written d w rs = .ret (r, d', w', rs') → ∀ x ∈ rs', x ∈ rs := by
  induction rs with
  | nil =>
    intro written d w r d' w' rs' h
    simp only [flush_loop] at h
    split at h
    · cases h
    · injection h with h
      simp only [Prod.mk.injEq] at h
      obtain ⟨_, _, _, rfl⟩ := h
      exact fun x hx => hx
  | cons x xs ih =>
    intro written d w r d' w' rs' h
    simp only [flush_loop] at h
    have step : ∀ written d w, flush_loop written d w xs = .ret (r, d', w', rs') →
        ∀ y ∈ rs', y ∈ x :: xs :=
      fun written d w h y hy => List.mem_cons_of_mem _ (ih written d w r d' w' rs' h y hy)
    split at h
    · split at h
      · exact step _ _ _ h
      · split at h
        · exact step _ _ _ h
        · split at h
          · exact step _ _ _ h
          · split at h
            · exact step _ _ _ h
            · injection h with h
              simp only [Prod.mk.injEq] at h
              obtain ⟨_, _, _, rfl⟩ := h
              exact fun y hy => List.mem_cons_of_mem _ hy
    · injection h with h
      simp only [Prod.mk.injEq] at h
      obtain ⟨_, _, _, rfl⟩ := h
      exact fun y hy => hy

/-- The flush loop keeps the fill between 0 and its starting value, in the
state it returns and in the state in which it waits for the device. -/
theorem flush_loop_fill_bounds (rs : List DevResp) :
    ∀ (written : Int) (d : Driver) (w : World) (d' : Driver),
      0 < d.chunk_bytes → 0 ≤ d.alsa_buf_fill → (∀ x ∈ rs, x.bounded d) →
      (flush_loop written d w rs).driver? = some d' →
      0 ≤ d'.alsa_buf_fill ∧ d'.alsa_buf_fill ≤ d.alsa_buf_fill ∧ d.same_config d' := by
  induction rs with
  | nil =>
    intro written d w d' hcb hf0 _ h
    simp only [flush_loop] at h
    split at h <;> simp only [Res.driver?, Option.some.injEq] at h <;> subst h <;>
      exact ⟨hf0, le_refl _, by simp [Driver.same_config]⟩
  | cons x xs ih =>
    intro written d w d' hcb hf0 hdev h
    have hx0 : 0 < x.writei → x.writei ≤ Int.tdiv d.chunk_bytes d.bytes_per_frame :=
      hdev x (List.mem_cons_self _ _)
    have hxs : ∀ y ∈ xs, y.bounded d := fun y hy => hdev y (List.mem_cons_of_mem _ hy)
    simp only [flush_loop] at h
    split at h
    · rename_i hge
      split at h
      · exact ih _ _ _ _ hcb hf0 hxs h
      · split at h
        · rename_i hpos
          have hx := hx0 hpos
          have hbpf := tdiv_pos_imp _ _ _ hcb hpos hx
          have h1 := tdiv_mul_le _ _ hcb hbpf
          have h2 : x.writei * d.bytes_per_frame
              ≤ Int.tdiv d.chunk_bytes d.bytes_per_frame * d.bytes_per_frame :=
            mul_le_mul_of_nonneg_right hx (le_of_lt hbpf)
          have h3 : 0 < x.writei * d.bytes_per_frame := mul_pos hpos hbpf
          obtain ⟨a, b, c⟩ := ih (written + x.writei * d.bytes_per_frame)
            { d with alsa_buf_fill := d.alsa_buf_fill - x.writei * d.bytes_per_frame }
            _ d' hcb (by simp only; omega) hxs h
          simp only at b
          exact ⟨a, by omega, c⟩
        · split at h
          · exact ih _ _ _ _ hcb hf0 hxs h
          · split at h
            · exact ih _ _ _ _ hcb hf0 hxs h
            · simp only [Res.driver?, Option.some.injEq] at h
              subst h
              exact ⟨hf0, le_refl _, same_config_refl _⟩
    · simp only [Res.driver?, Option.some.injEq] at h
      subst h
      exact ⟨hf0, le_refl _, by simp [Driver.same_config]⟩

/-- The copy-and-flush loop keeps the fill inside the staging array. -/
theorem play_loop_fill_bounds (buff : List Byte) (fuel : Nat) :
    ∀ (to_write buf_pos : Int) (d : Driver) (w : World) (rs : List DevResp) (d' : Driver),
      0 < d.chunk_bytes → 0 ≤ d.alsa_buf_fill → d.alsa_buf_fill ≤ alsa_buf_size →
      (∀ x ∈ rs, x.bounded d) →
      (play_loop buff fuel to_write buf_pos d w rs).driver? = some d' →
      0 ≤ d'.alsa_buf_fill ∧ d'.alsa_buf_fill ≤ alsa_buf_size ∧ d.same_config d' := by
  induction fuel with
  | zero =>
    intro to_write buf_pos d w rs d' _ hf0 hf1 _ h
    simp only [play_loop] at h
    split at h <;> simp only [Res.driver?, Option.some.injEq] at h <;> subst h <;>
      exact ⟨hf0, hf1, same_config_refl _⟩
  | succ n ih =>
    intro to_write buf_pos d w rs d' hcb hf0 hf1 hdev h
    simp only [play_loop] at h
    split at h
    · simp only [Res.driver?, Option.some.injEq] at h
      subst h
      exact ⟨hf0, hf1, same_config_refl _⟩
    · split at h
      · simp [Res.driver?] at h
      · rename_i hcopy
        set d1 : Driver := { d with
          alsa_buf := memcpy_in d.alsa_buf d.alsa_buf_fill buff buf_pos
            (min to_write (alsa_buf_size - d.alsa_buf_fill))
          alsa_buf_fill := d.alsa_buf_fill + min to_write (alsa_buf_size - d.alsa_buf_fill) }
          with hd1
        have e1 : d1.chunk_bytes = d.chunk_bytes := rfl
        have e2 : d1.bytes_per_frame = d.bytes_per_frame := rfl
        have e3 : d1.alsa_buf_fill
            = d.alsa_buf_fill + min to_write (alsa_buf_size - d.alsa_buf_fill) := rfl
        have e5 : d.same_config d1 := by simp [Driver.same_config, hd1]
        clear_value d1
        have hd1dev : ∀ x ∈ rs, x.bounded d1 := by
          intro y hy
          have := hdev y hy
          unfold DevResp.bounded at this ⊢
          rw [e1, e2]; exact this
        have hfl := flush_loop_fill_bounds rs 0 d1 w
        unfold play_buf_chunks at h
        split at h
        · rename_i r1 d2 w2 rs2 heq
          obtain ⟨a, b, c⟩ := hfl d2 (by rw [e1]; exact hcb) (by omega) hd1dev
            (by rw [heq]; rfl)
          have c12 := same_config_trans e5 c
          split at h
          · simp only [Res.driver?, Option.some.injEq] at h
            subst h
            exact ⟨a, by omega, c12⟩
          · have hscript : ∀ x ∈ rs2, x.bounded d2 := by
              intro y hy
              have := hdev y (flush_loop_suffix rs 0 d1 w r1 d2 w2 rs2 heq y hy)
              unfold DevResp.bounded at this ⊢
              rw [c12.2.2.2.2.2.2.1, c12.2.2.2.2.2.2.2]; exact this
            obtain ⟨a2, b2, c2⟩ := ih _ _ d2 w2 rs2 d'
              (by rw [c12.2.2.2.2.2.2.1]; exact hcb) a (by omega) hscript h
            exact ⟨a2, b2, same_config_trans c12 c2⟩
        · simp [Res.driver?] at h
        · rename_i d2 w2 heq
          simp only [Res.driver?, Option.some.injEq] at h
          subst h
          obtain ⟨a, b, c⟩ := hfl d2 (by rw [e1]; exact hcb) (by omega) hd1dev
            (by rw [heq]; rfl)
          exact ⟨a, by omega, same_config_trans e5 c⟩

theorem alsa_play_fill_bounds (fuel : Nat) (buff : List Byte) (d : Driver) (w : World)
    (rs : List DevResp) (d' : Driver)
    (hf0 : 0 ≤ d.alsa_buf_fill) (hf1 : d.alsa_buf_fill ≤ alsa_buf_size)
    (hdev : ∀ x ∈ rs, x.bounded d)
    (h : (alsa_play fuel buff d w rs).driver? = some d') :
    0 ≤ d'.alsa_buf_fill ∧ d'.alsa_buf_fill ≤ alsa_buf_size ∧ d.same_config d' := by
  unfold alsa_play at h
  split at h
  · rename_i hcb
    exact play_loop_fill_bounds buff fuel _ _ d w rs d' hcb hf0 hf1 hdev h
  · simp [Res.driver?] at h

/-- Adding a multiple of `2^32` does not change the `int` a value converts
to. -/
theorem wrap32_add_mul (x k : Int) : wrap32 (x + 2 ^ 32 * k) = wrap32 x := by
  unfold wrap32
  have e : x + 2 ^ 32 * k + 2 ^ 31 = (x + 2 ^ 31) + 2 ^ 32 * k := by ring
  rw [e, Int.add_mul_emod_self_left]

/-- The `int` of a product does not depend on whether a factor was converted
to `int` first. -/
theorem wrap32_mul_wrap32 (a b : Int) : wrap32 (a * wrap32 b) = wrap32 (a * b) := by
  have hb : wrap32 b = b + 2 ^ 32 * (-((b + 2 ^ 31) / 2 ^ 32)) := by
    unfold wrap32
    have := Int.emod_add_ediv (b + 2 ^ 31) (2 ^ 32)
    linarith
  have e : a * (b + 2 ^ 32 * (-((b + 2 ^ 31) / 2 ^ 32)))
      = a * b + 2 ^ 32 * (a * (-((b + 2 ^ 31) / 2 ^ 32))) := by ring
  rw [hb, e, wrap32_add_mul]

/-- What a successful end of the negotiation has established. -/
theorem alsa_open_finish_success (sp : sound_params) (r : OpenResp) (Bps : Int)
    (d : Driver) (w : World) (d' : Driver) (w' : World)
    (h : alsa_open_finish sp r Bps d w = (1, d', w')) :
    d'.alsa_buf_fill = 0 ∧ d'.handle = d.handle ∧ r.period_size ≠ r.buffer_size ∧
    d'.chunk_frames = r.period_size ∧ d'.buffer_frames = r.buffer_size ∧
    d'.bytes_per_frame = wrap32 (sp.channels * Bps) ∧
    d'.chunk_bytes = wrap32 ((r.period_size : Int) * (sp.channels * Bps)) ∧
    d'.params_channels = to_uint sp.channels ∧ d'.params_rate = d.params_rate ∧
    d'.params_format = d.params_format := by
  unfold alsa_open_finish at h
  simp only at h
  split at h
  · simp at h
  · rename_i hne
    split at h
    · simp at h
    · simp only [Prod.mk.injEq, true_and] at h
      obtain ⟨rfl, _⟩ := h
      exact ⟨rfl, rfl, hne, rfl, rfl, rfl, wrap32_mul_wrap32 _ _, rfl, rfl, rfl⟩

theorem alsa_open_times_success (sp : sound_params) (r : OpenResp) (Bps : Int)
    (d : Driver) (w : World) (d' : Driver) (w' : World)
    (h : alsa_open_times sp r Bps d w = (1, d', w')) :
    ∃ w4, alsa_open_finish sp r Bps d w4 = (1, d', w') := by
  unfold alsa_open_times at h
  simp only at h
  split at h
  · simp at h
  · split at h
    · simp at h
    · split at h
      · simp at h
      · split at h
        · simp at h
        · exact ⟨_, h⟩

theorem alsa_open_device_handle (a b c : Int) (d : Driver) (w : World) (d' : Driver)
    (w' : World) (h : alsa_open_device a b c d w = (true, d', w')) :
    d'.handle = some w.opened ∧ d'.params_format = d.params_format := by
  unfold alsa_open_device at h
  simp only at h
  split at h
  · simp at h
  · split at h
    · simp at h
    · split at h
      · simp at h
      · simp only [Prod.mk.injEq, true_and] at h
        obtain ⟨rfl, _⟩ := h
        exact ⟨rfl, rfl⟩

theorem alsa_open_success (sp : sound_params) (r : OpenResp) (d0 : Driver) (w0 : World)
    (d : Driver) (w : World) (h : alsa_open sp r d0 w0 = .ret (1, d, w)) :
    ∃ Bps d3 w5, sfmt_Bps sp.fmt = some Bps ∧ d3.handle = some w0.opened ∧
      d3.params_rate = r.rate ∧
      d3.params_format = format_to_mask (Int.land sp.fmt SFMT_MASK_FORMAT) ∧
      d3.params_format ≠ SND_PCM_FORMAT_UNKNOWN ∧
      alsa_open_times sp r Bps d3 w5 = (1, d, w) := by
  unfold alsa_open at h
  simp only at h
  split at h
  · simp at h
  · rename_i hfmt
    split at h
    · simp at h
    · rename_i d1 w1 hdev
      obtain ⟨hh, hf⟩ := alsa_open_device_handle _ _ _ _ _ _ _ hdev
      split at h
      · simp at h
      · split at h
        · simp at h
        · split at h
          · cases h
          · rename_i Bps hB
            split at h
            · simp at h
            · split at h
              · simp at h
              · injection h with h
                exact ⟨Bps, { d1 with params_rate := r.rate }, _, hB, hh, rfl, hf,
                  by rw [hf]; exact hfmt, h⟩

/-- A successful `alsa_open` leaves nothing staged. -/
theorem alsa_open_fill (sp : sound_params) (r : OpenResp) (d0 : Driver) (w0 : World)
    (d : Driver) (w : World) (h : alsa_open sp r d0 w0 = .ret (1, d, w)) :
    d.alsa_buf_fill = 0 := by
  obtain ⟨Bps, d3, w5, _, _, _, _, _, h1⟩ := alsa_open_success sp r d0 w0 d w h
  obtain ⟨w4, h2⟩ := alsa_open_times_success sp r Bps d3 w5 d w h1
  exact (alsa_open_finish_success sp r Bps d3 w4 d w h2).1

/-- C4: the staging fill satisfies `0 <= alsa_buf_fill <= sizeof (alsa_buf)`
(512 * 1024) in every state reachable from a successful `alsa_open` by any
interleaving of `alsa_play` calls with hardware write answers that are
zero-frame, partial (fewer frames than requested) or full-chunk writes (write
errors are covered too), both between calls and while a call waits for the
next answer. -/
theorem fill_within_capacity (d : Driver) (h : Reachable d) :
    0 ≤ d.alsa_buf_fill ∧ d.alsa_buf_fill ≤ 512 * 1024 := by
  induction h with
  | opened sp r d0 w0 d w h =>
    rw [alsa_open_fill sp r d0 w0 d w h]
    decide
  | played d fuel buff w rs d' _ hdev h ih =>
    obtain ⟨a, b, _⟩ := alsa_play_fill_bounds fuel buff d w rs d' ih.1 ih.2 hdev h
    exact ⟨a, b⟩

/-- A successful `alsa_open` for a positive channel count, on a device that
reports a positive period whose byte size fits an `int`, leaves a fresh
session. -/
theorem alsa_open_fresh (sp : sound_params) (r : OpenResp) (d0 : Driver) (w0 : World)
    (d : Driver) (w : World) (h : alsa_open sp r d0 w0 = .ret (1, d, w))
    (hch : 0 < sp.channels) (hp : 0 < r.period_size)
    (hov : (r.period_size : Int) * (sp.channels * 4) < 2 ^ 31) : d.fresh := by
  obtain ⟨Bps, d3, w5, hB, hh, _, _, hfmt, h1⟩ := alsa_open_success sp r d0 w0 d w h
  obtain ⟨w4, h2⟩ := alsa_open_times_success sp r Bps d3 w5 d w h1
  obtain ⟨f1, f2, _, f4, _, f6, f7, _⟩ := alsa_open_finish_success sp r Bps d3 w4 d w h2
  have hBps : Bps = 1 ∨ Bps = 2 ∨ Bps = 4 := by
    unfold sfmt_Bps at hB
    simp only at hB
    split at hB
    · left; exact (Option.some.inj hB).symm
    · split at hB
      · right; left; exact (Option.some.inj hB).symm
      · split at hB
        · right; right; exact (Option.some.inj hB).symm
        · cases hB
  have hB0 : 0 < Bps := by rcases hBps with e | e | e <;> omega
  have hB4 : Bps ≤ 4 := by rcases hBps with e | e | e <;> omega
  have hbpf : 0 < sp.channels * Bps := mul_pos hch hB0
  have hp' : (0 : Int) < r.period_size := by exact_mod_cast hp
  have hle : (r.period_size : Int) * (sp.channels * Bps)
      ≤ (r.period_size : Int) * (sp.channels * 4) :=
    mul_le_mul_of_nonneg_left (mul_le_mul_of_nonneg_left hB4 (le_of_lt hch)) (le_of_lt hp')
  have hone : sp.channels * Bps ≤ (r.period_size : Int) * (sp.channels * Bps) :=
    le_mul_of_one_le_left (le_of_lt hbpf) (by omega)
  have f6' : d.bytes_per_frame = sp.channels * Bps := by
    rw [f6]
    exact wrap32_small _ (le_of_lt hbpf) (by omega)
  refine ⟨by rw [f2, hh]; simp, by rw [f6']; exact hbpf, by rw [f4]; exact hp, ?_, f1⟩
  rw [f7, f4, f6']
  exact wrap32_small _ (le_of_lt (mul_pos hp' hbpf)) (lt_of_le_of_lt hle hov)

theorem cd_open_eq :
    alsa_open cd_params cd_resp closed_driver new_world = .ret (1, cd_driver, cd_open.2.2) :=
  rfl

theorem cd_after_reachable : Reachable cd_after :=
  Reachable.played cd_driver 5 [1, 2, 3, 4] cd_open.2.2 [] cd_after
    (Reachable.opened cd_params cd_resp closed_driver new_world cd_driver cd_open.2.2
      cd_open_eq)
    (by simp) rfl

/-- Worked example for C4: the 16-bit stereo session opened from the closed
state, after a call of four bytes. -/
theorem fill_within_capacity_witness :
    Reachable cd_after ∧ cd_after.alsa_buf_fill = 4 ∧
    (0 ≤ cd_after.alsa_buf_fill ∧ cd_after.alsa_buf_fill ≤ 512 * 1024) :=
  ⟨cd_after_reachable, by decide, fill_within_capacity cd_after cd_after_reachable⟩

/-! ## C5-C7: `alsa_open` -/

theorem since_refl (w : World) (P : Call → Prop) : w.since w P :=
  ⟨[], by simp, by simp⟩

theorem since_call {w0 w : World} {P : Call → Prop} (c : Call) (h : w0.since w P)
    (hc : P c) : w0.since (w.call c) P := by
  obtain ⟨calls, h1, h2⟩ := h
  refine ⟨calls ++ [c], by simp [World.call, h1], ?_⟩
  intro x hx
  rcases List.mem_append.mp hx with hx | hx
  · exact h2 x hx
  · rw [List.mem_singleton.mp hx]; exact hc

theorem since_trans {w0 w1 w2 : World} {P : Call → Prop} (h1 : w0.since w1 P)
    (h2 : w1.since w2 P) : w0.since w2 P := by
  obtain ⟨c1, a1, a2⟩ := h1
  obtain ⟨c2, b1, b2⟩ := h2
  refine ⟨c1 ++ c2, by rw [b1, a1, List.append_assoc], ?_⟩
  intro x hx
  rcases List.mem_append.mp hx with hx | hx
  · exact a2 x hx
  · exact b2 x hx

theorem since_close {w0 w : World} {P : Call → Prop} (d : Driver) (h : w0.since w P)
    (hc : ∀ x, P (.pcm_close x)) : w0.since (snd_pcm_close d w) P := by
  obtain ⟨calls, h1, h2⟩ := h
  unfold snd_pcm_close
  split
  · rename_i hd _
    refine ⟨calls ++ [.pcm_close (some hd)], by simp [World.call, h1], ?_⟩
    intro x hx
    rcases List.mem_append.mp hx with hx | hx
    · exact h2 x hx
    · rw [List.mem_singleton.mp hx]; exact hc _
  · exact since_call _ ⟨calls, h1, h2⟩ (hc _)

/-- A mapped format has a sample size. -/
theorem sfmt_Bps_of_mapped (fmt : Int)
    (h : format_to_mask (Int.land fmt SFMT_MASK_FORMAT) ≠ SND_PCM_FORMAT_UNKNOWN) :
    ∃ Bps, sfmt_Bps fmt = some Bps ∧ (Bps = 1 ∨ Bps = 2 ∨ Bps = 4) := by
  unfold sfmt_Bps
  generalize Int.land fmt SFMT_MASK_FORMAT = f at h ⊢
  simp only [format_to_mask, format_to_mask_loop, format_masks] at h
  simp only
  split
  · exact ⟨1, rfl, Or.inl rfl⟩
  · split
    · exact ⟨2, rfl, Or.inr (Or.inl rfl)⟩
    · split
      · exact ⟨4, rfl, Or.inr (Or.inr rfl)⟩
      · rename_i h1 h2 h3
        simp only [not_or] at h1 h2 h3
        exfalso
        apply h
        rw [if_neg (Ne.symm h1.1), if_neg (Ne.symm h1.2), if_neg (Ne.symm h2.1),
          if_neg (Ne.symm h2.2), if_neg (Ne.symm h3.1), if_neg (Ne.symm h3.2.1)]

theorem alsa_open_device_no_prepare (a b c : Int) (d : Driver) (w : World) :
    w.since (alsa_open_device a b c d w).2.2 Call.not_prepare := by
  unfold alsa_open_device
  simp only
  split
  · exact since_call _ (since_refl _ _) trivial
  · have h1 : w.since
        ({ w.call (.pcm_open a) with opened := w.opened + 1, live := w.opened :: w.live } : World)
        Call.not_prepare := ⟨[.pcm_open a], rfl, by simp [Call.not_prepare]⟩
    split
    · exact since_close _ (since_call _ h1 trivial) (fun _ => trivial)
    · split
      · exact since_close _ (since_call _ (since_call _ (since_call _ h1 trivial) trivial)
          trivial) (fun _ => trivial)
      · exact since_call _ (since_call _ h1 trivial) trivial

theorem alsa_open_finish_rejects (sp : sound_params) (r : OpenResp) (Bps : Int)
    (d : Driver) (w : World) (h : r.period_size = r.buffer_size) :
    (alsa_open_finish sp r Bps d w).1 = 0 ∧
    w.since (alsa_open_finish sp r Bps d w).2.2 Call.not_prepare := by
  unfold alsa_open_finish
  simp only [h, if_true]
  exact ⟨trivial, since_call _ (since_call _ (since_call _ (since_refl _ _) trivial) trivial)
    trivial⟩

theorem alsa_open_times_rejects (sp : sound_params) (r : OpenResp) (Bps : Int)
    (d : Driver) (w : World) (h : r.period_size = r.buffer_size) :
    (alsa_open_times sp r Bps d w).1 = 0 ∧
    w.since (alsa_open_times sp r Bps d w).2.2 Call.not_prepare := by
  unfold alsa_open_times
  simp only
  have s1 := since_call (P := Call.not_prepare) (.get_buffer_time_max r.get_buffer_time_max)
    (since_refl w _) trivial
  split
  · exact ⟨rfl, since_call _ s1 trivial⟩
  · have s2 := since_call (P := Call.not_prepare)
      (.set_period_time_near
        ((if r.buffer_time_max > BUFFER_MAX_USEC then BUFFER_MAX_USEC
          else r.buffer_time_max) / 4) r.set_period_time_near) s1 trivial
    split
    · exact ⟨rfl, since_call _ s2 trivial⟩
    · have s3 := since_call (P := Call.not_prepare)
        (.set_buffer_time_near
          (if r.buffer_time_max > BUFFER_MAX_USEC then BUFFER_MAX_USEC
            else r.buffer_time_max) r.set_buffer_time_near) s2 trivial
      split
      · exact ⟨rfl, since_call _ s3 trivial⟩
      · have s4 := since_call (P := Call.not_prepare) (.hw_params r.hw_params) s3 trivial
        split
        · exact ⟨rfl, since_call _ s4 trivial⟩
        · obtain ⟨a, b⟩ := alsa_open_finish_rejects sp r Bps d _ h
          exact ⟨a, since_trans s4 b⟩

/-- C5: for every requested configuration, every driver state and every
device, if the period size read back after applying the hardware parameters
equals the buffer size read back, `alsa_open` returns failure (0) and issues
no `snd_pcm_prepare`: the device is not prepared for transfer. -/
theorem alsa_open_rejects_period_eq_buffer (sp : sound_params) (r : OpenResp)
    (d0 : Driver) (w0 : World) (h : r.period_size = r.buffer_size) :
    ∃ d w calls, alsa_open sp r d0 w0 = .ret (0, d, w) ∧ w.log = w0.log ++ calls ∧
      ∀ rc, Call.pcm_prepare rc ∉ calls := by
  have key : ∃ d w, alsa_open sp r d0 w0 = .ret (0, d, w) ∧ w0.since w Call.not_prepare := by
    unfold alsa_open
    simp only
    split
    · exact ⟨_, _, rfl, since_refl _ _⟩
    · rename_i hfmt
      have hdev := alsa_open_device_no_prepare r.pcm_open r.hw_params_malloc r.hw_params_any
        { d0 with params_format := format_to_mask (Int.land sp.fmt SFMT_MASK_FORMAT) } w0
      split
      · rename_i d1 w1 heq
        rw [heq] at hdev
        exact ⟨_, _, rfl, hdev⟩
      · rename_i d1 w1 heq
        rw [heq] at hdev
        simp only at hdev
        have s2 := since_call (.set_access r.set_access) hdev trivial
        split
        · exact ⟨_, _, rfl, since_call _ s2 trivial⟩
        · have s3 := since_call (.set_format d1.params_format r.set_format) s2 trivial
          split
          · exact ⟨_, _, rfl, since_call _ s3 trivial⟩
          · obtain ⟨Bps, hB, _⟩ := sfmt_Bps_of_mapped sp.fmt hfmt
            rw [hB]
            simp only
            have s4 := since_call (.set_rate_near (to_uint sp.rate) r.set_rate_near) s3 trivial
            split
            · exact ⟨_, _, rfl, since_call _ s4 trivial⟩
            · have s5 := since_call (.set_channels (to_uint sp.channels) r.set_channels)
                s4 trivial
              split
              · exact ⟨_, _, rfl, since_call _ s5 trivial⟩
              · obtain ⟨a, b⟩ := alsa_open_times_rejects sp r Bps
                  { d1 with params_rate := r.rate } _ h
                exact ⟨(alsa_open_times sp r Bps { d1 with params_rate := r.rate }
                    ((((w1.call (.set_access r.set_access)).call
                      (.set_format d1.params_format r.set_format)).call
                      (.set_rate_near (to_uint sp.rate) r.set_rate_near)).call
                      (.set_channels (to_uint sp.channels) r.set_channels))).2.1,
                  _, congrArg Res.ret (Prod.ext a rfl), since_trans s5 b⟩
  obtain ⟨d, w, h1, calls, h2, h3⟩ := key
  refine ⟨d, w, calls, h1, h2, ?_⟩
  intro rc hmem
  exact h3 _ hmem

/-- Worked example for C5: the 16-bit stereo request on a device whose period
equals its buffer (3307 frames each). -/
theorem alsa_open_rejects_period_eq_buffer_witness :
    ({ cd_resp with buffer_size := 3307 } : OpenResp).period_size
      = ({ cd_resp with buffer_size := 3307 } : OpenResp).buffer_size ∧
    ∃ d w calls,
      alsa_open cd_params { cd_resp with buffer_size := 3307 } closed_driver new_world
        = .ret (0, d, w) ∧
      w.log = new_world.log ++ calls ∧ ∀ rc, Call.pcm_prepare rc ∉ calls :=
  ⟨rfl, alsa_open_rejects_period_eq_buffer cd_params { cd_resp with buffer_size := 3307 }
    closed_driver new_world rfl⟩

/-- C6 (as amended): `alsa_open` has no already-open check.  If it is called
while a session is already open and the requested format is unmapped or the
device refuses to be opened again (`snd_pcm_open` fails), the call returns
failure (0) and leaves every field of the first session's state (device
handle, negotiated rate and channels, `chunk_frames`, `buffer_frames`,
`chunk_bytes`, `bytes_per_frame`, staged bytes and `alsa_buf_fill`) unchanged,
except `params.format`, which is overwritten with the platform code of the
requested format (`SND_PCM_FORMAT_UNKNOWN` when unmapped). -/
theorem alsa_open_refused_keeps_session (sp : sound_params) (r : OpenResp) (d : Driver)
    (w : World)
    (h : format_to_mask (Int.land sp.fmt SFMT_MASK_FORMAT) = SND_PCM_FORMAT_UNKNOWN
      ∨ r.pcm_open < 0) :
    ∃ w', alsa_open sp r d w
      = .ret (0, { d with params_format := format_to_mask (Int.land sp.fmt SFMT_MASK_FORMAT) },
          w') := by
  unfold alsa_open
  simp only
  split
  · exact ⟨_, rfl⟩
  · rename_i hfmt
    have hopen : r.pcm_open < 0 := h.resolve_left hfmt
    simp only [alsa_open_device, if_pos hopen]
    exact ⟨_, rfl⟩

/-- Worked example for C6: the device refuses a second open with `-EBUSY`
while the 16-bit stereo session is open with four bytes staged. -/
theorem alsa_open_refused_keeps_session_witness :
    cd_after.handle = some 0 ∧ cd_after.alsa_buf_fill = 4 ∧
    (format_to_mask (Int.land cd_params.fmt SFMT_MASK_FORMAT) = SND_PCM_FORMAT_UNKNOWN
      ∨ busy_resp.pcm_open < 0) ∧
    ∃ w', alsa_open cd_params busy_resp cd_after cd_play.2.2.1
      = .ret (0, { cd_after with
          params_format := format_to_mask (Int.land cd_params.fmt SFMT_MASK_FORMAT) }, w') :=
  ⟨by decide, by decide, by decide,
   alsa_open_refused_keeps_session cd_params busy_resp cd_after cd_play.2.2.1 (by decide)⟩

/-- Counterexample to C6 as stated: the 16-bit stereo session is open (handle
0, four bytes staged) and `alsa_open` is called again on a device that hands
out a second handle.  The call returns success (1), replaces the handle by
handle 1 while handle 0 stays open, and resets the fill to 0. -/
theorem alsa_open_twice_succeeds :
    cd_after.handle = some 0 ∧ cd_after.alsa_buf_fill = 4 ∧
    alsa_open cd_params cd_resp cd_after cd_play.2.2.1 = .ret second_open ∧
    second_open.1 = 1 ∧ second_open.2.1.handle = some 1 ∧
    second_open.2.1.alsa_buf_fill = 0 ∧ second_open.2.2.live = [1, 0] :=
  ⟨by decide, by decide, rfl, by decide, by decide, by decide, by decide⟩

/-- C7, the code at the failing input: from the closed state (no handle and
no open device) `alsa_open` is called for 16-bit stereo on a device whose
`snd_pcm_hw_params_set_access` fails.  The call returns 0, but `handle` still
holds handle 0 and that handle is still open: the failure path frees the
parameter structure and returns without `snd_pcm_close`. -/
theorem alsa_open_failure_leaks_handle :
    closed_driver.handle = none ∧ new_world.live = [] ∧
    alsa_open cd_params no_access_resp closed_driver new_world = .ret no_access_open ∧
    no_access_open.1 = 0 ∧ no_access_open.2.1.handle = some 0 ∧
    no_access_open.2.2.live = [0] ∧
    no_access_open.2.2.log
      = [.pcm_open 0, .hw_params_malloc 0, .hw_params_any 0, .set_access (-22),
         .hw_params_free] :=
  ⟨rfl, rfl, rfl, by decide, by decide, by decide, by decide⟩

theorem alsa_open_finish_keeps_handle (sp : sound_params) (r : OpenResp) (Bps : Int)
    (d : Driver) (w : World) :
    (alsa_open_finish sp r Bps d w).2.1.handle = d.handle ∧
    (alsa_open_finish sp r Bps d w).2.2.live = w.live := by
  unfold alsa_open_finish
  simp only
  split
  · exact ⟨rfl, rfl⟩
  · split <;> exact ⟨rfl, rfl⟩

theorem alsa_open_times_keeps_handle (sp : sound_params) (r : OpenResp) (Bps : Int)
    (d : Driver) (w : World) :
    (alsa_open_times sp r Bps d w).2.1.handle = d.handle ∧
    (alsa_open_times sp r Bps d w).2.2.live = w.live := by
  unfold alsa_open_times
  simp only
  split
  · exact ⟨rfl, rfl⟩
  · split
    · exact ⟨rfl, rfl⟩
    · split
      · exact ⟨rfl, rfl⟩
      · split
        · exact ⟨rfl, rfl⟩
        · exact alsa_open_finish_keeps_handle sp r Bps d _

theorem alsa_open_times_result_handle {sp : sound_params} {r : OpenResp} {Bps : Int}
    {d : Driver} {w : World} {ret : Int} {d' : Driver} {w' : World}
    (h : alsa_open_times sp r Bps d w = (ret, d', w')) :
    d'.handle = d.handle ∧ w'.live = w.live := by
  have hk := alsa_open_times_keeps_handle sp r Bps d w
  rw [h] at hk
  exact hk

/-- Every return of `alsa_open` that follows a successful `alsa_open_device`
(the format is mapped and the device answers `snd_pcm_open`,
`snd_pcm_hw_params_malloc` and `snd_pcm_hw_params_any` with success) leaves
the handle it opened set and open, whatever the return value: the failure
paths of `alsa_open` itself never close it. -/
theorem alsa_open_keeps_handle_open (sp : sound_params) (r : OpenResp) (d0 : Driver)
    (w0 : World) (ret : Int) (d : Driver) (w : World)
    (hfmt : format_to_mask (Int.land sp.fmt SFMT_MASK_FORMAT) ≠ SND_PCM_FORMAT_UNKNOWN)
    (h1 : 0 ≤ r.pcm_open) (h2 : 0 ≤ r.hw_params_malloc) (h3 : 0 ≤ r.hw_params_any)
    (h : alsa_open sp r d0 w0 = .ret (ret, d, w)) :
    d.handle = some w0.opened ∧ w.live = w0.opened :: w0.live := by
  unfold alsa_open at h
  simp only [alsa_open_device, if_neg hfmt, if_neg (not_lt.mpr h1), if_neg (not_lt.mpr h2),
    if_neg (not_lt.mpr h3)] at h
  split at h
  · injection h with h
    simp only [Prod.mk.injEq] at h
    obtain ⟨_, rfl, rfl⟩ := h
    exact ⟨rfl, rfl⟩
  · split at h
    · injection h with h
      simp only [Prod.mk.injEq] at h
      obtain ⟨_, rfl, rfl⟩ := h
      exact ⟨rfl, rfl⟩
    · split at h
      · cases h
      · split at h
        · injection h with h
          simp only [Prod.mk.injEq] at h
          obtain ⟨_, rfl, rfl⟩ := h
          exact ⟨rfl, rfl⟩
        · split at h
          · injection h with h
            simp only [Prod.mk.injEq] at h
            obtain ⟨_, rfl, rfl⟩ := h
            exact ⟨rfl, rfl⟩
          · injection h with h
            exact alsa_open_times_result_handle h

/-! ## C8, C9: `alsa_close` -/

theorem to_uint_small (x : Int) (h0 : 0 ≤ x) (h1 : x < 2 ^ 32) : (to_uint x : Int) = x := by
  unfold to_uint
  rw [Int.emod_eq_of_lt h0 h1, Int.toNat_of_nonneg h0]

/-- With whole frames staged the silence asked for covers exactly the rest
of the chunk. -/
theorem silence_bytes_exact (lib : PcmLib) (d : Driver) (hf : d.framed lib)
    (h0 : 0 ≤ d.alsa_buf_fill) (h1 : d.alsa_buf_fill < d.chunk_bytes)
    (hal : d.bytes_per_frame ∣ d.alsa_buf_fill) :
    ((silence_samples d * lib.sample_bytes d.params_format : Nat) : Int)
      = d.chunk_bytes - d.alsa_buf_fill := by
  obtain ⟨hbpf, hfr, hcb, hint⟩ := hf
  have hdvd : d.bytes_per_frame ∣ d.chunk_bytes - d.alsa_buf_fill := dvd_sub hcb hal
  obtain ⟨q, hq⟩ := hdvd
  have hq0 : 0 ≤ q := by
    by_contra hn
    have : d.bytes_per_frame * q < 0 := mul_neg_of_pos_of_neg hbpf (not_le.mp hn)
    omega
  have htd : Int.tdiv (d.chunk_bytes - d.alsa_buf_fill) d.bytes_per_frame = q := by
    rw [hq]
    exact Int.mul_tdiv_cancel_left _ (ne_of_gt hbpf)
  have hch0 : (0 : Int) ≤ d.params_channels := Int.ofNat_nonneg _
  have hsb0 : (0 : Int) ≤ lib.sample_bytes d.params_format := Int.ofNat_nonneg _
  have hsb1 : (1 : Int) ≤ lib.sample_bytes d.params_format := by
    by_contra hn
    have : (lib.sample_bytes d.params_format : Int) = 0 := by omega
    rw [Nat.cast_mul, this, mul_zero] at hfr
    omega
  have hprod : q * d.params_channels * lib.sample_bytes d.params_format
      = d.chunk_bytes - d.alsa_buf_fill := by
    rw [hq, hfr]; push_cast; ring
  have hle : q * d.params_channels ≤ q * d.params_channels * lib.sample_bytes d.params_format :=
    le_mul_of_one_le_right (mul_nonneg hq0 hch0) hsb1
  unfold silence_samples
  rw [htd, Nat.cast_mul, to_uint_small _ (mul_nonneg hq0 hch0) (by omega)]
  exact hprod

theorem script_frames_dvd_pos (F : Int) (us : List DevResp)
    (h : ∀ x ∈ us, 0 < x.writei → x.writei = F) : F ∣ script_frames us := by
  induction us with
  | nil => simp [script_frames]
  | cons x xs ih =>
    have hx := h x (List.mem_cons_self _ _)
    have hxs := ih (fun y hy => h y (List.mem_cons_of_mem _ hy))
    simp only [script_frames]
    apply dvd_add _ hxs
    split
    · rename_i hpos
      rw [hx hpos]
    · exact dvd_zero _

/-- The end of `alsa_close` hands no byte to the device. -/
theorem alsa_close_finish_played (cr : CloseResp) (d : Driver) (w : World) :
    (alsa_close_finish cr d w).2.played = w.played := by
  unfold alsa_close_finish snd_pcm_close
  cases d.handle <;> by_cases hrc : cr.delay_rc = 0 <;> simp [World.call, hrc]

/-- The end of `alsa_close` issues no hardware write. -/
theorem alsa_close_finish_log (cr : CloseResp) (d : Driver) (w : World) :
    ∃ calls, (alsa_close_finish cr d w).2.log = w.log ++ calls ∧ writes_issued calls = 0 := by
  unfold alsa_close_finish snd_pcm_close
  cases d.handle <;> by_cases hrc : cr.delay_rc = 0
  · exact ⟨[.pcm_delay cr.delay_rc, .xsleep cr.delay d.params_rate, .pcm_close none],
      by simp [World.call, hrc], rfl⟩
  · exact ⟨[.pcm_delay cr.delay_rc, .pcm_close none], by simp [World.call, hrc], rfl⟩
  · rename_i hnd
    exact ⟨[.pcm_delay cr.delay_rc, .xsleep cr.delay d.params_rate, .pcm_close (some hnd)],
      by simp [World.call, hrc], rfl⟩
  · rename_i hnd
    exact ⟨[.pcm_delay cr.delay_rc, .pcm_close (some hnd)], by simp [World.call, hrc], rfl⟩

/-- The padded chunk: the staged bytes followed by silence. -/
theorem alsa_close_pad_chunk (lib : PcmLib) (d : Driver) (w : World) (hf : d.framed lib)
    (h0 : 0 ≤ d.alsa_buf_fill) (h1 : d.alsa_buf_fill < d.chunk_bytes)
    (hal : d.bytes_per_frame ∣ d.alsa_buf_fill) :
    slice (alsa_close_pad lib d w).1.alsa_buf 0 d.chunk_bytes
      = slice d.alsa_buf 0 d.alsa_buf_fill
        ++ silence_run lib d.params_format (d.chunk_bytes - d.alsa_buf_fill).toNat := by
  have hbytes := silence_bytes_exact lib d hf h0 h1 hal
  have hsplit := slice_add (alsa_close_pad lib d w).1.alsa_buf 0 d.alsa_buf_fill
    (d.chunk_bytes - d.alsa_buf_fill) h0 (by omega)
  have e : d.alsa_buf_fill + (d.chunk_bytes - d.alsa_buf_fill) = d.chunk_bytes := by ring
  rw [e] at hsplit
  rw [hsplit]
  congr 1
  · apply slice_congr
    intro i hi0 hi1
    have : ¬ (d.alsa_buf_fill ≤ i ∧ i < d.alsa_buf_fill
        + ((silence_samples d * lib.sample_bytes d.params_format : Nat) : Int)) := by omega
    simp only [alsa_close_pad, snd_pcm_format_set_silence, this, if_false]
  · unfold slice silence_run
    apply List.map_congr_left
    intro i hi
    have hi2 : i < (d.chunk_bytes - d.alsa_buf_fill).toNat := List.mem_range.mp hi
    have hin : d.alsa_buf_fill ≤ 0 + d.alsa_buf_fill + (i : Int) ∧
        0 + d.alsa_buf_fill + (i : Int) < d.alsa_buf_fill
          + ((silence_samples d * lib.sample_bytes d.params_format : Nat) : Int) := by omega
    have hidx : (0 + d.alsa_buf_fill + (i : Int) - d.alsa_buf_fill).toNat = i := by omega
    simp only [alsa_close_pad, snd_pcm_format_set_silence, hin, and_self, if_true, hidx]

/-- What the flush at the end of `alsa_close` hands to the device when it
starts with exactly one chunk staged. -/
theorem alsa_close_flush_spec (cr : CloseResp) (d : Driver) (w : World) (rs : List DevResp)
    (d' : Driver) (w' : World) (rs' : List DevResp)
    (hbpf : 0 < d.bytes_per_frame) (hcb : 0 < d.chunk_bytes)
    (hfill : d.alsa_buf_fill = d.chunk_bytes) (hdvd : d.bytes_per_frame ∣ d.chunk_bytes)
    (hdev : ∀ x ∈ rs, x.within d)
    (h : alsa_close_flush cr d w rs = .ret (d', w', rs')) :
    ∃ used calls, rs = used ++ rs' ∧ d'.handle = none ∧
      w'.log = w.log ++ calls ∧ writes_issued calls = used.length ∧
      w'.played = w.played ++ slice d.alsa_buf 0 (script_frames used * d.bytes_per_frame) ∧
      script_frames used * d.bytes_per_frame ≤ d.chunk_bytes ∧
      ((∀ x ∈ used, ¬ x.fatal) → 0 < script_frames used) ∧
      ((∀ x ∈ used, 0 < x.writei → x.writei = Int.tdiv d.chunk_bytes d.bytes_per_frame) →
        (∀ x ∈ used, ¬ x.fatal) → script_frames used * d.bytes_per_frame = d.chunk_bytes) := by
  unfold alsa_close_flush at h
  cases hpb : play_buf_chunks d w rs with
  | abort => rw [hpb] at h; cases h
  | pending d2 w2 => rw [hpb] at h; cases h
  | ret out =>
    obtain ⟨r, d2, w2, rs2⟩ := out
    rw [hpb] at h
    simp only [Res.ret.injEq, Prod.mk.injEq] at h
    obtain ⟨hd', hw', hrs'⟩ := h
    subst hrs'
    unfold play_buf_chunks at hpb
    obtain ⟨used, acc, calls, P⟩ := flush_loop_spec rs 0 d w r d2 w2 rs2 hbpf hpb
    have hused : ∀ x ∈ used, x.within d := by
      intro x hx
      exact hdev x (by rw [P.script]; exact List.mem_append_left _ hx)
    have hlen : (acc.length : Int) = script_frames used * d.bytes_per_frame := by
      rw [← P.frames_script, P.frames]
    have hfill2 := P.fill
    have hnn : 0 ≤ d2.alsa_buf_fill := P.nonneg hcb hused (by omega)
    have hgave : (∀ x ∈ used, ¬ x.fatal) → d2.alsa_buf_fill < d.chunk_bytes := by
      intro hnf
      rcases P.cases with ⟨_, p2, _⟩ | ⟨_, _, _, p4⟩
      · exact p2
      · obtain ⟨pre, f, _, _, _, q1, q2, _⟩ := p4
        exact absurd q2 (hnf f (by rw [q1]; simp))
    obtain ⟨tail, htail, hw0⟩ := alsa_close_finish_log cr d2 w2
    refine ⟨used, calls ++ tail, P.script, ?_, ?_, ?_, ?_, by omega, ?_, ?_⟩
    · rw [← hd']
      rfl
    · rw [← hw', htail, P.log, List.append_assoc]
    · rw [writes_issued_append, hw0, P.writes]
      rfl
    · rw [← hw', alsa_close_finish_played, P.played, ← hlen]
      congr 1
      exact P.acc_eq
    · intro hnf
      have hlt := hgave hnf
      have hpos : 0 < script_frames used * d.bytes_per_frame := by omega
      by_contra hn
      have hle0 : script_frames used ≤ 0 := not_lt.mp hn
      nlinarith
    · intro hfull hnf
      have hlt := hgave hnf
      have hpos : 0 < script_frames used * d.bytes_per_frame := by omega
      obtain ⟨k, hk⟩ := script_frames_dvd_pos _ used hfull
      have hF : Int.tdiv d.chunk_bytes d.bytes_per_frame * d.bytes_per_frame
          = d.chunk_bytes := Int.tdiv_mul_cancel hdvd
      have hprod : script_frames used * d.bytes_per_frame = k * d.chunk_bytes := by
        rw [hk]
        linear_combination k * hF
      rw [hprod] at hpos ⊢
      have hle : k * d.chunk_bytes ≤ 1 * d.chunk_bytes := by
        rw [one_mul, ← hprod]; omega
      have hk1 : k ≤ 1 := le_of_mul_le_mul_right hle hcb
      have hk0 : 0 < k := by
        by_contra hn
        have hle0 : k ≤ 0 := not_lt.mp hn
        nlinarith
      have : k = 1 := by omega
      rw [this, one_mul]

/-- C8 (as amended): for every Streaming state with
`0 < alsa_buf_fill < chunk_bytes` in which a whole number of frames is staged
(`alsa_buf_fill` is a multiple of `bytes_per_frame`), `alsa_close` overwrites
exactly the `chunk_bytes - alsa_buf_fill` bytes
`alsa_buf[alsa_buf_fill .. chunk_bytes)` with the silence of the session's
format, leaves the staged bytes before them (and everything after the chunk)
unchanged, sets the fill to exactly `chunk_bytes` and then flushes.  The
flush is the one of `play_buf_chunks` on the padded chunk: against a device
that never reports more frames than it was asked to write, a returned
`alsa_close` has handed the device the first `frames * bytes_per_frame` bytes
of the padded chunk, where `frames` is the sum of the frames the consumed
answers report, at least one frame unless recovery failed; when every
accepting answer takes the whole chunk the device has received the staged
bytes followed by the `chunk_bytes - alsa_buf_fill` bytes of silence; and
`alsa_close` returns, the device closed, as soon as the script holds an
answer that accepts frames.  In the scenario with frames of 4 bytes (16-bit
stereo), a period of 3307 frames (`chunk_bytes` = 13228) and two plays of
8000 bytes answered by zero-frame or full-chunk writes, the fill at close is
2772 and exactly 10456 bytes of silence are written. -/
theorem alsa_close_pads_with_silence (lib : PcmLib) (cr : CloseResp) (d : Driver)
    (w : World) (rs : List DevResp)
    (hh : d.handle ≠ none) (hf : d.framed lib)
    (h0 : 0 < d.alsa_buf_fill) (h1 : d.alsa_buf_fill < d.chunk_bytes)
    (hal : d.bytes_per_frame ∣ d.alsa_buf_fill) :
    ((silence_samples d * lib.sample_bytes d.params_format : Nat) : Int)
        = d.chunk_bytes - d.alsa_buf_fill ∧
    (alsa_close_pad lib d w).1.alsa_buf_fill = d.chunk_bytes ∧
    (∀ i, i < d.alsa_buf_fill → (alsa_close_pad lib d w).1.alsa_buf i = d.alsa_buf i) ∧
    (∀ i, d.alsa_buf_fill ≤ i → i < d.chunk_bytes →
      (alsa_close_pad lib d w).1.alsa_buf i
        = lib.silence d.params_format (i - d.alsa_buf_fill).toNat) ∧
    (∀ i, d.chunk_bytes ≤ i → (alsa_close_pad lib d w).1.alsa_buf i = d.alsa_buf i) ∧
    alsa_close lib cr d w rs
      = alsa_close_flush cr (alsa_close_pad lib d w).1 (alsa_close_pad lib d w).2 rs ∧
    (∀ (fuel : Nat) (b1 b2 : List Byte) (d0 : Driver) (w0 : World) (rs0 : List DevResp)
      (outs : List Int) (d1 : Driver) (w1 : World) (rs1 : List DevResp),
      d0.fresh → d0.chunk_frames = 3307 → d0.bytes_per_frame = 4 → d0.params_channels = 2 →
      lib.sample_bytes d0.params_format = 2 → b1.length = 8000 → b2.length = 8000 →
      (∀ x ∈ rs0, x.zero_or_full d0) →
      play_all fuel [b1, b2] d0 w0 rs0 = .ret (outs, d1, w1, rs1) →
      d1.alsa_buf_fill = 2772 ∧
      silence_samples d1 * lib.sample_bytes d1.params_format = 10456) ∧
    (∀ d' w' rs', (∀ x ∈ rs, x.within d) →
      alsa_close lib cr d w rs = .ret (d', w', rs') →
      ∃ used calls, rs = used ++ rs' ∧ d'.handle = none ∧
        w'.log = w.log
          ++ .set_silence d.params_format d.alsa_buf_fill (silence_samples d) :: calls ∧
        writes_issued calls = used.length ∧
        w'.played = w.played ++ slice (alsa_close_pad lib d w).1.alsa_buf 0
          (script_frames used * d.bytes_per_frame) ∧
        script_frames used * d.bytes_per_frame ≤ d.chunk_bytes ∧
        ((∀ x ∈ used, ¬ x.fatal) → 0 < script_frames used) ∧
        ((∀ x ∈ used, 0 < x.writei →
            x.writei = Int.tdiv d.chunk_bytes d.bytes_per_frame) →
          (∀ x ∈ used, ¬ x.fatal) →
          w'.played = w.played ++ slice d.alsa_buf 0 d.alsa_buf_fill
            ++ silence_run lib d.params_format (d.chunk_bytes - d.alsa_buf_fill).toNat)) ∧
    (0 < progress_count rs → ∃ d' w' rs', alsa_close lib cr d w rs = .ret (d', w', rs')) := by
  have hbytes := silence_bytes_exact lib d hf (le_of_lt h0) h1 hal
  have hclose : alsa_close lib cr d w rs
      = alsa_close_flush cr (alsa_close_pad lib d w).1 (alsa_close_pad lib d w).2 rs := by
    unfold alsa_close
    rw [if_neg hh, if_pos (ne_of_gt h0), if_pos h1]
  refine ⟨hbytes, rfl, ?_, ?_, ?_, hclose, ?_, ?_, ?_⟩
  · intro i hi
    have : ¬ (d.alsa_buf_fill ≤ i ∧ i < d.alsa_buf_fill
        + ((silence_samples d * lib.sample_bytes d.params_format : Nat) : Int)) := by omega
    simp only [alsa_close_pad, snd_pcm_format_set_silence, this, if_false]
  · intro i hi1 hi2
    have : d.alsa_buf_fill ≤ i ∧ i < d.alsa_buf_fill
        + ((silence_samples d * lib.sample_bytes d.params_format : Nat) : Int) := by omega
    simp only [alsa_close_pad, snd_pcm_format_set_silence, this, and_self, if_true]
  · intro i hi
    have : ¬ (d.alsa_buf_fill ≤ i ∧ i < d.alsa_buf_fill
        + ((silence_samples d * lib.sample_bytes d.params_format : Nat) : Int)) := by omega
    simp only [alsa_close_pad, snd_pcm_format_set_silence, this, if_false]
  · intro fuel b1 b2 d0 w0 rs0 outs d1 w1 rs1 hfresh hcf hb hch hsb hl1 hl2 hdev hrun
    have hd := fresh_streaming hfresh
    obtain ⟨_, hbpf, _, hcb, hfill⟩ := hfresh
    rw [hcf, hb] at hcb
    have hcb' : d0.chunk_bytes = 13228 := by rw [hcb]; norm_num
    have hF : Int.tdiv d0.chunk_bytes d0.bytes_per_frame = 3307 := by
      rw [hcb', hb]; decide
    have hdev' : ∀ x ∈ rs0, x.within d0 ∧ ¬ x.fatal := by
      intro x hx
      have hx' : x.writei = 0 ∨ x.writei = Int.tdiv d0.chunk_bytes d0.bytes_per_frame :=
        hdev x hx
      rw [hF] at hx'
      constructor
      · unfold DevResp.within
        rw [hF]
        rcases hx' with e | e <;> omega
      · intro hfat
        have := hfat.1
        rcases hx' with e | e <;> omega
    obtain ⟨used, calls, q1, _, q3, q4, q5, q6, q7⟩ :=
      play_all_spec fuel [b1, b2] d0 w0 rs0 outs d1 w1 rs1 hd
        (by intro b hb'; simp at hb'; rcases hb' with rfl | rfl <;> omega) hdev' hrun
    have hdvd : (3307 : Int) ∣ script_frames used := by
      apply script_frames_dvd
      intro x hx
      have hx' : x.writei = 0 ∨ x.writei = Int.tdiv d0.chunk_bytes d0.bytes_per_frame :=
        hdev x (by rw [q1]; exact List.mem_append_left _ hx)
      rw [hF] at hx'
      exact hx'
    obtain ⟨k, hk⟩ := hdvd
    have hlt := q6 (by rw [hfill, hcb']; decide)
    have htot : (total_bytes [b1, b2] : Int) = 16000 := by
      simp [total_bytes, hl1, hl2]
    rw [hfill, q3, hk, hb, htot, zero_add] at q4
    rw [hcb'] at hlt
    have hfill1 : d1.alsa_buf_fill = 2772 := by omega
    obtain ⟨_, c2, _, c4, _, _, c7, c8⟩ := q7
    refine ⟨hfill1, ?_⟩
    unfold silence_samples
    rw [c7, c8, c2, c4, hfill1, hcb', hb, hch, hsb]
    decide
  · intro d' w' rs' hdev hrun
    rw [hclose] at hrun
    obtain ⟨hbpf, _, hdvd, _⟩ := hf
    obtain ⟨used, calls, q1, q2, q3, q4, q5, q6, q7, q8⟩ :=
      alsa_close_flush_spec cr (alsa_close_pad lib d w).1 (alsa_close_pad lib d w).2 rs
        d' w' rs' hbpf (by exact lt_trans h0 h1) rfl hdvd hdev hrun
    refine ⟨used, calls, q1, q2, ?_, q4, q5, q6, q7, fun hfull hnf => ?_⟩
    · rw [q3]
      simp [alsa_close_pad, World.call]
    · have hall := q8 hfull hnf
      have hchunk := alsa_close_pad_chunk lib d w ⟨hbpf, ‹_›, hdvd, ‹_›⟩ (le_of_lt h0) h1 hal
      have e : (alsa_close_pad lib d w).1.bytes_per_frame = d.bytes_per_frame := rfl
      have e2 : (alsa_close_pad lib d w).1.chunk_bytes = d.chunk_bytes := rfl
      rw [e, e2] at hall
      have hq5 := q5
      rw [e, hall, hchunk] at hq5
      rw [hq5, List.append_assoc]
      rfl
  · intro hprog
    rw [hclose]
    obtain ⟨hbpf, _, _, _⟩ := hf
    have hpc : (0 : Int) < progress_count rs := by exact_mod_cast hprog
    obtain ⟨r, d2, w2, rs2, hret⟩ := flush_loop_returns rs 0 (alsa_close_pad lib d w).1
      (alsa_close_pad lib d w).2 hbpf (by
        have e : (alsa_close_pad lib d w).1.alsa_buf_fill = d.chunk_bytes := rfl
        have e2 : (alsa_close_pad lib d w).1.chunk_bytes = d.chunk_bytes := rfl
        have e3 : (alsa_close_pad lib d w).1.bytes_per_frame = d.bytes_per_frame := rfl
        rw [e, e2, e3]
        have := mul_pos hpc hbpf
        omega)
    refine ⟨(alsa_close_finish cr d2 w2).1, (alsa_close_finish cr d2 w2).2, rs2, ?_⟩
    unfold alsa_close_flush play_buf_chunks
    rw [hret]

/-- Worked example for C8: the small session (frames of 2 bytes, chunks of 4
bytes, 16-bit mono) with one frame, the bytes 7 and 9, staged.  Two bytes of
silence are asked for, and with the device taking the whole chunk at once
`alsa_close` hands it the bytes 7, 9, 0, 0 and closes the device. -/
theorem alsa_close_pads_with_silence_witness :
    half_driver.handle ≠ none ∧ half_driver.framed pcm_lib_le ∧
    0 < half_driver.alsa_buf_fill ∧ half_driver.alsa_buf_fill < half_driver.chunk_bytes ∧
    half_driver.bytes_per_frame ∣ half_driver.alsa_buf_fill ∧
    ((silence_samples half_driver * pcm_lib_le.sample_bytes half_driver.params_format : Nat)
      : Int) = half_driver.chunk_bytes - half_driver.alsa_buf_fill ∧
    alsa_close pcm_lib_le ⟨0, 0⟩ half_driver tiny_world [⟨2, 0, 0⟩] = .ret half_close ∧
    half_close.2.1.played = [7, 9, 0, 0] ∧ half_close.1.handle = none ∧
    (∃ d' w' rs', alsa_close pcm_lib_le ⟨0, 0⟩ half_driver tiny_world [⟨2, 0, 0⟩]
      = .ret (d', w', rs')) :=
  ⟨by decide, by decide, by decide, by decide, by decide,
   (alsa_close_pads_with_silence pcm_lib_le ⟨0, 0⟩ half_driver tiny_world [⟨2, 0, 0⟩]
      (by decide) (by decide) (by decide) (by decide) (by decide)).1,
   rfl, by decide, by decide,
   (alsa_close_pads_with_silence pcm_lib_le ⟨0, 0⟩ half_driver tiny_world [⟨2, 0, 0⟩]
      (by decide) (by decide) (by decide) (by decide) (by decide)).2.2.2.2.2.2.2.2
      (by decide)⟩

/-- Counterexample to C8 as stated: on the small session (frames of 2 bytes,
chunks of 4 bytes, 16-bit mono) five bytes are played and one full chunk is
written, so one byte is staged and `alsa_buf` holds 5, 2, 3, 4.  At close
`(4 - 1) / 2 * 1 = 1` sample, that is 2 bytes and not 3, is silenced: byte 3
of the chunk that is then flushed is the stale value 4, not silence. -/
theorem alsa_close_unaligned_fill_short_silence :
    alsa_play 5 [1, 2, 3, 4, 5] tiny_driver tiny_world [⟨2, 0, 0⟩] = .ret odd_play ∧
    odd_play.2.1.handle ≠ none ∧
    odd_play.2.1.alsa_buf_fill = 1 ∧ odd_play.2.1.chunk_bytes = 4 ∧
    silence_samples odd_play.2.1 * pcm_lib_le.sample_bytes odd_play.2.1.params_format = 2 ∧
    slice odd_play.2.1.alsa_buf 0 4 = [5, 2, 3, 4] ∧
    slice odd_padded.alsa_buf 0 4 = [5, 0, 0, 4] ∧
    pcm_lib_le.silence odd_play.2.1.params_format 2 = 0 ∧
    odd_padded.alsa_buf_fill = 4 :=
  ⟨rfl, by decide, by decide, by decide, by decide, by decide, by decide, by decide,
   by decide⟩

/-- After `alsa_play` has returned -1 at least one whole chunk is staged, so
the `assert (alsa_buf_fill < chunk_bytes)` of `alsa_close` fails whatever the
device does. -/
theorem alsa_close_aborts_after_playback_error (fuel : Nat) (buff : List Byte)
    (d : Driver) (w : World) (rs : List DevResp) (d' : Driver) (w' : World)
    (rs' : List DevResp) (hd : d.streaming) (hsize : buff.length < 2 ^ 31)
    (h : alsa_play fuel buff d w rs = .ret (-1, d', w', rs'))
    (lib : PcmLib) (cr : CloseResp) (w2 : World) (rs2 : List DevResp) :
    d'.chunk_bytes ≤ d'.alsa_buf_fill ∧ alsa_close lib cr d' w2 rs2 = .abort := by
  obtain ⟨used, acc, calls, P⟩ := alsa_play_spec fuel buff d w rs (-1) d' w' rs' hd hsize h
  obtain ⟨c1, _, _, _, _, _, c7, _⟩ := P.config
  rcases P.cases with ⟨p1, _⟩ | ⟨_, p2, _⟩
  · omega
  · have hge : d'.chunk_bytes ≤ d'.alsa_buf_fill := by rw [c7]; exact p2
    have hcb : 0 < d'.chunk_bytes := by rw [c7]; exact hd.2.1
    refine ⟨hge, ?_⟩
    unfold alsa_close
    rw [if_neg (by rw [c1]; exact hd.1), if_pos (by omega), if_neg (by omega)]

/-- C9, the code at the failing input: on the small session (chunks of 4
bytes) four bytes are played and the only write fails with `-EPIPE`, its
recovery with `-ENODEV`.  `alsa_play` returns -1 with the whole chunk still
staged (`alsa_buf_fill` = 4 = `chunk_bytes`), and `alsa_close` called
directly on that session fails its `assert (alsa_buf_fill < chunk_bytes)`. -/
theorem alsa_close_after_playback_error :
    tiny_driver.streaming ∧
    alsa_play 5 [1, 2, 3, 4] tiny_driver tiny_world [⟨-32, -19, 0⟩] = .ret fatal_play ∧
    fatal_play.1 = -1 ∧ fatal_play.2.1.handle = some 0 ∧
    fatal_play.2.1.alsa_buf_fill = 4 ∧ fatal_play.2.1.chunk_bytes = 4 ∧
    alsa_close pcm_lib_le ⟨0, 0⟩ fatal_play.2.1 fatal_play.2.2.1 [] = .abort :=
  ⟨by decide, rfl, by decide, by decide, by decide, by decide, rfl⟩

/-! ## C10: volume written, volume read -/

/-- Reading a joined element whose first listed sub-channel is present reads
that sub-channel only. -/
theorem read_channels_joined (id : Nat) (e : ElemHw) (c : Nat) (cs : List Nat)
    (n vol : Int) (mw : MixerWorld) (hj : e.joined = true) (hc : e.has_channel c = true)
    (hrc : 0 ≤ e.get_rc c) (hr : RANGE 0 (e.volume c) 100 = true) :
    ∃ mw', read_channels id e (c :: cs) n vol mw
      = .ret (some (n + 1, vol + e.volume c), mw') := by
  simp only [read_channels, hc, if_true, not_lt.mpr hrc, if_false, hr, hj]
  exact ⟨_, rfl⟩

/-- Reading an element that is not joined and whose sub-channels all hold
`v` counts the present sub-channels and adds up `v` for each. -/
theorem read_channels_unjoined (id : Nat) (e : ElemHw) (v : Int)
    (hj : e.joined = false) (hv : ∀ c, e.volume c = v) (hr : RANGE 0 v 100 = true)
    (cs : List Nat) :
    ∀ (n vol : Int) (mw : MixerWorld),
      (∀ c ∈ cs, e.has_channel c = true → 0 ≤ e.get_rc c) →
      ∃ (k : Nat) (mw' : MixerWorld),
        read_channels id e cs n vol mw = .ret (some (n + k, vol + k * v), mw') ∧
        ((∃ c ∈ cs, e.has_channel c = true) → 0 < k) := by
  induction cs with
  | nil =>
    intro n vol mw _
    exact ⟨0, mw, by simp [read_channels], by simp⟩
  | cons c cs ih =>
    intro n vol mw hrc
    have hrcs : ∀ x ∈ cs, e.has_channel x = true → 0 ≤ e.get_rc x :=
      fun x hx => hrc x (List.mem_cons_of_mem _ hx)
    by_cases hc : e.has_channel c = true
    · have h0 := hrc c (List.mem_cons_self _ _) hc
      obtain ⟨k, mw', h1, _⟩ := ih (n + 1) (vol + e.volume c)
        { mw with log := mw.log ++ [.get_volume id c (e.get_rc c)] } hrcs
      refine ⟨k + 1, mw', ?_, fun _ => Nat.succ_pos k⟩
      simp only [read_channels, hc, if_true, not_lt.mpr h0, if_false, hv c, hr, hj,
        Bool.false_eq_true]
      rw [hv c] at h1
      rw [h1]
      push_cast
      congr 4 <;> ring
    · obtain ⟨k, mw', h1, h2⟩ := ih n vol mw hrcs
      refine ⟨k, mw', ?_, ?_⟩
      · simp only [read_channels, hc, if_false, hj, Bool.false_eq_true]
        exact h1
      · rintro ⟨x, hx, hxc⟩
        rcases List.mem_cons.mp hx with rfl | hx
        · exact absurd hxc hc
        · exact h2 ⟨x, hx, hxc⟩

theorem range_schn :
    List.range SND_MIXER_SCHN_LAST = 0 :: (List.range 30).map (· + 1) := by
  decide

theorem RANGE_iff (lo v hi : Int) : RANGE lo v hi = true ↔ lo ≤ v ∧ v ≤ hi := by
  simp [RANGE]

/-- C10 (as amended): for every v with `0 <= v <= 100` and every driver state
in which the mixer is enabled (a mixer handle and a current element exist),
`alsa_set_mixer (v)` followed by `alsa_read_mixer ()` with no external change
of the element in between returns v, provided the element accepts the
volume write and the reads of its present sub-channels succeed, for every
non-joined element with at least one present sub-channel and for every joined
element whose sub-channel 0 (the only one a joined read looks at) is
present. -/
theorem set_then_read_mixer (v : Int) (m : Mixer) (mw : MixerWorld) (id : Nat)
    (hv0 : 0 ≤ v) (hv1 : v ≤ 100)
    (hh : m.mixer_handle ≠ none) (hc : m.mixer_elem_curr = some id)
    (hev : mw.events = [])
    (hset : 0 ≤ (mw.elem id).set_rc)
    (hget : ∀ c, c < SND_MIXER_SCHN_LAST → (mw.elem id).has_channel c = true →
      0 ≤ (mw.elem id).get_rc c)
    (hch : if (mw.elem id).joined = true then (mw.elem id).has_channel 0 = true
      else ∃ c, c < SND_MIXER_SCHN_LAST ∧ (mw.elem id).has_channel c = true) :
    ∃ m1 mw1 m2 mw2, alsa_set_mixer v m mw = .ret (m1, mw1) ∧
      alsa_read_mixer m1 mw1 = .ret (v, m2, mw2) := by
  have hr : RANGE 0 v 100 = true := (RANGE_iff 0 v 100).mpr ⟨hv0, hv1⟩
  -- the write
  obtain ⟨m1, hm1, hm1h, hm1c, hm1e⟩ : ∃ m1 : Mixer,
      alsa_set_mixer v m mw = .ret (m1, snd_mixer_selem_set_playback_volume_all mw id v) ∧
      m1.mixer_handle = m.mixer_handle ∧ m1.mixer_elem_curr = some id ∧
      m1.mixer_elem1 = m.mixer_elem1 := by
    unfold alsa_set_mixer
    rw [if_pos hr, if_pos hh]
    simp only [hc]
    by_cases h1 : some id = m.mixer_elem1
    · rw [if_pos h1]; exact ⟨_, rfl, rfl, rfl, rfl⟩
    · rw [if_neg h1]; exact ⟨_, rfl, rfl, rfl, rfl⟩
  set mw1 := snd_mixer_selem_set_playback_volume_all mw id v with hmw1
  have hev1 : mw1.events = [] := hev
  have helem : (handle_mixer_events mw1).elem id
      = { mw.elem id with volume := fun _ => v } := by
    simp [handle_mixer_events, hev, hmw1, snd_mixer_selem_set_playback_volume_all, hset]
  -- the read of the sub-channels
  obtain ⟨k, mw2, hread, hk⟩ : ∃ (k : Nat) (mw2 : MixerWorld),
      read_channels id ((handle_mixer_events mw1).elem id) (List.range SND_MIXER_SCHN_LAST)
        0 0 (handle_mixer_events mw1) = .ret (some ((k : Int), (k : Int) * v), mw2) ∧ 0 < k := by
    rw [helem]
    by_cases hj : (mw.elem id).joined = true
    · rw [if_pos hj] at hch
      rw [range_schn]
      obtain ⟨mw', h⟩ := read_channels_joined id { mw.elem id with volume := fun _ => v } 0
        ((List.range 30).map (· + 1)) 0 0 (handle_mixer_events mw1) hj hch
        (hget 0 (by decide) hch) hr
      exact ⟨1, mw', by simpa using h, Nat.one_pos⟩
    · rw [if_neg hj] at hch
      obtain ⟨c, hc1, hc2⟩ := hch
      obtain ⟨k, mw', h1, h2⟩ := read_channels_unjoined id
        { mw.elem id with volume := fun _ => v } v (by simpa using hj) (fun _ => rfl) hr
        (List.range SND_MIXER_SCHN_LAST) 0 0 (handle_mixer_events mw1)
        (fun c hc hp => hget c (List.mem_range.mp hc) hp)
      refine ⟨k, mw', by simpa using h1, h2 ⟨c, List.mem_range.mpr hc1, hc2⟩⟩
  have hk0 : (k : Int) ≠ 0 := by exact_mod_cast (Nat.pos_iff_ne_zero.mp hk)
  have hraw : alsa_read_mixer_raw m1 mw1 m1.mixer_elem_curr = .ret (v, mw2) := by
    unfold alsa_read_mixer_raw
    rw [if_neg (by rw [hm1h]; exact hh), hm1c]
    simp only [hread, if_neg hk0, Int.mul_tdiv_cancel_left v hk0]
  have hfin : ∃ m2, alsa_read_mixer m1 mw1 = .ret (v, m2, mw2) := by
    unfold alsa_read_mixer
    rw [hraw]
    simp only [hr, if_true]
    split <;> exact ⟨_, rfl⟩
  obtain ⟨m2, hm2⟩ := hfin
  exact ⟨m1, mw1, m2, mw2, hm1, hm2⟩

/-- Worked example for C10: volume 50 written to and read back from a
two-channel element. -/
theorem set_then_read_mixer_witness :
    one_mixer.mixer_handle ≠ none ∧ one_mixer.mixer_elem_curr = some 0 ∧
    set_then_read stereo_elem = some 50 ∧
    ∃ m1 mw1 m2 mw2, alsa_set_mixer 50 one_mixer (mixer_world stereo_elem) = .ret (m1, mw1) ∧
      alsa_read_mixer m1 mw1 = .ret (50, m2, mw2) :=
  ⟨by decide, by decide, by decide,
   set_then_read_mixer 50 one_mixer (mixer_world stereo_elem) 0 (by decide) (by decide)
    (by decide) (by decide) rfl (by decide) (by decide) (by decide)⟩

/-- Counterexample to C10 as stated, in two enabled mixer states with volume
50 written and no external change.  A joined element whose only present
sub-channel has id 1: the joined read looks at sub-channel 0 only, finds no
channel, and `alsa_read_mixer` fails its `assert (RANGE(0, actual_vol, 100))`.
A two-channel element that refuses the volume write: the read returns the old
volume 30. -/
theorem set_then_read_mixer_fails :
    one_mixer.mixer_handle ≠ none ∧ one_mixer.mixer_elem_curr = some 0 ∧
    (mixer_world joined_elem).events = [] ∧
    set_then_read_aborts joined_elem = true ∧ set_then_read joined_elem = none ∧
    set_then_read readonly_elem = some 30 :=
  ⟨by decide, by decide, rfl, by decide, by decide, by decide⟩

/-! ## Calls made since an earlier world -/

theorem new_calls_append (w0 w : World) (cs : List Call) (h : w.log = w0.log ++ cs) :
    w0.new_calls w = cs := by
  unfold World.new_calls
  rw [h, List.drop_left]

/-! ## C11: volumes outside 0..100 -/

theorem RANGE_outside (v : Int) (h : v < 0 ∨ 100 < v) : RANGE 0 v 100 = false := by
  rw [Bool.eq_false_iff]
  intro hc
  have := (RANGE_iff 0 v 100).mp hc
  omega

/-- In the build with assertions `alsa_set_mixer_run` and `alsa_set_mixer`
describe the same call: it returns in the one exactly when it returns in the
other, with the same mixer variables and the same mixer hardware. -/
theorem alsa_set_mixer_run_spec (vol : Int) (m : Mixer) (mw : MixerWorld) :
    alsa_set_mixer vol m mw =
      if (alsa_set_mixer_run false vol m mw).1 = true then
        .ret ((alsa_set_mixer_run false vol m mw).2.1, (alsa_set_mixer_run false vol m mw).2.2)
      else .abort := by
  unfold alsa_set_mixer alsa_set_mixer_run
  cases hr : RANGE 0 vol 100
  · simp
  · cases hh : m.mixer_handle
    · simp
    · cases hc : m.mixer_elem_curr <;> simp

/-- C11 (as amended): in a build with assertions compiled in (`NDEBUG` not
defined), for every v with `v < 0` or `v > 100`, `alsa_set_mixer (v)` is
rejected before any effect.  The call ends at its first statement, the failed
`assert (RANGE(0, vol, 100))`, and at that point the mixer variables are the
ones the call started with, so neither `volume1` nor `volume2` has changed,
and the mixer hardware with its trace of library calls is the one the call
started with, so no mixer hardware call was made; the call does not
return. -/
theorem alsa_set_mixer_rejects_out_of_range (v : Int) (m : Mixer) (mw : MixerWorld)
    (h : v < 0 ∨ 100 < v) :
    alsa_set_mixer_run false v m mw = (false, m, mw) ∧
    (alsa_set_mixer_run false v m mw).2.1.volume1 = m.volume1 ∧
    (alsa_set_mixer_run false v m mw).2.1.volume2 = m.volume2 ∧
    (alsa_set_mixer_run false v m mw).2.2.log = mw.log ∧
    alsa_set_mixer v m mw = .abort ∧
    ∀ m' mw', alsa_set_mixer v m mw ≠ .ret (m', mw') := by
  have hr := RANGE_outside v h
  have hrun : alsa_set_mixer_run false v m mw = (false, m, mw) := by
    unfold alsa_set_mixer_run
    rw [if_pos ⟨rfl, hr⟩]
  have ha : alsa_set_mixer v m mw = .abort := by
    rw [alsa_set_mixer_run_spec, hrun]
    rfl
  refine ⟨hrun, ?_, ?_, ?_, ha, fun m' mw' hc => ?_⟩
  · rw [hrun]
  · rw [hrun]
  · rw [hrun]
  · rw [ha] at hc
    cases hc

/-- C11 at `v = 101` and `v = -1` on a mixer with one element at volume 30:
the call ends without returning, no library call is in the trace, and the
recorded volume is still 30. -/
theorem alsa_set_mixer_rejects_out_of_range_witness :
    (alsa_set_mixer_run false 101 one_mixer (mixer_world stereo_elem)).1 = false ∧
    (alsa_set_mixer_run false 101 one_mixer (mixer_world stereo_elem)).2.1.volume1 = 30 ∧
    (alsa_set_mixer_run false 101 one_mixer (mixer_world stereo_elem)).2.2.log = [] ∧
    alsa_set_mixer 101 one_mixer (mixer_world stereo_elem) = .abort ∧
    alsa_set_mixer (-1) one_mixer (mixer_world stereo_elem) = .abort :=
  ⟨by rw [(alsa_set_mixer_rejects_out_of_range 101 one_mixer (mixer_world stereo_elem)
      (Or.inr (by decide))).1],
   (alsa_set_mixer_rejects_out_of_range 101 one_mixer (mixer_world stereo_elem)
      (Or.inr (by decide))).2.1,
   (alsa_set_mixer_rejects_out_of_range 101 one_mixer (mixer_world stereo_elem)
      (Or.inr (by decide))).2.2.2.1,
   (alsa_set_mixer_rejects_out_of_range 101 one_mixer (mixer_world stereo_elem)
      (Or.inr (by decide))).2.2.2.2.1,
   (alsa_set_mixer_rejects_out_of_range (-1) one_mixer (mixer_world stereo_elem)
      (Or.inl (by decide))).2.2.2.2.1⟩

/-- Counterexample to C11 as stated: compiled with `NDEBUG` the assertion is
gone, and `alsa_set_mixer (101)` on a mixer with one element at volume 30
returns after it has recorded 101 in `volume1` and has called
`snd_mixer_selem_set_playback_volume_all (elem, 101)`, which the element
accepts; `alsa_set_mixer (-1)` records -1 and writes -1 the same way. -/
theorem alsa_set_mixer_unchecked_without_assert :
    one_mixer.volume1 = 30 ∧ (mixer_world stereo_elem).log = [] ∧
    (alsa_set_mixer_run true 101 one_mixer (mixer_world stereo_elem)).1 = true ∧
    (alsa_set_mixer_run true 101 one_mixer (mixer_world stereo_elem)).2.1.volume1 = 101 ∧
    (alsa_set_mixer_run true 101 one_mixer (mixer_world stereo_elem)).2.2.log
      = [.set_volume_all 0 101 0] ∧
    ((alsa_set_mixer_run true 101 one_mixer (mixer_world stereo_elem)).2.2.elem 0).volume 0
      = 101 ∧
    (alsa_set_mixer_run true (-1) one_mixer (mixer_world stereo_elem)).1 = true ∧
    (alsa_set_mixer_run true (-1) one_mixer (mixer_world stereo_elem)).2.1.volume1 = -1 ∧
    (alsa_set_mixer_run true (-1) one_mixer (mixer_world stereo_elem)).2.2.log
      = [.set_volume_all 0 (-1) 0] :=
  ⟨rfl, rfl, by decide, by decide, by decide, by decide, by decide, by decide, by decide⟩

/-! ## Lemmas about raw reads -/

theorem closes_between_refl (mw : MixerWorld) : closes_between mw mw 0 :=
  ⟨[], by simp, rfl⟩

theorem closes_between_trans {a b c : MixerWorld} {n k : Nat} (h1 : closes_between a b n)
    (h2 : closes_between b c k) : closes_between a c (n + k) := by
  obtain ⟨c1, e1, f1⟩ := h1
  obtain ⟨c2, e2, f2⟩ := h2
  refine ⟨c1 ++ c2, by rw [e2, e1, List.append_assoc], ?_⟩
  rw [List.filter_append, List.length_append, f1, f2]

/-- The loop of a raw read over an element that is not joined: a failed read
of a present sub-channel ends it, else it counts and adds up the present
sub-channels; the elements and the pending events are left alone. -/
theorem read_channels_all (id : Nat) (e : ElemHw) (hj : e.joined = false) (cs : List Nat) :
    ∀ (n vol : Int) (mw : MixerWorld),
      (∀ c ∈ cs, e.has_channel c = true → RANGE 0 (e.volume c) 100 = true) →
      ∃ mw' : MixerWorld, mw'.elem = mw.elem ∧ mw'.events = mw.events ∧
        closes_between mw mw' 0 ∧
        read_channels id e cs n vol mw = .ret (
          if (cs.filter (fun c => e.has_channel c)).any (fun c => decide (e.get_rc c < 0)) = true
          then none
          else some (n + ((cs.filter (fun c => e.has_channel c)).length : Int),
            vol + ((cs.filter (fun c => e.has_channel c)).map e.volume).sum), mw') := by
  induction cs with
  | nil =>
    intro n vol mw _
    exact ⟨mw, rfl, rfl, closes_between_refl mw, by simp [read_channels]⟩
  | cons c cs ih =>
    intro n vol mw hv
    have hvs : ∀ x ∈ cs, e.has_channel x = true → RANGE 0 (e.volume x) 100 = true :=
      fun x hx => hv x (List.mem_cons_of_mem _ hx)
    by_cases hc : e.has_channel c = true
    · have hr := hv c (List.mem_cons_self _ _) hc
      by_cases hrc : e.get_rc c < 0
      · refine ⟨{ mw with log := mw.log ++ [.get_volume id c (e.get_rc c)] }, rfl, rfl,
          ⟨[.get_volume id c (e.get_rc c)], rfl, rfl⟩, ?_⟩
        simp [read_channels, hc, hrc]
      · obtain ⟨mw', h1, h2, hq, h3⟩ := ih (n + 1) (vol + e.volume c)
          { mw with log := mw.log ++ [.get_volume id c (e.get_rc c)] } hvs
        have hq0 : closes_between mw
            { mw with log := mw.log ++ [.get_volume id c (e.get_rc c)] } 0 :=
          ⟨[.get_volume id c (e.get_rc c)], rfl, rfl⟩
        refine ⟨mw', h1, h2, closes_between_trans hq0 hq, ?_⟩
        simp only [read_channels, hc, if_true, hrc, if_false, hr, hj, Bool.false_eq_true]
        rw [h3]
        simp only [List.filter_cons, hc, if_true, List.any_cons, hrc, decide_False,
          Bool.false_or, List.length_cons, List.map_cons, List.sum_cons]
        split
        · rfl
        · congr 4
          · push_cast; ring
          · ring
    · obtain ⟨mw', h1, h2, hq, h3⟩ := ih n vol mw hvs
      refine ⟨mw', h1, h2, hq, ?_⟩
      simp only [read_channels, hc, if_false, hj, Bool.false_eq_true]
      rw [h3]
      simp only [List.filter_cons, hc, if_false, Bool.false_eq_true]

theorem mem_range_schn (c : Nat) (h : c ∈ List.range SND_MIXER_SCHN_LAST) :
    c < SND_MIXER_SCHN_LAST :=
  List.mem_range.mp h

theorem counted_in_range (e : ElemHw) (hv : volumes_in_range e) :
    ∀ x ∈ (spec_counted_channels e).map e.volume, 0 ≤ x ∧ x ≤ 100 := by
  intro x hx
  obtain ⟨c, hc, rfl⟩ := List.mem_map.mp hx
  unfold spec_counted_channels at hc
  by_cases hj : e.joined = true
  · rw [if_pos hj] at hc
    by_cases h0 : e.has_channel 0 = true
    · rw [if_pos h0] at hc
      rw [List.mem_singleton] at hc
      subst hc
      exact (RANGE_iff _ _ _).mp (hv 0 (by decide) h0)
    · rw [if_neg h0] at hc
      cases hc
  · rw [if_neg hj] at hc
    unfold present_channels at hc
    obtain ⟨h1, h2⟩ := List.mem_filter.mp hc
    exact (RANGE_iff _ _ _).mp (hv c (List.mem_range.mp h1) h2)

/-- A raw read that does not give the error value gives a volume in
0..100. -/
theorem spec_read_value_range (e : ElemHw) (hv : volumes_in_range e) :
    spec_read_value e = -1 ∨ (0 ≤ spec_read_value e ∧ spec_read_value e ≤ 100) := by
  unfold spec_read_value
  split
  · exact Or.inl rfl
  · split
    · exact Or.inl rfl
    · rename_i _ hlen
      right
      have hb := counted_in_range e hv
      have hpos : (0 : Int) < ((spec_counted_channels e).length : Int) := by
        have : 0 < (spec_counted_channels e).length := Nat.pos_of_ne_zero hlen
        exact_mod_cast this
      have h0 : 0 ≤ ((spec_counted_channels e).map e.volume).sum :=
        List.sum_nonneg (fun x hx => (hb x hx).1)
      have h1 : ((spec_counted_channels e).map e.volume).sum
          ≤ ((spec_counted_channels e).map e.volume).length • (100 : Int) :=
        List.sum_le_card_nsmul _ _ (fun x hx => (hb x hx).2)
      rw [List.length_map, nsmul_eq_mul] at h1
      refine ⟨Int.ediv_nonneg h0 (le_of_lt hpos), ?_⟩
      have : ((spec_counted_channels e).map e.volume).sum / ((spec_counted_channels e).length : Int)
          < 101 := Int.ediv_lt_of_lt_mul hpos (by nlinarith)
      omega

/-- The function `alsa_read_mixer_raw` on an enabled mixer and an element
whose volumes lie in 0..100 returns `spec_read_value` of the element as it
is once the pending events were handled; afterwards no event is pending. -/
theorem alsa_read_mixer_raw_value (m : Mixer) (mw : MixerWorld) (id : Nat)
    (hh : m.mixer_handle ≠ none)
    (hv : volumes_in_range ((handle_mixer_events mw).elem id)) :
    ∃ mw' : MixerWorld,
      alsa_read_mixer_raw m mw (some id)
        = .ret (spec_read_value ((handle_mixer_events mw).elem id), mw') ∧
      mw'.elem = (handle_mixer_events mw).elem ∧ mw'.events = [] ∧
      closes_between mw mw' 0 := by
  unfold alsa_read_mixer_raw
  rw [if_neg hh]
  simp only
  by_cases hj : ((handle_mixer_events mw).elem id).joined = true
  · rw [range_schn]
    by_cases h0 : ((handle_mixer_events mw).elem id).has_channel 0 = true
    · have hr := hv 0 (by decide) h0
      refine ⟨{ handle_mixer_events mw with
        log := (handle_mixer_events mw).log
          ++ [.get_volume id 0 (((handle_mixer_events mw).elem id).get_rc 0)] }, ?_, rfl, rfl,
        ⟨[.get_volume id 0 (((handle_mixer_events mw).elem id).get_rc 0)], rfl, rfl⟩⟩
      by_cases hrc : ((handle_mixer_events mw).elem id).get_rc 0 < 0
      · simp [read_channels, h0, hrc, spec_read_value, spec_counted_channels, hj]
      · simp [read_channels, h0, hrc, hr, spec_read_value, spec_counted_channels, hj]
    · refine ⟨handle_mixer_events mw, ?_, rfl, rfl, ⟨[], by simp [handle_mixer_events], rfl⟩⟩
      simp [read_channels, h0, spec_read_value, spec_counted_channels, hj]
  · have hj' : ((handle_mixer_events mw).elem id).joined = false := by
      simpa using hj
    obtain ⟨mw', h1, h2, hq, h3⟩ := read_channels_all id ((handle_mixer_events mw).elem id)
      hj' (List.range SND_MIXER_SCHN_LAST) 0 0 (handle_mixer_events mw)
      (fun c hc => hv c (List.mem_range.mp hc))
    refine ⟨mw', ?_, h1, h2, hq⟩
    rw [h3]
    have hb := counted_in_range _ hv
    have hcc : spec_counted_channels ((handle_mixer_events mw).elem id)
        = (List.range SND_MIXER_SCHN_LAST).filter
            (fun c => ((handle_mixer_events mw).elem id).has_channel c) := by
      simp [spec_counted_channels, hj', present_channels]
    rw [hcc] at hb
    unfold spec_read_value
    rw [hcc]
    by_cases hany : ((List.range SND_MIXER_SCHN_LAST).filter
        (fun c => ((handle_mixer_events mw).elem id).has_channel c)).any
        (fun c => decide (((handle_mixer_events mw).elem id).get_rc c < 0)) = true
    · rw [if_pos hany, if_pos hany]
    · rw [if_neg hany, if_neg hany]
      simp only [zero_add]
      by_cases hlen : ((List.range SND_MIXER_SCHN_LAST).filter
          (fun c => ((handle_mixer_events mw).elem id).has_channel c)).length = 0
      · simp [hlen]
      · have hne : ¬ ((((List.range SND_MIXER_SCHN_LAST).filter
            (fun c => ((handle_mixer_events mw).elem id).has_channel c)).length : Int) = 0) := by
          exact_mod_cast hlen
        rw [if_neg hne, if_neg hlen]
        rw [Int.tdiv_eq_ediv (List.sum_nonneg (fun x hx => (hb x hx).1)) (Int.ofNat_nonneg _)]

/-! ## Lemmas about `alsa_init` -/

theorem alsa_init_open_spec (ir : InitResp) (m : Mixer) (mw : MixerWorld) :
    (alsa_init_open ir m mw).1
      = { m with mixer_handle := if ir.opens = true then some 0 else none } ∧
    (alsa_init_open ir m mw).2.elem = mw.elem ∧
    (alsa_init_open ir m mw).2.events = mw.events := by
  unfold alsa_init_open InitResp.opens
  by_cases h1 : ir.mixer_open < 0
  · simp [h1, MixerWorld.call, not_le.mpr h1]
  · by_cases h2 : ir.mixer_attach < 0
    · simp [h1, h2, MixerWorld.call, not_le.mpr h2]
    · by_cases h3 : ir.mixer_register < 0
      · simp [h1, h2, h3, MixerWorld.call, not_le.mpr h3]
      · by_cases h4 : ir.mixer_load < 0
        · simp [h1, h2, h3, h4, MixerWorld.call, not_le.mpr h4]
        · simp only [h1, h2, h3, h4, if_false, MixerWorld.call]
          simp [not_lt.mp h1, not_lt.mp h2, not_lt.mp h3, not_lt.mp h4]

theorem alsa_init_mixer_channel_spec (ei : ElemInit) (mw : MixerWorld) :
    (alsa_init_mixer_channel ei mw).1 = ei.spec_usable ∧
    (alsa_init_mixer_channel ei mw).2.elem = mw.elem ∧
    (alsa_init_mixer_channel ei mw).2.events = mw.events := by
  unfold alsa_init_mixer_channel ElemInit.spec_usable
  cases hf : ei.found with
  | none => simp [MixerWorld.call]
  | some id =>
    by_cases h1 : ei.has_playback_volume = false
    · simp [h1, MixerWorld.call]
    · by_cases h2 : ei.set_range < 0
      · simp [h1, h2, MixerWorld.call, not_le.mpr h2]
      · simp [h1, h2, MixerWorld.call, not_lt.mp h2]

theorem alsa_init_elems_spec (ir : InitResp) (m : Mixer) (mw : MixerWorld) :
    (alsa_init_elems ir m mw).1
      = (if m.mixer_handle ≠ none then
          { m with mixer_elem1 := ir.elem1.spec_usable, mixer_elem2 := ir.elem2.spec_usable }
        else m) ∧
    (alsa_init_elems ir m mw).2.elem = mw.elem ∧
    (alsa_init_elems ir m mw).2.events = mw.events := by
  unfold alsa_init_elems
  by_cases h : m.mixer_handle ≠ none
  · rw [if_pos h, if_pos h]
    have h1 := alsa_init_mixer_channel_spec ir.elem1 mw
    have h2 := alsa_init_mixer_channel_spec ir.elem2 (alsa_init_mixer_channel ir.elem1 mw).2
    refine ⟨?_, ?_, ?_⟩
    · simp only [h1.1, h2.1]
    · simp only [h2.2.1, h1.2.1]
    · simp only [h2.2.2, h1.2.2]
  · rw [if_neg h, if_neg h]
    exact ⟨rfl, rfl, rfl⟩

/-- The state in which `alsa_init` starts its initial reads. -/
theorem alsa_init_pre (ir : InitResp) (mw : MixerWorld) :
    (alsa_init_elems ir (alsa_init_open ir mixer_start mw).1
        (alsa_init_open ir mixer_start mw).2).1
      = { mixer_start with
          mixer_handle := if ir.opens = true then some 0 else none
          mixer_elem1 := if ir.opens = true then ir.elem1.spec_usable else none
          mixer_elem2 := if ir.opens = true then ir.elem2.spec_usable else none } ∧
    (alsa_init_elems ir (alsa_init_open ir mixer_start mw).1
        (alsa_init_open ir mixer_start mw).2).2.elem = mw.elem ∧
    (alsa_init_elems ir (alsa_init_open ir mixer_start mw).1
        (alsa_init_open ir mixer_start mw).2).2.events = mw.events := by
  have h1 := alsa_init_open_spec ir mixer_start mw
  have h2 := alsa_init_elems_spec ir (alsa_init_open ir mixer_start mw).1
    (alsa_init_open ir mixer_start mw).2
  refine ⟨?_, h2.2.1.trans h1.2.1, h2.2.2.trans h1.2.2⟩
  rw [h2.1, h1.1]
  by_cases ho : ir.opens = true
  · simp [ho, mixer_start]
  · simp [ho, mixer_start]

theorem alsa_init_read1_cases (m : Mixer) (mw : MixerWorld) (m4 : Mixer) (mw4 : MixerWorld)
    (h : alsa_init_read1 m mw = .ret (m4, mw4)) :
    (m.mixer_elem1 ≠ none ∧ ∃ v, m4 = { m with volume1 := v }) ∨
    m4 = { m with mixer_elem1 := none, mixer_elem_curr := m.mixer_elem2 } := by
  unfold alsa_init_read1 at h
  cases he : m.mixer_elem1 with
  | none =>
    rw [he] at h
    simp only [Res.ret.injEq, Prod.mk.injEq] at h
    exact Or.inr h.1.symm
  | some id =>
    rw [he] at h
    simp only at h
    cases hr : alsa_read_mixer_raw m mw (some id) with
    | ret x =>
      obtain ⟨vol, mw1⟩ := x
      rw [hr] at h
      simp only at h
      by_cases hv : vol ≠ -1
      · rw [if_pos hv] at h
        by_cases hg : RANGE 0 vol 100 = true
        · rw [if_pos hg] at h
          simp only [Res.ret.injEq, Prod.mk.injEq] at h
          exact Or.inl ⟨by simp, vol, h.1.symm⟩
        · rw [if_neg hg] at h
          cases h
      · rw [if_neg hv] at h
        simp only [Res.ret.injEq, Prod.mk.injEq] at h
        exact Or.inr h.1.symm
    | abort => rw [hr] at h; cases h
    | pending d w => rw [hr] at h; cases h

theorem alsa_init_read2_cases (m : Mixer) (mw : MixerWorld) (m5 : Mixer) (mw5 : MixerWorld)
    (h : alsa_init_read2 m mw = .ret (m5, mw5)) :
    (m.mixer_elem2 ≠ none ∧ ∃ v, m5 = { m with volume2 := v }) ∨
    m5 = { m with mixer_elem2 := none, mixer_elem_curr := m.mixer_elem1 } := by
  unfold alsa_init_read2 at h
  cases he : m.mixer_elem2 with
  | none =>
    rw [he] at h
    simp only [Res.ret.injEq, Prod.mk.injEq] at h
    exact Or.inr h.1.symm
  | some id =>
    rw [he] at h
    simp only at h
    cases hr : alsa_read_mixer_raw m mw (some id) with
    | ret x =>
      obtain ⟨vol, mw1⟩ := x
      rw [hr] at h
      simp only at h
      by_cases hv : vol ≠ -1
      · rw [if_pos hv] at h
        by_cases hg : RANGE 0 vol 100 = true
        · rw [if_pos hg] at h
          simp only [Res.ret.injEq, Prod.mk.injEq] at h
          exact Or.inl ⟨by simp, vol, h.1.symm⟩
        · rw [if_neg hg] at h
          cases h
      · rw [if_neg hv] at h
        simp only [Res.ret.injEq, Prod.mk.injEq] at h
        exact Or.inr h.1.symm
    | abort => rw [hr] at h; cases h
    | pending d w => rw [hr] at h; cases h

/-- The initial reads keep a state consistent and make the first element
current when it is present. -/
theorem alsa_init_reads_consistent (m : Mixer) (mw : MixerWorld) (m' : Mixer)
    (mw' : MixerWorld) (hh : m.mixer_handle ≠ none)
    (hc : m.mixer_elem_curr = (if m.mixer_elem1 ≠ none then m.mixer_elem1 else m.mixer_elem2))
    (h : alsa_init_reads m mw = .ret (m', mw')) :
    m'.consistent ∧
    m'.mixer_elem_curr
      = (if m'.mixer_elem1 ≠ none then m'.mixer_elem1 else m'.mixer_elem2) := by
  unfold alsa_init_reads at h
  cases hr1 : alsa_init_read1 m mw with
  | ret x1 =>
    obtain ⟨m4, mw4⟩ := x1
    rw [hr1] at h
    simp only at h
    cases hr2 : alsa_init_read2 m4 mw4 with
    | ret x2 =>
      obtain ⟨m5, mw5⟩ := x2
      rw [hr2] at h
      simp only at h
      have c1 := alsa_init_read1_cases _ _ _ _ hr1
      have c2 := alsa_init_read2_cases _ _ _ _ hr2
      obtain ⟨mh, e1, e2, cur, v1, v2⟩ := m
      simp only at hh hc c1 c2
      subst hc
      clear hr1 hr2
      rcases c1 with ⟨hne1, w1, rfl⟩ | rfl <;> rcases c2 with ⟨hne2, w2, rfl⟩ | rfl
      · cases e1 with
        | none => exact absurd rfl hne1
        | some a =>
          simp at h
          obtain ⟨rfl, _⟩ := h
          simp [Mixer.consistent, hh]
      · cases e1 with
        | none => exact absurd rfl hne1
        | some a =>
          simp at h
          obtain ⟨rfl, _⟩ := h
          simp [Mixer.consistent, hh]
      · cases e2 with
        | none => exact absurd rfl hne2
        | some b =>
          simp at h
          obtain ⟨rfl, _⟩ := h
          simp [Mixer.consistent, hh]
      · simp at h
        obtain ⟨rfl, _⟩ := h
        simp [Mixer.consistent]
    | abort => rw [hr2] at h; cases h
    | pending d w => rw [hr2] at h; cases h
  | abort => rw [hr1] at h; cases h
  | pending d w => rw [hr1] at h; cases h

/-- Every state that `alsa_init` produces from the initial variables is
consistent, and the first element is current when it is present. -/
theorem alsa_init_mixer_consistent (ir : InitResp) (mw : MixerWorld) (m' : Mixer)
    (mw' : MixerWorld) (h : alsa_init_mixer ir mixer_start mw = .ret (m', mw')) :
    m'.consistent ∧
    m'.mixer_elem_curr
      = (if m'.mixer_elem1 ≠ none then m'.mixer_elem1 else m'.mixer_elem2) := by
  unfold alsa_init_mixer at h
  simp only at h
  rw [(alsa_init_pre ir mw).1] at h
  generalize (alsa_init_elems ir (alsa_init_open ir mixer_start mw).1
    (alsa_init_open ir mixer_start mw).2).2 = pw at h
  by_cases ho : ir.opens = true
  · simp only [ho, if_true] at h
    by_cases hcur : (if ir.elem1.spec_usable ≠ none then ir.elem1.spec_usable else ir.elem2.spec_usable)
        ≠ none
    · rw [if_pos hcur] at h
      exact alsa_init_reads_consistent _ _ _ _ (by simp) rfl h
    · rw [if_neg hcur] at h
      simp only [ne_eq, not_not] at hcur
      have he1 : ir.elem1.spec_usable = none := by
        by_contra hc
        rw [if_pos hc] at hcur
        exact hc hcur
      have he2 : ir.elem2.spec_usable = none := by
        rw [he1] at hcur
        simpa using hcur
      simp only [he1, he2] at h
      simp only [ne_eq, not_true_eq_false, if_false, reduceCtorEq, not_false_eq_true,
        if_true, Res.ret.injEq, Prod.mk.injEq] at h
      obtain ⟨rfl, _⟩ := h
      simp [Mixer.consistent, mixer_start]
  · simp only [ho] at h
    simp only [Bool.false_eq_true, if_false, ne_eq, not_true_eq_false, Res.ret.injEq,
      Prod.mk.injEq] at h
    obtain ⟨rfl, _⟩ := h
    simp [Mixer.consistent, mixer_start]

theorem alsa_init_mixer_of_init (ir : InitResp) (pr : ProbeResp) (caps : output_driver_caps)
    (m : Mixer) (mw : MixerWorld) (d : Driver) (w : World)
    (out : Int × output_driver_caps × Mixer × MixerWorld × Driver × World)
    (h : alsa_init ir pr caps m mw d w = .ret out) :
    alsa_init_mixer ir m mw = .ret (out.2.2.1, out.2.2.2.1) := by
  unfold alsa_init at h
  cases hm : alsa_init_mixer ir m mw with
  | ret x =>
    obtain ⟨m1, mw1⟩ := x
    rw [hm] at h
    simp only [Res.ret.injEq] at h
    rw [← h]
  | abort => rw [hm] at h; cases h
  | pending d1 w1 => rw [hm] at h; cases h

theorem toggle_consistent (m : Mixer) (h : m.consistent) :
    (alsa_toggle_mixer_channel m).consistent := by
  obtain ⟨mh, e1, e2, cur, v1, v2⟩ := m
  unfold Mixer.consistent at h ⊢
  unfold alsa_toggle_mixer_channel
  simp only at h ⊢
  obtain ⟨h1, h2, h3⟩ := h
  by_cases c1 : cur = e1 ∧ e2 ≠ none
  · rw [if_pos c1]
    simp only
    refine ⟨Or.inr trivial, fun hc => absurd hc c1.2, ?_⟩
    rw [h3]
    constructor
    · intro hc
      exact absurd (h2 hc).2 c1.2
    · intro hc
      exact absurd hc c1.2
  · rw [if_neg c1]
    by_cases c2 : e1 ≠ none
    · rw [if_pos c2]
      simp only
      refine ⟨Or.inl trivial, fun hc => absurd hc c2, ?_⟩
      rw [h3]
      constructor
      · intro hc
        exact absurd (h2 hc).1 c2
      · intro hc
        exact absurd hc c2
    · rw [if_neg c2]
      exact ⟨h1, h2, h3⟩

theorem consistent_of_fields (m m' : Mixer) (hc : m.consistent)
    (h0 : m'.mixer_handle = m.mixer_handle) (h1 : m'.mixer_elem1 = m.mixer_elem1)
    (h2 : m'.mixer_elem2 = m.mixer_elem2) (h3 : m'.mixer_elem_curr = m.mixer_elem_curr) :
    m'.consistent := by
  unfold Mixer.consistent at hc ⊢
  rw [h0, h1, h2, h3]
  exact hc

/-- A call of `alsa_set_mixer` that returns changes nothing but the recorded
volumes. -/
theorem alsa_set_mixer_fields (v : Int) (m : Mixer) (mw : MixerWorld)
    (out : Mixer × MixerWorld) (h : alsa_set_mixer v m mw = .ret out) :
    out.1.mixer_handle = m.mixer_handle ∧ out.1.mixer_elem1 = m.mixer_elem1 ∧
    out.1.mixer_elem2 = m.mixer_elem2 ∧ out.1.mixer_elem_curr = m.mixer_elem_curr := by
  unfold alsa_set_mixer at h
  by_cases hr : RANGE 0 v 100 = true
  · rw [if_pos hr] at h
    by_cases hh : m.mixer_handle ≠ none
    · rw [if_pos hh] at h
      simp only at h
      cases hcur : m.mixer_elem_curr with
      | none => rw [hcur] at h; cases h
      | some id =>
        rw [hcur] at h
        simp only [Res.ret.injEq] at h
        rw [← h]
        simp only
        by_cases he : some id = m.mixer_elem1
        · rw [if_pos he]
          exact ⟨rfl, rfl, rfl, by simp [hcur]⟩
        · rw [if_neg he]
          exact ⟨rfl, rfl, rfl, by simp [hcur]⟩
    · rw [if_neg hh] at h
      simp only [Res.ret.injEq] at h
      rw [← h]
      exact ⟨rfl, rfl, rfl, rfl⟩
  · rw [if_neg hr] at h
    cases h

/-- A call of `alsa_read_mixer` that returns changes nothing but the recorded
volumes. -/
theorem alsa_read_mixer_fields (m : Mixer) (mw : MixerWorld)
    (out : Int × Mixer × MixerWorld) (h : alsa_read_mixer m mw = .ret out) :
    out.2.1.mixer_handle = m.mixer_handle ∧ out.2.1.mixer_elem1 = m.mixer_elem1 ∧
    out.2.1.mixer_elem2 = m.mixer_elem2 ∧ out.2.1.mixer_elem_curr = m.mixer_elem_curr := by
  unfold alsa_read_mixer at h
  cases hraw : alsa_read_mixer_raw m mw m.mixer_elem_curr with
  | ret x =>
    obtain ⟨vol, mw1⟩ := x
    rw [hraw] at h
    simp only at h
    by_cases hr : RANGE 0 vol 100 = true
    · rw [if_pos hr] at h
      by_cases he : m.mixer_elem_curr = m.mixer_elem1
      · rw [if_pos he] at h
        simp only [Res.ret.injEq] at h
        rw [← h]
        simp only
        by_cases hv : m.volume1 ≠ vol
        · rw [if_pos hv]
          exact ⟨rfl, rfl, rfl, rfl⟩
        · rw [if_neg hv]
          exact ⟨rfl, rfl, rfl, rfl⟩
      · rw [if_neg he] at h
        simp only [Res.ret.injEq] at h
        rw [← h]
        simp only
        by_cases hv : m.volume2 ≠ vol
        · rw [if_pos hv]
          exact ⟨rfl, rfl, rfl, rfl⟩
        · rw [if_neg hv]
          exact ⟨rfl, rfl, rfl, rfl⟩
    · rw [if_neg hr] at h
      cases h
  | abort => rw [hraw] at h; cases h
  | pending d w => rw [hraw] at h; cases h

theorem alsa_set_mixer_consistent (v : Int) (m : Mixer) (mw : MixerWorld)
    (out : Mixer × MixerWorld) (hc : m.consistent) (h : alsa_set_mixer v m mw = .ret out) :
    out.1.consistent := by
  obtain ⟨h0, h1, h2, h3⟩ := alsa_set_mixer_fields v m mw out h
  exact consistent_of_fields m out.1 hc h0 h1 h2 h3

theorem alsa_read_mixer_consistent (m : Mixer) (mw : MixerWorld)
    (out : Int × Mixer × MixerWorld) (hc : m.consistent)
    (h : alsa_read_mixer m mw = .ret out) : out.2.1.consistent := by
  obtain ⟨h0, h1, h2, h3⟩ := alsa_read_mixer_fields m mw out h
  exact consistent_of_fields m out.2.1 hc h0 h1 h2 h3

/-- Every reachable mixer state is consistent. -/
theorem reachable_consistent (m : Mixer) (h : MixerReachable m) : m.consistent := by
  induction h with
  | init ir pr caps mw d w out h =>
    exact (alsa_init_mixer_consistent ir mw _ _
      (alsa_init_mixer_of_init ir pr caps mixer_start mw d w out h)).1
  | toggle m _ ih => exact toggle_consistent m ih
  | set m v mw out _ h ih => exact alsa_set_mixer_consistent v m mw out ih h
  | read m mw out _ h ih => exact alsa_read_mixer_consistent m mw out ih h

/-! ## C12: toggling the current element -/

/-- C12: in every mixer state produced by `alsa_init` (and in every state
reached from it by further toggle, set and read calls): when both elements
are present, one `alsa_toggle_mixer_channel` switches the current element to
the other element and a second one returns it to the original, with nothing
else changed; when exactly one element is present, applying it any number of
times leaves the current element (and the whole state) unchanged. -/
theorem alsa_toggle_mixer_channel_twice (m : Mixer) (hm : MixerReachable m) :
    (∀ a b, m.mixer_elem1 = some a → m.mixer_elem2 = some b →
      (alsa_toggle_mixer_channel m).mixer_elem_curr
        = (if m.mixer_elem_curr = m.mixer_elem1 then m.mixer_elem2 else m.mixer_elem1) ∧
      alsa_toggle_mixer_channel (alsa_toggle_mixer_channel m) = m) ∧
    ((m.mixer_elem1 = none ∧ m.mixer_elem2 ≠ none) ∨
        (m.mixer_elem1 ≠ none ∧ m.mixer_elem2 = none) →
      ∀ n : Nat, (alsa_toggle_mixer_channel^[n]) m = m) := by
  have hc := reachable_consistent m hm
  obtain ⟨mh, e1, e2, cur, v1, v2⟩ := m
  unfold Mixer.consistent at hc
  simp only at hc ⊢
  obtain ⟨h1, h2, _⟩ := hc
  constructor
  · rintro a b rfl rfl
    unfold alsa_toggle_mixer_channel
    simp only
    by_cases hcur : cur = some a
    · subst hcur
      simp only [ne_eq, reduceCtorEq, not_false_eq_true, and_self, if_true, true_and]
      by_cases hab : some b = some a
      · simp [hab]
      · simp [hab]
    · have hb : cur = some b := by
        rcases h1 with h | h
        · exact absurd h hcur
        · exact h
      subst hb
      simp [hcur]
  · intro hone n
    apply Function.iterate_fixed
    unfold alsa_toggle_mixer_channel
    simp only
    rcases hone with ⟨rfl, hne⟩ | ⟨hne, rfl⟩
    · have hb : cur = e2 := by
        rcases h1 with h | h
        · exact absurd (h2 h).2 hne
        · exact h
      subst hb
      simp [hne]
    · have ha : cur = e1 := by
        rcases h1 with h | h
        · exact h
        · exact absurd (h2 h).1 hne
      subst ha
      simp [hne]

/-- The state after `alsa_init` with both elements found is reachable. -/
theorem init_both_reachable : MixerReachable (init_mixer init_both stereo_elem) :=
  MixerReachable.init init_both probe_resp no_caps (mixer_world stereo_elem) closed_driver
    new_world (init_out init_both stereo_elem) rfl

/-- The state after `alsa_init` with only the first element found is
reachable. -/
theorem init_first_only_reachable : MixerReachable (init_mixer init_first_only stereo_elem) :=
  MixerReachable.init init_first_only probe_resp no_caps (mixer_world stereo_elem)
    closed_driver new_world (init_out init_first_only stereo_elem) rfl

/-- C12 on the state after `alsa_init` with both elements (0 and 1) found,
where the first is current, and on the state with only the first element
found. -/
theorem alsa_toggle_mixer_channel_twice_witness :
    (init_mixer init_both stereo_elem).mixer_elem_curr = some 0 ∧
    (alsa_toggle_mixer_channel (init_mixer init_both stereo_elem)).mixer_elem_curr = some 1 ∧
    alsa_toggle_mixer_channel (alsa_toggle_mixer_channel (init_mixer init_both stereo_elem))
      = init_mixer init_both stereo_elem ∧
    (init_mixer init_first_only stereo_elem).mixer_elem2 = none ∧
    (alsa_toggle_mixer_channel^[3]) (init_mixer init_first_only stereo_elem)
      = init_mixer init_first_only stereo_elem :=
  ⟨by decide, by decide,
   ((alsa_toggle_mixer_channel_twice _ init_both_reachable).1 0 1 rfl rfl).2,
   by decide,
   (alsa_toggle_mixer_channel_twice _ init_first_only_reachable).2
     (Or.inr ⟨by decide, by decide⟩) 3⟩

/-! ## C13: the raw read of one element -/

/-- C13 (as amended): for every mixer element of an enabled mixer whose
readable sub-channel volumes lie in 0..100, `alsa_read_mixer_raw` returns,
for the element `e` as it is once pending events were handled: the volume of
sub-channel 0 when the element is joined, sub-channel 0 is present and its
read succeeds (a joined read looks at no other sub-channel); the truncated
average `floor(sum/n)` of all n present sub-channels when the element is not
joined, `n >= 1` and the reads succeed; and the error value -1 exactly when
no sub-channel is counted (no sub-channel is present, or the element is
joined and sub-channel 0 is absent) or the read of a counted sub-channel
fails. -/
theorem alsa_read_mixer_raw_result (m : Mixer) (mw : MixerWorld) (id : Nat) (e : ElemHw)
    (he : (handle_mixer_events mw).elem id = e) (hh : m.mixer_handle ≠ none)
    (hv : volumes_in_range e) :
    raw_value m mw id = some (spec_read_value e) ∧
    (e.joined = true → e.has_channel 0 = true → 0 ≤ e.get_rc 0 →
      spec_read_value e = e.volume 0) ∧
    (e.joined = false → present_channels e ≠ [] →
      (∀ c ∈ present_channels e, 0 ≤ e.get_rc c) →
      spec_read_value e
        = ((present_channels e).map e.volume).sum / ((present_channels e).length : Int)) ∧
    (spec_read_value e = -1 ↔
      (spec_counted_channels e = [] ∨ ∃ c ∈ spec_counted_channels e, e.get_rc c < 0)) := by
  subst he
  refine ⟨?_, ?_, ?_, ?_⟩
  · obtain ⟨mw', h, _⟩ := alsa_read_mixer_raw_value m mw id hh hv
    unfold raw_value
    rw [h]
  · intro hj h0 hrc
    simp [spec_read_value, spec_counted_channels, hj, h0, not_lt.mpr hrc]
  · intro hj hne hrc
    have hcc : spec_counted_channels ((handle_mixer_events mw).elem id)
        = present_channels ((handle_mixer_events mw).elem id) := by
      simp [spec_counted_channels, hj]
    unfold spec_read_value
    rw [hcc]
    have hany : ¬ ((present_channels ((handle_mixer_events mw).elem id)).any
        (fun c => decide (((handle_mixer_events mw).elem id).get_rc c < 0)) = true) := by
      rw [List.any_eq_true]
      rintro ⟨c, hc, hlt⟩
      have := hrc c hc
      simp at hlt
      omega
    rw [if_neg hany, if_neg (fun h => hne (List.length_eq_zero.mp h))]
  · have hr := spec_read_value_range _ hv
    constructor
    · intro h
      by_contra hc
      push_neg at hc
      obtain ⟨hne, hrc⟩ := hc
      have hany : ¬ ((spec_counted_channels ((handle_mixer_events mw).elem id)).any
          (fun c => decide (((handle_mixer_events mw).elem id).get_rc c < 0)) = true) := by
        rw [List.any_eq_true]
        rintro ⟨c, hc, hlt⟩
        have := hrc c hc
        simp at hlt
        omega
      have hb := counted_in_range _ hv
      have hge : 0 ≤ spec_read_value ((handle_mixer_events mw).elem id) := by
        unfold spec_read_value
        rw [if_neg hany, if_neg (fun h => hne (List.length_eq_zero.mp h))]
        exact Int.ediv_nonneg (List.sum_nonneg (fun x hx => (hb x hx).1))
          (Int.ofNat_nonneg _)
      omega
    · rintro (h | ⟨c, hc, hlt⟩)
      · unfold spec_read_value
        rw [h]
        simp
      · unfold spec_read_value
        rw [if_pos (List.any_eq_true.mpr ⟨c, hc, by simpa using hlt⟩)]

/-- C13 on a two-channel element at volume 30: the raw read returns 30. -/
theorem alsa_read_mixer_raw_result_witness :
    raw_value one_mixer (mixer_world stereo_elem) 0 = some (spec_read_value stereo_elem) ∧
    spec_read_value stereo_elem = 30 ∧ present_channels stereo_elem = [0, 1] :=
  ⟨(alsa_read_mixer_raw_result one_mixer (mixer_world stereo_elem) 0 stereo_elem rfl
      (by decide) (fun _ _ _ => rfl)).1, by decide, by decide⟩

/-- C13 as stated fails: a joined element whose only present sub-channel has
id 1, at volume 30 and with reads that succeed, has a present sub-channel,
yet the raw read returns the error value -1, because a joined read looks at
sub-channel 0 only. -/
theorem alsa_read_mixer_raw_joined_skips_channels :
    joined_elem.joined = true ∧ present_channels joined_elem = [1] ∧
    joined_elem.volume 1 = 30 ∧ joined_elem.get_rc 1 = 0 ∧
    raw_value one_mixer (mixer_world joined_elem) 0 = some (-1) := by
  refine ⟨rfl, by decide, rfl, rfl, by decide⟩

/-! ## C14: reading the volume with the mixer disabled -/

/-- With the mixer disabled `alsa_read_mixer_raw` gives the error value -1
and the `assert (RANGE(0, actual_vol, 100))` of `alsa_read_mixer` fails. -/
theorem alsa_read_mixer_aborts_when_disabled (m : Mixer) (mw : MixerWorld)
    (h : m.mixer_handle = none) : alsa_read_mixer m mw = .abort := by
  unfold alsa_read_mixer alsa_read_mixer_raw
  rw [if_pos h]
  simp only
  rw [if_neg (by decide)]

/-- C14, the code at the failing input: `alsa_init` against a library whose
`snd_mixer_open` fails leaves the mixer disabled (no mixer handle, both
elements absent, no current element), and `alsa_read_mixer` in that state
does not return an error result: its raw read gives -1 and its
`assert (RANGE(0, actual_vol, 100))` fails. -/
theorem alsa_read_mixer_when_disabled :
    (init_mixer init_no_mixer stereo_elem).mixer_handle = none ∧
    (init_mixer init_no_mixer stereo_elem).mixer_elem1 = none ∧
    (init_mixer init_no_mixer stereo_elem).mixer_elem2 = none ∧
    (init_mixer init_no_mixer stereo_elem).mixer_elem_curr = none ∧
    alsa_read_mixer_raw (init_mixer init_no_mixer stereo_elem) (mixer_world stereo_elem) none
      = .ret (-1, mixer_world stereo_elem) ∧
    alsa_read_mixer (init_mixer init_no_mixer stereo_elem) (mixer_world stereo_elem)
      = .abort ∧
    alsa_set_mixer 50 (init_mixer init_no_mixer stereo_elem) (mixer_world stereo_elem)
      = .ret (init_mixer init_no_mixer stereo_elem, mixer_world stereo_elem) :=
  ⟨by decide, by decide, by decide, by decide, rfl, rfl, rfl⟩

/-! ## C15: the mixer state after `alsa_init` -/

/-- C16: in every mixer state reachable from `alsa_init` by any sequence of
toggle, set and read calls, `alsa_set_mixer (v)` with `0 <= v <= 100` never
issues a hardware volume write on a null current element, so it returns:
when no element is current it makes no hardware call and changes neither
volume (state and hardware are unchanged); when an element is current it
makes one hardware call, the write of v to that element, which leaves every
other element alone, and records v only in that element's last-known volume
(`volume1` when the current element is the first element, `volume2`
otherwise, when it is the second), leaving the other volume and every other
variable unchanged. -/
theorem alsa_set_mixer_reachable (m : Mixer) (hm : MixerReachable m) (v : Int)
    (mw : MixerWorld) (h0 : 0 ≤ v) (h100 : v ≤ 100) :
    (m.mixer_elem_curr = none → alsa_set_mixer v m mw = .ret (m, mw)) ∧
    (∀ id, m.mixer_elem_curr = some id →
      ∃ out, alsa_set_mixer v m mw = .ret out ∧
        mw.new_calls out.2 = [.set_volume_all id v (mw.elem id).set_rc] ∧
        (∀ j, j ≠ id → out.2.elem j = mw.elem j) ∧
        (m.mixer_elem_curr = m.mixer_elem1 → out.1 = { m with volume1 := v }) ∧
        (m.mixer_elem_curr ≠ m.mixer_elem1 →
          m.mixer_elem_curr = m.mixer_elem2 ∧ out.1 = { m with volume2 := v })) := by
  have hc := reachable_consistent m hm
  have hr : RANGE 0 v 100 = true := (RANGE_iff 0 v 100).mpr ⟨h0, h100⟩
  obtain ⟨hc1, _, hc3⟩ := hc
  constructor
  · intro hcur
    unfold alsa_set_mixer
    rw [if_pos hr, if_neg (by rw [ne_eq, not_not]; exact hc3.mpr hcur)]
  · intro id hcur
    have hh : m.mixer_handle ≠ none := by
      intro hn
      rw [hc3.mp hn] at hcur
      cases hcur
    refine ⟨(if m.mixer_elem_curr = m.mixer_elem1 then { m with volume1 := v }
        else { m with volume2 := v },
      snd_mixer_selem_set_playback_volume_all mw id v), ?_, ?_, ?_, ?_, ?_⟩
    · unfold alsa_set_mixer
      rw [if_pos hr, if_pos hh]
      simp only [hcur]
    · simp [MixerWorld.new_calls, snd_mixer_selem_set_playback_volume_all]
    · intro j hj
      simp [snd_mixer_selem_set_playback_volume_all, hj]
    · intro he
      simp only
      rw [if_pos he]
    · intro he
      simp only
      rw [if_neg he]
      rcases hc1 with h | h
      · exact absurd h he
      · exact ⟨h, rfl⟩

/-- C16 on the state after `alsa_init` with both elements found, toggled
once so that the second element (1) is current: setting 70 writes 70 to
element 1 only and records it in `volume2`. -/
theorem alsa_set_mixer_reachable_witness :
    (alsa_toggle_mixer_channel (init_mixer init_both stereo_elem)).mixer_elem_curr = some 1 ∧
    ∃ out, alsa_set_mixer 70 (alsa_toggle_mixer_channel (init_mixer init_both stereo_elem))
        (mixer_world stereo_elem) = .ret out ∧
      (mixer_world stereo_elem).new_calls out.2 = [.set_volume_all 1 70 0] ∧
      out.1.volume1 = 30 ∧ out.1.volume2 = 70 := by
  refine ⟨by decide, ?_⟩
  obtain ⟨out, h1, h2, _, _, h5⟩ :=
    (alsa_set_mixer_reachable _ (MixerReachable.toggle _ init_both_reachable) 70
      (mixer_world stereo_elem) (by decide) (by decide)).2 1 (by decide)
  obtain ⟨_, h6⟩ := h5 (by decide)
  exact ⟨out, h1, h2, by rw [h6]; decide, by rw [h6]⟩

/-! ## C17: buffer time, period time and chunk size -/

theorem buffer_time_eq_min (m : Nat) :
    (if m > BUFFER_MAX_USEC then BUFFER_MAX_USEC else m) = min m BUFFER_MAX_USEC := by
  unfold BUFFER_MAX_USEC
  split <;> omega

theorem alsa_open_device_times (bt : Nat) (a b c : Int) (d : Driver) (w : World) :
    w.since (alsa_open_device a b c d w).2.2 (Call.times_ok bt) := by
  unfold alsa_open_device
  simp only
  split
  · exact since_call _ (since_refl _ _) trivial
  · have h1 : w.since
        ({ w.call (.pcm_open a) with opened := w.opened + 1, live := w.opened :: w.live } : World)
        (Call.times_ok bt) := ⟨[.pcm_open a], rfl, by simp [Call.times_ok]⟩
    split
    · exact since_close _ (since_call _ h1 trivial) (fun _ => trivial)
    · split
      · exact since_close _ (since_call _ (since_call _ (since_call _ h1 trivial) trivial)
          trivial) (fun _ => trivial)
      · exact since_call _ (since_call _ h1 trivial) trivial

theorem alsa_open_finish_times (bt : Nat) (sp : sound_params) (r : OpenResp) (Bps : Int)
    (d : Driver) (w : World) :
    w.since (alsa_open_finish sp r Bps d w).2.2 (Call.times_ok bt) := by
  unfold alsa_open_finish
  simp only
  have s1 := since_call (P := Call.times_ok bt) .get_buffer_size
    (since_call .get_period_size (since_refl w _) trivial) trivial
  split
  · exact since_call _ s1 trivial
  · split
    · exact since_call _ (since_call _ s1 trivial) trivial
    · exact since_call _ (since_call _ s1 trivial) trivial

theorem alsa_open_times_times (sp : sound_params) (r : OpenResp) (Bps : Int)
    (d : Driver) (w : World) :
    w.since (alsa_open_times sp r Bps d w).2.2
      (Call.times_ok (min r.buffer_time_max BUFFER_MAX_USEC)) := by
  unfold alsa_open_times
  simp only
  rw [buffer_time_eq_min]
  have s1 := since_call (P := Call.times_ok (min r.buffer_time_max BUFFER_MAX_USEC))
    (.get_buffer_time_max r.get_buffer_time_max) (since_refl w _) trivial
  split
  · exact since_call _ s1 trivial
  · have s2 := since_call (P := Call.times_ok (min r.buffer_time_max BUFFER_MAX_USEC))
      (.set_period_time_near (min r.buffer_time_max BUFFER_MAX_USEC / 4)
        r.set_period_time_near) s1 rfl
    split
    · exact since_call _ s2 trivial
    · have s3 := since_call (P := Call.times_ok (min r.buffer_time_max BUFFER_MAX_USEC))
        (.set_buffer_time_near (min r.buffer_time_max BUFFER_MAX_USEC)
          r.set_buffer_time_near) s2 rfl
      split
      · exact since_call _ s3 trivial
      · have s4 := since_call (P := Call.times_ok (min r.buffer_time_max BUFFER_MAX_USEC))
          (.hw_params r.hw_params) s3 trivial
        split
        · exact since_call _ s4 trivial
        · exact since_trans s4 (alsa_open_finish_times _ sp r Bps d _)

/-- Every time request of `alsa_open` asks for the clamped buffer time or a
quarter of it. -/
theorem alsa_open_times_ok (sp : sound_params) (r : OpenResp) (d0 : Driver) (w0 : World)
    (out : Int × Driver × World) (h : alsa_open sp r d0 w0 = .ret out) :
    w0.since out.2.2 (Call.times_ok (min r.buffer_time_max BUFFER_MAX_USEC)) := by
  unfold alsa_open at h
  simp only at h
  split at h
  · injection h with h
    rw [← h]
    exact since_refl _ _
  · have hdev := alsa_open_device_times (min r.buffer_time_max BUFFER_MAX_USEC) r.pcm_open
      r.hw_params_malloc r.hw_params_any
      { d0 with params_format := format_to_mask (Int.land sp.fmt SFMT_MASK_FORMAT) } w0
    split at h
    · rename_i d1 w1 heq
      rw [heq] at hdev
      injection h with h
      rw [← h]
      exact hdev
    · rename_i d1 w1 heq
      rw [heq] at hdev
      simp only at hdev
      have s2 := since_call (.set_access r.set_access) hdev trivial
      split at h
      · injection h with h
        rw [← h]
        exact since_call _ s2 trivial
      · have s3 := since_call (.set_format d1.params_format r.set_format) s2 trivial
        split at h
        · injection h with h
          rw [← h]
          exact since_call _ s3 trivial
        · split at h
          · cases h
          · rename_i Bps hB
            have s4 := since_call (.set_rate_near (to_uint sp.rate) r.set_rate_near) s3 trivial
            split at h
            · injection h with h
              rw [← h]
              exact since_call _ s4 trivial
            · have s5 := since_call (.set_channels (to_uint sp.channels) r.set_channels)
                s4 trivial
              split at h
              · injection h with h
                rw [← h]
                exact since_call _ s5 trivial
              · injection h with h
                rw [← h]
                exact since_trans s5 (alsa_open_times_times sp r Bps _ _)

theorem alsa_open_device_log (a b c : Int) (d : Driver) (w : World) (d' : Driver)
    (w' : World) (h : alsa_open_device a b c d w = (true, d', w')) :
    w'.log = w.log ++ [.pcm_open a, .hw_params_malloc b, .hw_params_any c] := by
  unfold alsa_open_device at h
  simp only at h
  split at h
  · simp at h
  · split at h
    · simp at h
    · split at h
      · simp at h
      · simp only [Prod.mk.injEq, true_and] at h
        obtain ⟨_, rfl⟩ := h
        simp [World.call]

theorem alsa_open_finish_log (sp : sound_params) (r : OpenResp) (Bps : Int)
    (d : Driver) (w : World) (d' : Driver) (w' : World)
    (h : alsa_open_finish sp r Bps d w = (1, d', w')) :
    w'.log = w.log ++ [.get_period_size, .get_buffer_size, .hw_params_free,
      .pcm_prepare r.prepare] := by
  unfold alsa_open_finish at h
  simp only at h
  split at h
  · simp at h
  · split at h
    · simp at h
    · simp only [Prod.mk.injEq, true_and] at h
      obtain ⟨_, rfl⟩ := h
      simp [World.call]

theorem alsa_open_times_log (sp : sound_params) (r : OpenResp) (Bps : Int)
    (d : Driver) (w : World) (d' : Driver) (w' : World)
    (h : alsa_open_times sp r Bps d w = (1, d', w')) :
    ∃ w4, alsa_open_finish sp r Bps d w4 = (1, d', w') ∧
      w4.log = w.log ++ [.get_buffer_time_max r.get_buffer_time_max,
        .set_period_time_near (min r.buffer_time_max BUFFER_MAX_USEC / 4)
          r.set_period_time_near,
        .set_buffer_time_near (min r.buffer_time_max BUFFER_MAX_USEC)
          r.set_buffer_time_near,
        .hw_params r.hw_params] := by
  unfold alsa_open_times at h
  simp only at h
  rw [buffer_time_eq_min] at h
  split at h
  · simp at h
  · split at h
    · simp at h
    · split at h
      · simp at h
      · split at h
        · simp at h
        · exact ⟨_, h, by simp [World.call]⟩

theorem alsa_open_success_log (sp : sound_params) (r : OpenResp) (d0 : Driver) (w0 : World)
    (d : Driver) (w : World) (h : alsa_open sp r d0 w0 = .ret (1, d, w)) :
    ∃ Bps d3 w5 pre, sfmt_Bps sp.fmt = some Bps ∧
      alsa_open_times sp r Bps d3 w5 = (1, d, w) ∧ w5.log = w0.log ++ pre ∧
      period_requests pre = [] ∧ buffer_requests pre = [] := by
  unfold alsa_open at h
  simp only at h
  split at h
  · simp at h
  · split at h
    · simp at h
    · rename_i d1 w1 hdev
      have hlog := alsa_open_device_log _ _ _ _ _ _ _ hdev
      split at h
      · simp at h
      · split at h
        · simp at h
        · split at h
          · cases h
          · rename_i Bps hB
            split at h
            · simp at h
            · split at h
              · simp at h
              · injection h with h
                refine ⟨Bps, { d1 with params_rate := r.rate }, _,
                  [.pcm_open r.pcm_open, .hw_params_malloc r.hw_params_malloc,
                    .hw_params_any r.hw_params_any, .set_access r.set_access,
                    .set_format d1.params_format r.set_format,
                    .set_rate_near (to_uint sp.rate) r.set_rate_near,
                    .set_channels (to_uint sp.channels) r.set_channels], hB, h, ?_, rfl, rfl⟩
                simp [World.call, hlog]

theorem period_requests_ok (bt : Nat) (calls : List Call)
    (h : ∀ c ∈ calls, Call.times_ok bt c) : ∀ u ∈ period_requests calls, u = bt / 4 := by
  intro u hu
  obtain ⟨c, hc, hcu⟩ := List.mem_filterMap.mp hu
  have := h c hc
  cases c <;> simp [Call.period_time] at hcu
  subst hcu
  exact this

theorem buffer_requests_ok (bt : Nat) (calls : List Call)
    (h : ∀ c ∈ calls, Call.times_ok bt c) : ∀ u ∈ buffer_requests calls, u = bt := by
  intro u hu
  obtain ⟨c, hc, hcu⟩ := List.mem_filterMap.mp hu
  have := h c hc
  cases c <;> simp [Call.buffer_time] at hcu
  subst hcu
  exact this

/-- C17 (as amended): for every device-reported maximal buffer time m
(microseconds), every time request that `alsa_open` makes asks for a buffer
time of `min(m, 300000)` or a period time of `floor(min(m, 300000) / 4)`, and
a successful open has made exactly one request of each; for `m = 500000` the
requests are 300000 us (13230 frames at 44100 Hz) and 75000 us (3307 frames
at 44100 Hz, truncated); and after a successful open `chunk_bytes` is the
product `period_frames * channels * bytes_per_sample` converted to `int`,
which is the product itself whenever the product is representable as an
`int`. -/
theorem alsa_open_times_and_chunk (sp : sound_params) (r : OpenResp) (d0 : Driver)
    (w0 : World) (out : Int × Driver × World) (h : alsa_open sp r d0 w0 = .ret out) :
    (∀ u ∈ period_requests (w0.new_calls out.2.2), u = min r.buffer_time_max 300000 / 4) ∧
    (∀ u ∈ buffer_requests (w0.new_calls out.2.2), u = min r.buffer_time_max 300000) ∧
    (out.1 = 1 →
      period_requests (w0.new_calls out.2.2) = [min r.buffer_time_max 300000 / 4] ∧
      buffer_requests (w0.new_calls out.2.2) = [min r.buffer_time_max 300000] ∧
      ∃ Bps, sfmt_Bps sp.fmt = some Bps ∧ out.2.1.chunk_frames = r.period_size ∧
        out.2.1.chunk_bytes = wrap32 ((r.period_size : Int) * sp.channels * Bps) ∧
        (0 ≤ (r.period_size : Int) * sp.channels * Bps →
          (r.period_size : Int) * sp.channels * Bps < 2 ^ 31 →
          out.2.1.chunk_bytes = (r.period_size : Int) * sp.channels * Bps)) ∧
    (r.buffer_time_max = 500000 →
      min r.buffer_time_max 300000 = 300000 ∧ min r.buffer_time_max 300000 / 4 = 75000) ∧
    usec_to_frames 300000 44100 = 13230 ∧ usec_to_frames 75000 44100 = 3307 := by
  have hB : BUFFER_MAX_USEC = 300000 := rfl
  obtain ⟨calls, hlog, hok⟩ := alsa_open_times_ok sp r d0 w0 out h
  rw [hB] at hok
  rw [new_calls_append w0 out.2.2 calls hlog]
  refine ⟨period_requests_ok _ calls hok, buffer_requests_ok _ calls hok, ?_, ?_, by decide,
    by decide⟩
  · intro h1
    obtain ⟨r1, d, w⟩ := out
    simp only at h1 hlog ⊢
    subst h1
    obtain ⟨Bps, d3, w5, pre, hBps, ht, hpre, hp1, hp2⟩ := alsa_open_success_log sp r d0 w0 d w h
    obtain ⟨w4, hf, hw4⟩ := alsa_open_times_log sp r Bps d3 w5 d w ht
    have hfl := alsa_open_finish_log sp r Bps d3 w4 d w hf
    obtain ⟨_, _, _, f4, _, _, f7, _⟩ := alsa_open_finish_success sp r Bps d3 w4 d w hf
    have hcalls : calls = pre ++ ([.get_buffer_time_max r.get_buffer_time_max,
        .set_period_time_near (min r.buffer_time_max BUFFER_MAX_USEC / 4)
          r.set_period_time_near,
        .set_buffer_time_near (min r.buffer_time_max BUFFER_MAX_USEC)
          r.set_buffer_time_near,
        .hw_params r.hw_params] ++ [.get_period_size, .get_buffer_size, .hw_params_free,
        .pcm_prepare r.prepare]) := by
      have : w.log = w0.log ++ (pre ++ ([.get_buffer_time_max r.get_buffer_time_max,
          .set_period_time_near (min r.buffer_time_max BUFFER_MAX_USEC / 4)
            r.set_period_time_near,
          .set_buffer_time_near (min r.buffer_time_max BUFFER_MAX_USEC)
            r.set_buffer_time_near,
          .hw_params r.hw_params] ++ [.get_period_size, .get_buffer_size, .hw_params_free,
          .pcm_prepare r.prepare])) := by
        rw [hfl, hw4, hpre]
        simp only [List.append_assoc]
      rw [hlog] at this
      exact List.append_cancel_left this
    have hmul : (r.period_size : Int) * (sp.channels * Bps)
        = (r.period_size : Int) * sp.channels * Bps := by ring
    refine ⟨?_, ?_, Bps, hBps, f4, ?_, ?_⟩
    · rw [hcalls]
      unfold period_requests at hp1 ⊢
      rw [List.filterMap_append, hp1, hB]
      rfl
    · rw [hcalls]
      unfold buffer_requests at hp2 ⊢
      rw [List.filterMap_append, hp2, hB]
      rfl
    · rw [f7, hmul]
    · intro h0 h31
      rw [f7, hmul]
      exact wrap32_small _ h0 h31
  · intro hm
    rw [hm]
    exact ⟨by decide, by decide⟩

/-- C17 on the 16-bit stereo request against a device that reports a maximal
buffer time of 500000 us and settles on a period of 3307 frames: the
requests are 75000 us and 300000 us, and the chunk has 3307 * 2 * 2 = 13228
bytes. -/
theorem alsa_open_times_and_chunk_witness :
    alsa_open cd_params cd_resp closed_driver new_world = .ret cd_open ∧
    cd_open.1 = 1 ∧
    period_requests (new_world.new_calls cd_open.2.2) = [min cd_resp.buffer_time_max 300000 / 4] ∧
    buffer_requests (new_world.new_calls cd_open.2.2) = [min cd_resp.buffer_time_max 300000] ∧
    min cd_resp.buffer_time_max 300000 = 300000 ∧
    min cd_resp.buffer_time_max 300000 / 4 = 75000 ∧
    cd_open.2.1.chunk_bytes = 13228 :=
  ⟨rfl, by decide,
   ((alsa_open_times_and_chunk cd_params cd_resp closed_driver new_world cd_open rfl).2.2.1
      (by decide)).1,
   ((alsa_open_times_and_chunk cd_params cd_resp closed_driver new_world cd_open rfl).2.2.1
      (by decide)).2.1,
   by decide, by decide, by decide⟩

/-- C17 as stated fails: on a device that settles on a period of 2^30 frames
(in a buffer of 2^31 frames) the 16-bit stereo open succeeds, the product
`period_frames * channels * bytes_per_sample` is `2^30 * 2 * 2 = 2^32`, which
no `int` holds, and `chunk_bytes` is 0. -/
theorem alsa_open_chunk_bytes_overflow :
    alsa_open cd_params huge_period_resp closed_driver new_world = .ret huge_period_open ∧
    huge_period_open.1 = 1 ∧ huge_period_open.2.1.chunk_frames = 2 ^ 30 ∧
    cd_params.channels = 2 ∧ sfmt_Bps cd_params.fmt = some 2 ∧
    huge_period_open.2.1.chunk_bytes = 0 ∧
    huge_period_open.2.1.chunk_bytes ≠ (2 ^ 30 : Int) * 2 * 2 :=
  ⟨rfl, by decide, by decide, rfl, by decide, by decide, by decide⟩

/-! ## C18: formats without a device format -/

/-- C18: for every requested format word whose format bits
(`fmt & SFMT_MASK_FORMAT`) are not exactly one of the six mapped formats
(S8, U8, S16, U16, S32, U32), which includes no bit at all, the float format,
and every combination of two or more format bits, `alsa_open` returns 0
before it opens the device: no library call is made, no handle is opened,
and `handle` is what it was. -/
theorem alsa_open_rejects_unmapped_format (sp : sound_params) (r : OpenResp) (d : Driver)
    (w : World)
    (h : ∀ f ∈ [SFMT_S8, SFMT_U8, SFMT_S16, SFMT_U16, SFMT_S32, SFMT_U32],
      Int.land sp.fmt SFMT_MASK_FORMAT ≠ f) :
    alsa_open sp r d w = .ret (0, { d with params_format := SND_PCM_FORMAT_UNKNOWN }, w) := by
  have h1 := h SFMT_S8 (by simp)
  have h2 := h SFMT_U8 (by simp)
  have h3 := h SFMT_S16 (by simp)
  have h4 := h SFMT_U16 (by simp)
  have h5 := h SFMT_S32 (by simp)
  have h6 := h SFMT_U32 (by simp)
  have hf : format_to_mask (Int.land sp.fmt SFMT_MASK_FORMAT) = SND_PCM_FORMAT_UNKNOWN := by
    simp only [format_to_mask, format_masks, format_to_mask_loop]
    rw [if_neg (Ne.symm h1), if_neg (Ne.symm h2), if_neg (Ne.symm h3), if_neg (Ne.symm h4),
      if_neg (Ne.symm h5), if_neg (Ne.symm h6)]
  unfold alsa_open
  simp only [hf, if_true]

/-- C18 for a format word without format bits, for the float format and for
the combination of two mapped formats, from the closed state. -/
theorem alsa_open_rejects_unmapped_format_witness :
    alsa_open { cd_params with fmt := 0 } cd_resp closed_driver new_world
      = .ret (0, { closed_driver with params_format := SND_PCM_FORMAT_UNKNOWN }, new_world) ∧
    alsa_open { cd_params with fmt := SFMT_FLOAT } cd_resp closed_driver new_world
      = .ret (0, { closed_driver with params_format := SND_PCM_FORMAT_UNKNOWN }, new_world) ∧
    alsa_open { cd_params with fmt := Int.lor SFMT_S16 SFMT_U8 } cd_resp closed_driver
        new_world
      = .ret (0, { closed_driver with params_format := SND_PCM_FORMAT_UNKNOWN }, new_world) :=
  ⟨alsa_open_rejects_unmapped_format _ cd_resp closed_driver new_world (by decide),
   alsa_open_rejects_unmapped_format _ cd_resp closed_driver new_world (by decide),
   alsa_open_rejects_unmapped_format _ cd_resp closed_driver new_world (by decide)⟩

/-! ## C19: the capability probe releases its handle -/

/-- C19: for every combination of success and failure of the device calls of
the capability probe (`fill_capabilities`, with `alsa_open_device`: opening
the PCM, allocating and initialising the parameter structure, reading the
minimal and the maximal channel count, allocating the format mask), when the
probe returns, every handle it opened has been closed exactly once: when
`snd_pcm_open` succeeded the probe made exactly one `snd_pcm_close` call, on
the handle it opened, and when it failed the probe made none; the set of open
handles is what it was before the probe. -/
theorem fill_capabilities_closes_handle (pr : ProbeResp) (caps : output_driver_caps)
    (d : Driver) (w : World) :
    handles_closed (w.new_calls (fill_capabilities pr caps d w).2.2.2)
      = (if pr.pcm_open < 0 then [] else [some w.opened]) ∧
    (fill_capabilities pr caps d w).2.2.2.opened
      = (if pr.pcm_open < 0 then w.opened else w.opened + 1) ∧
    (fill_capabilities pr caps d w).2.2.2.live = w.live := by
  by_cases h1 : pr.pcm_open < 0
  · have hw : (fill_capabilities pr caps d w).2.2.2 = w.call (.pcm_open pr.pcm_open) := by
      simp [fill_capabilities, alsa_open_device, h1]
    rw [hw, if_pos h1, if_pos h1]
    refine ⟨?_, rfl, rfl⟩
    rw [new_calls_append w _ [.pcm_open pr.pcm_open] rfl]
    rfl
  · rw [if_neg h1, if_neg h1]
    by_cases h2 : pr.hw_params_malloc < 0
    · refine ⟨?_, ?_, ?_⟩
      · rw [new_calls_append w _ [.pcm_open pr.pcm_open,
          .hw_params_malloc pr.hw_params_malloc, .pcm_close (some w.opened)]
          (by simp [fill_capabilities, alsa_open_device, h1, h2, snd_pcm_close, World.call])]
        rfl
      · simp [fill_capabilities, alsa_open_device, h1, h2, snd_pcm_close, World.call]
      · simp [fill_capabilities, alsa_open_device, h1, h2, snd_pcm_close, World.call]
    · by_cases h3 : pr.hw_params_any < 0
      · refine ⟨?_, ?_, ?_⟩
        · rw [new_calls_append w _ [.pcm_open pr.pcm_open,
            .hw_params_malloc pr.hw_params_malloc, .hw_params_any pr.hw_params_any,
            .hw_params_free, .pcm_close (some w.opened)]
            (by simp [fill_capabilities, alsa_open_device, h1, h2, h3, snd_pcm_close,
              World.call])]
          rfl
        · simp [fill_capabilities, alsa_open_device, h1, h2, h3, snd_pcm_close, World.call]
        · simp [fill_capabilities, alsa_open_device, h1, h2, h3, snd_pcm_close, World.call]
      · by_cases h4 : pr.get_channels_min < 0
        · refine ⟨?_, ?_, ?_⟩
          · rw [new_calls_append w _ [.pcm_open pr.pcm_open,
              .hw_params_malloc pr.hw_params_malloc, .hw_params_any pr.hw_params_any,
              .get_channels_min pr.get_channels_min, .hw_params_free,
              .pcm_close (some w.opened)]
              (by simp [fill_capabilities, alsa_open_device, h1, h2, h3, h4, snd_pcm_close,
                World.call])]
            rfl
          · simp [fill_capabilities, alsa_open_device, h1, h2, h3, h4, snd_pcm_close,
              World.call]
          · simp [fill_capabilities, alsa_open_device, h1, h2, h3, h4, snd_pcm_close,
              World.call]
        · by_cases h5 : pr.get_channels_max < 0
          · refine ⟨?_, ?_, ?_⟩
            · rw [new_calls_append w _ [.pcm_open pr.pcm_open,
                .hw_params_malloc pr.hw_params_malloc, .hw_params_any pr.hw_params_any,
                .get_channels_min pr.get_channels_min,
                .get_channels_max pr.get_channels_max, .hw_params_free,
                .pcm_close (some w.opened)]
                (by simp [fill_capabilities, alsa_open_device, h1, h2, h3, h4, h5,
                  snd_pcm_close, World.call])]
              rfl
            · simp [fill_capabilities, alsa_open_device, h1, h2, h3, h4, h5, snd_pcm_close,
                World.call]
            · simp [fill_capabilities, alsa_open_device, h1, h2, h3, h4, h5, snd_pcm_close,
                World.call]
          · by_cases h6 : pr.format_mask_malloc < 0
            · refine ⟨?_, ?_, ?_⟩
              · rw [new_calls_append w _ [.pcm_open pr.pcm_open,
                  .hw_params_malloc pr.hw_params_malloc, .hw_params_any pr.hw_params_any,
                  .get_channels_min pr.get_channels_min,
                  .get_channels_max pr.get_channels_max,
                  .format_mask_malloc pr.format_mask_malloc, .hw_params_free,
                  .pcm_close (some w.opened)]
                  (by simp [fill_capabilities, alsa_open_device, h1, h2, h3, h4, h5, h6,
                    snd_pcm_close, World.call])]
                rfl
              · simp [fill_capabilities, alsa_open_device, h1, h2, h3, h4, h5, h6,
                  snd_pcm_close, World.call]
              · simp [fill_capabilities, alsa_open_device, h1, h2, h3, h4, h5, h6,
                  snd_pcm_close, World.call]
            · refine ⟨?_, ?_, ?_⟩
              · rw [new_calls_append w _ [.pcm_open pr.pcm_open,
                  .hw_params_malloc pr.hw_params_malloc, .hw_params_any pr.hw_params_any,
                  .get_channels_min pr.get_channels_min,
                  .get_channels_max pr.get_channels_max,
                  .format_mask_malloc pr.format_mask_malloc, .get_format_mask,
                  .format_mask_free, .hw_params_free, .pcm_close (some w.opened)]
                  (by simp [fill_capabilities, alsa_open_device, h1, h2, h3, h4, h5, h6,
                    snd_pcm_close, World.call])]
                rfl
              · simp [fill_capabilities, alsa_open_device, h1, h2, h3, h4, h5, h6,
                  snd_pcm_close, World.call]
              · simp [fill_capabilities, alsa_open_device, h1, h2, h3, h4, h5, h6,
                  snd_pcm_close, World.call]

/-! ## C20: reset -/

/-- C20: `alsa_reset` on an open session (a handle is held): when
`snd_pcm_drop` and `snd_pcm_prepare` both succeed it returns 1 with
`alsa_buf_fill = 0`, and the only library calls it makes are these two, so
there is no silence padding, no hardware write and no delay sleep, and
nothing is played; when either of the two fails it returns 0 and leaves
`alsa_buf_fill` (and every other session variable) unchanged, again with no
call besides drop and prepare.  On a Closed driver (no handle) it returns 1
and changes neither the session variables nor the world. -/
theorem alsa_reset_contract (rr : ResetResp) (d : Driver) (w : World) :
    (d.handle ≠ none → 0 ≤ rr.drop → 0 ≤ rr.prepare →
      alsa_reset rr d w = (1, { d with alsa_buf_fill := 0 },
        { w with log := w.log ++ [.pcm_drop rr.drop, .pcm_prepare rr.prepare] })) ∧
    (d.handle ≠ none → rr.drop < 0 →
      alsa_reset rr d w = (0, d, { w with log := w.log ++ [.pcm_drop rr.drop] })) ∧
    (d.handle ≠ none → 0 ≤ rr.drop → rr.prepare < 0 →
      alsa_reset rr d w = (0, d,
        { w with log := w.log ++ [.pcm_drop rr.drop, .pcm_prepare rr.prepare] })) ∧
    (d.handle = none → alsa_reset rr d w = (1, d, w)) := by
  refine ⟨?_, ?_, ?_, ?_⟩
  · intro hh h1 h2
    simp [alsa_reset, hh, not_lt.mpr h1, not_lt.mpr h2, World.call]
  · intro hh h1
    simp [alsa_reset, hh, h1, World.call]
  · intro hh h1 h2
    simp [alsa_reset, hh, not_lt.mpr h1, h2, World.call]
  · intro hh
    simp [alsa_reset, hh]

/-- C20 on the opened 16-bit stereo session with four bytes staged, against a
device that accepts both calls, and on the closed driver. -/
theorem alsa_reset_contract_witness :
    cd_after.alsa_buf_fill = 4 ∧
    alsa_reset reset_ok cd_after cd_play.2.2.1 = (1, { cd_after with alsa_buf_fill := 0 },
        { cd_play.2.2.1 with
          log := cd_play.2.2.1.log ++ [.pcm_drop reset_ok.drop, .pcm_prepare reset_ok.prepare] }) ∧
    alsa_reset reset_ok closed_driver new_world = (1, closed_driver, new_world) :=
  ⟨by decide,
   (alsa_reset_contract reset_ok cd_after cd_play.2.2.1).1 (by decide) (by decide) (by decide),
   (alsa_reset_contract reset_ok closed_driver new_world).2.2.2 rfl⟩

/-! ## C21: the format mapper -/

/-- C21: the format mapper is a consistent bidirectional translation.  For
every device format set S, `mask_to_format (S)` is the bitwise OR of exactly
those of the six portable formats f (S8, U8, S16, U16, S32, U32) whose
platform code `format_to_mask (f)` belongs to S, each tested independently:
the bit of f is set in the result exactly when the code of f is in S, and no
other bit is set.  In particular for each of the six formats f,
`mask_to_format` of the singleton set of `format_to_mask (f)` equals f,
`format_to_mask (f)` is never `SND_PCM_FORMAT_UNKNOWN`, and `format_to_mask`
is injective on the six formats. -/
theorem format_mapper_consistent (S : Int → Bool) :
    mask_to_format S = spec_mask_to_format S ∧
    (∀ f ∈ portable_formats,
      (Int.land (mask_to_format S) f = f ↔ S (format_to_mask f) = true) ∧
      (Int.land (mask_to_format S) f = 0 ↔ S (format_to_mask f) = false)) ∧
    Int.land (mask_to_format S) (portable_formats.foldl Int.lor 0) = mask_to_format S ∧
    (∀ f ∈ portable_formats, mask_to_format (singleton_mask (format_to_mask f)) = f) ∧
    (∀ f ∈ portable_formats, format_to_mask f ≠ SND_PCM_FORMAT_UNKNOWN) ∧
    (∀ f ∈ portable_formats, ∀ g ∈ portable_formats,
      format_to_mask f = format_to_mask g → f = g) := by
  have hS : mask_to_format S =
      Int.lor (Int.lor (Int.lor (Int.lor (Int.lor (Int.lor 0
        (if S 0 = true then 1 else 0)) (if S 1 = true then 2 else 0))
        (if S 2 = true then 4 else 0)) (if S 4 = true then 8 else 0))
        (if S 10 = true then 16 else 0)) (if S 12 = true then 32 else 0) := by
    simp only [mask_to_format, mask_to_format_loop, format_masks, SND_PCM_FORMAT_S8,
      SND_PCM_FORMAT_U8, SND_PCM_FORMAT_S16, SND_PCM_FORMAT_U16, SND_PCM_FORMAT_S32,
      SND_PCM_FORMAT_U32, SFMT_S8, SFMT_U8, SFMT_S16, SFMT_U16, SFMT_S32, SFMT_U32]
    cases S 0 <;> cases S 1 <;> cases S 2 <;> cases S 4 <;> cases S 10 <;> cases S 12 <;> rfl
  have e1 : format_to_mask SFMT_S8 = 0 := by decide
  have e2 : format_to_mask SFMT_U8 = 1 := by decide
  have e3 : format_to_mask SFMT_S16 = 2 := by decide
  have e4 : format_to_mask SFMT_U16 = 4 := by decide
  have e5 : format_to_mask SFMT_S32 = 10 := by decide
  have e6 : format_to_mask SFMT_U32 = 12 := by decide
  have hmem : ∀ f ∈ portable_formats, f = SFMT_S8 ∨ f = SFMT_U8 ∨ f = SFMT_S16 ∨
      f = SFMT_U16 ∨ f = SFMT_S32 ∨ f = SFMT_U32 := by
    intro f hf
    simpa [portable_formats] using hf
  refine ⟨?_, ?_, ?_, ?_, ?_, ?_⟩
  · rw [hS]
    simp only [spec_mask_to_format, portable_formats, List.map_cons,
      List.map_nil, List.foldl_cons, List.foldl_nil, e1, e2, e3, e4, e5, e6]
    rfl
  · intro f hf
    rw [hS]
    rcases hmem f hf with rfl | rfl | rfl | rfl | rfl | rfl
    · rw [e1]
      cases S 0 <;> cases S 1 <;> cases S 2 <;> cases S 4 <;> cases S 10 <;> cases S 12 <;>
        decide
    · rw [e2]
      cases S 0 <;> cases S 1 <;> cases S 2 <;> cases S 4 <;> cases S 10 <;> cases S 12 <;>
        decide
    · rw [e3]
      cases S 0 <;> cases S 1 <;> cases S 2 <;> cases S 4 <;> cases S 10 <;> cases S 12 <;>
        decide
    · rw [e4]
      cases S 0 <;> cases S 1 <;> cases S 2 <;> cases S 4 <;> cases S 10 <;> cases S 12 <;>
        decide
    · rw [e5]
      cases S 0 <;> cases S 1 <;> cases S 2 <;> cases S 4 <;> cases S 10 <;> cases S 12 <;>
        decide
    · rw [e6]
      cases S 0 <;> cases S 1 <;> cases S 2 <;> cases S 4 <;> cases S 10 <;> cases S 12 <;>
        decide
  · rw [hS]
    cases S 0 <;> cases S 1 <;> cases S 2 <;> cases S 4 <;> cases S 10 <;> cases S 12 <;>
      decide
  · intro f hf
    rcases hmem f hf with rfl | rfl | rfl | rfl | rfl | rfl <;> decide
  · intro f hf
    rcases hmem f hf with rfl | rfl | rfl | rfl | rfl | rfl <;> decide
  · intro f hf g hg h
    rcases hmem f hf with rfl | rfl | rfl | rfl | rfl | rfl <;>
      rcases hmem g hg with rfl | rfl | rfl | rfl | rfl | rfl <;>
      first
        | rfl
        | (exfalso; revert h; decide)

/-! ## C22: what `play_buf_chunks` returns -/

/-- C22: whenever `play_buf_chunks` returns a non-negative value (given
hardware writes that never report more frames than requested, a positive
`chunk_bytes` and a positive `bytes_per_frame`, which holds in particular
when `chunk_bytes` is a positive multiple of `bytes_per_frame`), the value
returned
is the total number of bytes accepted by the hardware during the call (the
bytes `alsa_buf[0 .. w)`, which is the number of frames reported times
`bytes_per_frame`), the new fill equals the old fill minus that value and is
strictly less than `chunk_bytes`, and the new `alsa_buf[0 .. new fill)` equals
the old `alsa_buf[w .. old fill)`: the unplayed remainder is moved to the
start of the buffer; the new fill is not negative when the old one was
not. -/
theorem play_buf_chunks_result (d : Driver) (w : World) (rs : List DevResp) (r : Int)
    (d' : Driver) (w' : World) (rs' : List DevResp)
    (hbpf : 0 < d.bytes_per_frame) (hcb : 0 < d.chunk_bytes)
    (hdev : ∀ x ∈ rs, x.within d)
    (h : play_buf_chunks d w rs = .ret (r, d', w', rs')) (hr : 0 ≤ r) :
    ∃ acc calls, w'.played = w.played ++ acc ∧ (acc.length : Int) = r ∧
      acc = slice d.alsa_buf 0 r ∧ w'.log = w.log ++ calls ∧
      frames_reported calls * d.bytes_per_frame = r ∧
      d'.alsa_buf_fill = d.alsa_buf_fill - r ∧ d'.alsa_buf_fill < d'.chunk_bytes ∧
      d'.chunk_bytes = d.chunk_bytes ∧
      slice d'.alsa_buf 0 d'.alsa_buf_fill = slice d.alsa_buf r (d.alsa_buf_fill - r) ∧
      (0 ≤ d.alsa_buf_fill → 0 ≤ d'.alsa_buf_fill) := by
  obtain ⟨used, acc, calls, P⟩ := flush_loop_spec rs 0 d w r d' w' rs' hbpf h
  have hused : ∀ x ∈ used, x.within d := by
    intro x hx
    apply hdev
    rw [P.script]
    exact List.mem_append_left _ hx
  obtain ⟨_, _, _, _, _, _, c7, _⟩ := P.config
  rcases P.cases with ⟨p1, p2, p3, _⟩ | ⟨p1, _⟩
  · have hlen : (acc.length : Int) = r := by omega
    refine ⟨acc, calls, P.played, hlen, ?_, P.log, ?_, ?_, ?_, c7, ?_, ?_⟩
    · have := P.acc_eq
      rw [hlen] at this
      exact this
    · rw [P.frames, hlen]
    · rw [P.fill, hlen]
    · rw [c7]; exact p2
    · rw [p3, slice_memmove_front, P.fill, hlen]
    · exact P.nonneg hcb hused
  · omega

/-- C22 on the small session (frames of 2 bytes, chunks of 4 bytes) with the
seven bytes 0..6 staged, against a partial write of one frame and a full
write of two frames: the call returns 6, the six bytes 0..5 were accepted,
one byte stays staged and it is the old byte 6, now at the start. -/
theorem play_buf_chunks_result_witness :
    play_buf_chunks staged_driver tiny_world [⟨1, 0, 0⟩, ⟨2, 0, 0⟩] = .ret staged_flush ∧
    staged_flush.1 = 6 ∧ staged_flush.2.2.1.played = [0, 1, 2, 3, 4, 5] ∧
    staged_flush.2.1.alsa_buf_fill = 1 ∧ staged_flush.2.1.staged = [6] ∧
    ∃ acc calls, staged_flush.2.2.1.played = tiny_world.played ++ acc ∧
      (acc.length : Int) = staged_flush.1 ∧
      acc = slice staged_driver.alsa_buf 0 staged_flush.1 ∧
      staged_flush.2.2.1.log = tiny_world.log ++ calls ∧
      frames_reported calls * staged_driver.bytes_per_frame = staged_flush.1 ∧
      staged_flush.2.1.alsa_buf_fill = staged_driver.alsa_buf_fill - staged_flush.1 ∧
      staged_flush.2.1.alsa_buf_fill < staged_flush.2.1.chunk_bytes ∧
      staged_flush.2.1.chunk_bytes = staged_driver.chunk_bytes ∧
      slice staged_flush.2.1.alsa_buf 0 staged_flush.2.1.alsa_buf_fill
        = slice staged_driver.alsa_buf staged_flush.1
            (staged_driver.alsa_buf_fill - staged_flush.1) ∧
      (0 ≤ staged_driver.alsa_buf_fill → 0 ≤ staged_flush.2.1.alsa_buf_fill) :=
  ⟨rfl, by decide, by decide, by decide, by decide,
   play_buf_chunks_result staged_driver tiny_world [⟨1, 0, 0⟩, ⟨2, 0, 0⟩] staged_flush.1
    staged_flush.2.1 staged_flush.2.2.1 staged_flush.2.2.2 (by decide) (by decide)
    (by decide) rfl (by decide)⟩

/-! ## C23: the invariant of the flush loop -/

/-- The flush loop is the iteration of `flush_iter`. -/
theorem flush_loop_step (written : Int) (d : Driver) (w : World) (r : DevResp)
    (rs : List DevResp) :
    flush_loop written d w (r :: rs) =
      (if d.alsa_buf_fill ≥ d.chunk_bytes then
        match flush_iter written d w r with
        | (some (written1, d1), w1) => flush_loop written1 d1 w1 rs
        | (none, w1) => .ret (-1, d, w1, rs)
      else .ret (written,
        { d with alsa_buf := memmove_front d.alsa_buf written d.alsa_buf_fill }, w, r :: rs)) := by
  simp only [flush_loop, flush_iter]
  split_ifs <;> rfl

theorem tdiv_mul_of_dvd (cb bpf : Int) (h : bpf ∣ cb) : Int.tdiv cb bpf * bpf = cb :=
  Int.tdiv_mul_cancel h

/-- What one iteration of the flush loop does to `written` and the fill when
the device reports between 0 and the requested number of frames. -/
theorem flush_iter_counted (written : Int) (d : Driver) (w : World) (r : DevResp)
    (hbpf : 0 < d.bytes_per_frame) (hcb : 0 < d.chunk_bytes) (hr : r.counted d) :
    ∃ d1 w1, flush_iter written d w r = (some (written + r.writei * d.bytes_per_frame, d1), w1) ∧
      d1 = { d with alsa_buf_fill := d.alsa_buf_fill - r.writei * d.bytes_per_frame } ∧
      0 ≤ r.writei * d.bytes_per_frame ∧ r.writei * d.bytes_per_frame ≤ d.chunk_bytes ∧
      w1.log = w.log ++ [.pcm_writei written (Int.tdiv d.chunk_bytes d.bytes_per_frame)
        r.writei] := by
  obtain ⟨h0, h1⟩ := hr
  have hle : r.writei * d.bytes_per_frame ≤ d.chunk_bytes :=
    le_trans (mul_le_mul_of_nonneg_right h1 (le_of_lt hbpf)) (tdiv_mul_le _ _ hcb hbpf)
  unfold flush_iter
  by_cases hz : r.writei = 0
  · simp only [hz, if_true, zero_mul, add_zero, sub_zero]
    exact ⟨_, _, rfl, rfl, le_refl _, le_of_lt hcb, rfl⟩
  · have hpos : r.writei > 0 := by omega
    simp only [hz, if_false, hpos, if_true]
    exact ⟨_, _, rfl, rfl, mul_nonneg h0 (le_of_lt hbpf), hle, rfl⟩

/-- The invariant of the flush loop at every evaluation of its condition. -/
theorem flush_heads_inv (rs : List DevResp) :
    ∀ (written : Int) (d : Driver) (w : World),
      0 < d.bytes_per_frame → 0 < d.chunk_bytes → (∀ x ∈ rs, x.counted d) →
      ∀ p ∈ flush_heads written d w rs,
        p.1 + p.2.alsa_buf_fill = written + d.alsa_buf_fill ∧ written ≤ p.1 ∧
        p.2.chunk_bytes = d.chunk_bytes ∧ p.2.bytes_per_frame = d.bytes_per_frame ∧
        p.2.alsa_buf = d.alsa_buf ∧ (0 ≤ d.alsa_buf_fill → 0 ≤ p.2.alsa_buf_fill) := by
  induction rs with
  | nil =>
    intro written d w _ _ _ p hp
    simp only [flush_heads, List.mem_singleton] at hp
    subst hp
    exact ⟨rfl, le_refl _, rfl, rfl, rfl, fun h => h⟩
  | cons r rs ih =>
    intro written d w hbpf hcb hdev p hp
    simp only [flush_heads, List.mem_cons] at hp
    rcases hp with rfl | hp
    · exact ⟨rfl, le_refl _, rfl, rfl, rfl, fun h => h⟩
    · by_cases hc : d.alsa_buf_fill ≥ d.chunk_bytes
      · rw [if_pos hc] at hp
        obtain ⟨d1, w1, e1, e2, h0, hle, _⟩ :=
          flush_iter_counted written d w r hbpf hcb (hdev r (List.mem_cons_self _ _))
        rw [e1] at hp
        simp only at hp
        subst e2
        obtain ⟨q1, q2, q3, q4, q5, q6⟩ := ih (written + r.writei * d.bytes_per_frame)
          { d with alsa_buf_fill := d.alsa_buf_fill - r.writei * d.bytes_per_frame } w1
          hbpf hcb (fun x hx => hdev x (List.mem_cons_of_mem _ hx)) p hp
        simp only at q1 q2 q3 q4 q5 q6
        refine ⟨by omega, by omega, q3, q4, q5, fun _ => q6 (by omega)⟩
      · rw [if_neg hc] at hp
        cases hp

/-- Every hardware write of the flush loop hands over exactly one chunk that
lies inside the staged region. -/
theorem flush_loop_chunks (cb bpf F : Int) (hbpf : 0 < bpf) (hcb : 0 < cb) (hmul : bpf ∣ cb)
    (rs : List DevResp) :
    ∀ (written : Int) (d : Driver) (w : World) (w' : World),
      d.chunk_bytes = cb → d.bytes_per_frame = bpf → 0 ≤ written →
      written + d.alsa_buf_fill ≤ F → (∀ x ∈ rs, x.counted d) →
      (flush_loop written d w rs).world? = some w' →
      w.since w' (Call.chunk_inside cb bpf F) := by
  induction rs with
  | nil =>
    intro written d w w' _ _ _ _ _ h
    simp only [flush_loop] at h
    split at h <;> simp only [Res.world?, Option.some.injEq] at h <;> subst h <;>
      exact since_refl _ _
  | cons r rs ih =>
    intro written d w w' e1 e2 hw hF hdev h
    rw [flush_loop_step] at h
    by_cases hc : d.alsa_buf_fill ≥ d.chunk_bytes
    · rw [if_pos hc] at h
      obtain ⟨d1, w1, i1, i2, h0, hle, hlog⟩ :=
        flush_iter_counted written d w r (by rw [e2]; exact hbpf) (by rw [e1]; exact hcb)
          (hdev r (List.mem_cons_self _ _))
      rw [i1] at h
      simp only at h
      subst i2
      have s1 : w.since w1 (Call.chunk_inside cb bpf F) := by
        refine ⟨_, hlog, ?_⟩
        intro c hcm
        rw [List.mem_singleton] at hcm
        subst hcm
        refine ⟨hw, ?_, ?_⟩
        · rw [e1] at hc
          omega
        · rw [e1, e2]
          exact tdiv_mul_of_dvd cb bpf hmul
      have s2 := ih (written + r.writei * d.bytes_per_frame)
        { d with alsa_buf_fill := d.alsa_buf_fill - r.writei * d.bytes_per_frame } w1 w'
        e1 e2 (by omega) (by simp only; omega)
        (fun x hx => hdev x (List.mem_cons_of_mem _ hx)) h
      exact since_trans s1 s2
    · rw [if_neg hc] at h
      simp only [Res.world?, Option.some.injEq] at h
      subst h
      exact since_refl _ _

/-- C23: in every iteration of the flush loop of `play_buf_chunks` (for
hardware writes that report between 0 and the requested number of frames,
with `chunk_bytes` a positive multiple of `bytes_per_frame` and initial fill
`F <= sizeof (alsa_buf)`), `written + alsa_buf_fill == F` holds with
`written >= 0` and the staging array is unchanged, and the chunk handed to
the hardware, `alsa_buf[written .. written + chunk_bytes)`, is exactly
`chunk_bytes` long and lies entirely inside the staged region `[0, F)` and so
inside the staging array: this holds at every evaluation of the loop
condition (`flush_heads`) and for the arguments of every `snd_pcm_writei`
call the function makes.  When the function returns, its value is not
negative and the source range of the final `memmove`,
`[written, written + alsa_buf_fill)`, ends at F, within the array. -/
theorem flush_loop_invariant (d : Driver) (w : World) (rs : List DevResp)
    (hbpf : 0 < d.bytes_per_frame) (hcb : 0 < d.chunk_bytes)
    (hmul : d.bytes_per_frame ∣ d.chunk_bytes) (hF : d.alsa_buf_fill ≤ alsa_buf_size)
    (hdev : ∀ x ∈ rs, x.counted d) :
    (∀ p ∈ flush_heads 0 d w rs,
      p.1 + p.2.alsa_buf_fill = d.alsa_buf_fill ∧ 0 ≤ p.1 ∧ p.2.alsa_buf = d.alsa_buf ∧
      (p.2.alsa_buf_fill ≥ p.2.chunk_bytes →
        p.1 + p.2.chunk_bytes ≤ d.alsa_buf_fill ∧ p.1 + p.2.chunk_bytes ≤ alsa_buf_size ∧
        Int.tdiv p.2.chunk_bytes p.2.bytes_per_frame * p.2.bytes_per_frame
          = p.2.chunk_bytes) ∧
      p.1 + p.2.alsa_buf_fill ≤ alsa_buf_size ∧
      (0 ≤ d.alsa_buf_fill → 0 ≤ p.2.alsa_buf_fill)) ∧
    (∀ w', (play_buf_chunks d w rs).world? = some w' →
      w.since w' (Call.chunk_inside d.chunk_bytes d.bytes_per_frame d.alsa_buf_fill)) ∧
    (∀ r d' w' rs', play_buf_chunks d w rs = .ret (r, d', w', rs') →
      0 ≤ r ∧ d'.alsa_buf = memmove_front d.alsa_buf r d'.alsa_buf_fill ∧
      r + d'.alsa_buf_fill = d.alsa_buf_fill ∧ r + d'.alsa_buf_fill ≤ alsa_buf_size ∧
      (0 ≤ d.alsa_buf_fill → 0 ≤ d'.alsa_buf_fill)) := by
  refine ⟨?_, ?_, ?_⟩
  · intro p hp
    obtain ⟨q1, q2, q3, q4, q5, q6⟩ := flush_heads_inv rs 0 d w hbpf hcb hdev p hp
    rw [zero_add] at q1
    refine ⟨q1, q2, q5, ?_, by omega, q6⟩
    intro hc
    rw [q3, q4]
    rw [q3] at hc
    exact ⟨by omega, by omega, tdiv_mul_of_dvd _ _ hmul⟩
  · intro w' h
    exact flush_loop_chunks d.chunk_bytes d.bytes_per_frame d.alsa_buf_fill hbpf hcb hmul rs
      0 d w w' rfl rfl (le_refl _) (by omega) hdev h
  · intro r d' w' rs' h
    obtain ⟨used, acc, calls, P⟩ := flush_loop_spec rs 0 d w r d' w' rs' hbpf h
    have hused : ∀ x ∈ used, x.counted d := by
      intro x hx
      apply hdev
      rw [P.script]
      exact List.mem_append_left _ hx
    rcases P.cases with ⟨p1, _, p3, _⟩ | ⟨_, _, _, p4⟩
    · have hfill := P.fill
      refine ⟨by omega, p3, by omega, by omega, ?_⟩
      exact P.nonneg hcb (fun x hx => (hused x hx).2)
    · exfalso
      obtain ⟨pre, f, _, _, _, e, hf, _⟩ := p4
      have := (hused f (by rw [e]; simp)).1
      have := hf.1
      omega

/-- C23 on the small session (frames of 2 bytes, chunks of 4 bytes) with
seven bytes staged, against a partial write of one frame and a full write of
two frames: the loop condition is evaluated with `written` 0, 2, 6 and fill
7, 5, 1. -/
theorem flush_loop_invariant_witness :
    (flush_heads 0 staged_driver tiny_world [⟨1, 0, 0⟩, ⟨2, 0, 0⟩]).map
        (fun p => (p.1, p.2.alsa_buf_fill)) = [(0, 7), (2, 5), (6, 1)] ∧
    ∀ p ∈ flush_heads 0 staged_driver tiny_world [⟨1, 0, 0⟩, ⟨2, 0, 0⟩],
      p.1 + p.2.alsa_buf_fill = staged_driver.alsa_buf_fill ∧ 0 ≤ p.1 ∧
      p.2.alsa_buf = staged_driver.alsa_buf ∧
      (p.2.alsa_buf_fill ≥ p.2.chunk_bytes →
        p.1 + p.2.chunk_bytes ≤ staged_driver.alsa_buf_fill ∧
        p.1 + p.2.chunk_bytes ≤ alsa_buf_size ∧
        Int.tdiv p.2.chunk_bytes p.2.bytes_per_frame * p.2.bytes_per_frame
          = p.2.chunk_bytes) ∧
      p.1 + p.2.alsa_buf_fill ≤ alsa_buf_size ∧
      (0 ≤ staged_driver.alsa_buf_fill → 0 ≤ p.2.alsa_buf_fill) :=
  ⟨by decide,
   (flush_loop_invariant staged_driver tiny_world [⟨1, 0, 0⟩, ⟨2, 0, 0⟩] (by decide)
    (by decide) (by decide) (by decide) (by decide)).1⟩

/-! ## C24: termination of `alsa_play` -/

theorem progress_count_accepting (rs : List DevResp) (h : ∀ x ∈ rs, 1 ≤ x.writei) :
    progress_count rs = rs.length := by
  induction rs with
  | nil => rfl
  | cons x xs ih =>
    have hx : x.writei > 0 := by
      have := h x (List.mem_cons_self _ _)
      omega
    simp only [progress_count, hx, if_true, List.length_cons,
      ih (fun y hy => h y (List.mem_cons_of_mem _ hy))]
    omega

/-- An iteration of the flush loop whose write accepts at least one frame
strictly decreases the fill. -/
theorem flush_iter_accepts (written : Int) (d : Driver) (w : World) (r : DevResp)
    (hbpf : 0 < d.bytes_per_frame) (hr : 1 ≤ r.writei) :
    ∃ d1 w1, flush_iter written d w r
        = (some (written + r.writei * d.bytes_per_frame, d1), w1) ∧
      d1.alsa_buf_fill = d.alsa_buf_fill - r.writei * d.bytes_per_frame ∧
      d1.alsa_buf_fill < d.alsa_buf_fill := by
  have hz : ¬ r.writei = 0 := by omega
  have hpos : r.writei > 0 := by omega
  have hmul : 0 < r.writei * d.bytes_per_frame := mul_pos hpos hbpf
  unfold flush_iter
  simp only [hz, if_false, hpos, if_true]
  exact ⟨_, _, rfl, rfl, by simp only; omega⟩

/-- At every evaluation of the condition of the outer loop of `alsa_play` the
fill is below the capacity, so a slice that is copied is not empty. -/
theorem play_heads_inv (buff : List Byte) (fuel : Nat) :
    ∀ (to_write buf_pos : Int) (d : Driver) (w : World) (rs : List DevResp),
      0 < d.chunk_bytes → d.chunk_bytes ≤ alsa_buf_size → 0 < d.bytes_per_frame →
      0 ≤ to_write → d.alsa_buf_fill < alsa_buf_size →
      ∀ p ∈ play_heads buff fuel to_write buf_pos d w rs,
        0 ≤ p.1 ∧ p.2.alsa_buf_fill < alsa_buf_size ∧ (p.1 ≠ 0 → 0 < to_copy p.1 p.2) := by
  have here : ∀ (to_write : Int) (d : Driver), 0 ≤ to_write →
      d.alsa_buf_fill < alsa_buf_size →
      0 ≤ to_write ∧ d.alsa_buf_fill < alsa_buf_size ∧ (to_write ≠ 0 → 0 < to_copy to_write d) := by
    intro to_write d h1 h2
    refine ⟨h1, h2, fun hne => ?_⟩
    unfold to_copy
    omega
  induction fuel with
  | zero =>
    intro to_write buf_pos d w rs _ _ _ htw hf p hp
    simp only [play_heads, List.mem_singleton] at hp
    subst hp
    exact here _ _ htw hf
  | succ n ih =>
    intro to_write buf_pos d w rs hcb hcap hbpf htw hf p hp
    simp only [play_heads, List.mem_cons] at hp
    rcases hp with rfl | hp
    · exact here _ _ htw hf
    · split at hp
      · cases hp
      · split at hp
        · cases hp
        · split at hp
          · rename_i r d2 w2 rs2 hflush
            split at hp
            · cases hp
            · rename_i hr
              obtain ⟨used, acc, calls, P⟩ := flush_loop_spec rs 0
                { d with
                  alsa_buf := memcpy_in d.alsa_buf d.alsa_buf_fill buff buf_pos
                    (min to_write (alsa_buf_size - d.alsa_buf_fill))
                  alsa_buf_fill :=
                    d.alsa_buf_fill + min to_write (alsa_buf_size - d.alsa_buf_fill) }
                w r d2 w2 rs2 hbpf hflush
              obtain ⟨_, _, _, _, _, _, c7, c8⟩ := P.config
              have c7' : d2.chunk_bytes = d.chunk_bytes := c7
              have c8' : d2.bytes_per_frame = d.bytes_per_frame := c8
              rcases P.cases with ⟨_, p2, _, _⟩ | ⟨p1, _⟩
              · have p2' : d2.alsa_buf_fill < d.chunk_bytes := p2
                exact ih _ _ d2 w2 rs2 (by rw [c7']; exact hcb) (by rw [c7']; exact hcap)
                  (by rw [c8']; exact hbpf) (by omega) (by omega) p hp
              · omega
          · cases hp
          · cases hp

/-- What a returned `alsa_play` has done when every write accepted at least
one and at most the requested number of frames: it returns the size, and it
made at most one hardware write for each staged frame. -/
theorem alsa_play_accepting (fuel : Nat) (buff : List Byte) (d : Driver) (w : World)
    (rs : List DevResp) (hcb : 0 < d.chunk_bytes) (hbpf : 0 < d.bytes_per_frame)
    (hf0 : 0 ≤ d.alsa_buf_fill) (hf1 : d.alsa_buf_fill ≤ alsa_buf_size)
    (hsize : buff.length < 2 ^ 31) (hdev : ∀ x ∈ rs, x.accepts d)
    (r : Int) (d' : Driver) (w' : World) (rs' : List DevResp)
    (h : alsa_play fuel buff d w rs = .ret (r, d', w', rs')) :
    r = buff.length ∧
    (writes_issued (w.new_calls w') : Int)
      ≤ (d.alsa_buf_fill + buff.length) / d.bytes_per_frame := by
  unfold alsa_play at h
  rw [if_pos hcb, size_to_int_small _ hsize] at h
  obtain ⟨used, acc, calls, P⟩ := play_loop_spec buff hsize fuel _ 0 d w rs r d' w' rs'
    hcb hbpf hf1 (Int.ofNat_nonneg _) (le_refl _) (by simp) h
  have hused : ∀ x ∈ used, x.accepts d := by
    intro x hx
    apply hdev
    rw [P.script]
    exact List.mem_append_left _ hx
  have hw : ∀ x ∈ used, x.within d := fun x hx => (hused x hx).2
  have hr : r = buff.length := by
    rcases P.cases with ⟨p1, _⟩ | ⟨_, _, p3⟩
    · exact p1
    · exfalso
      obtain ⟨pre, f, _, _, _, e, hf, _⟩ := p3
      have := (hused f (by rw [e]; simp)).1
      have := hf.1
      omega
  refine ⟨hr, ?_⟩
  rw [new_calls_append w w' calls P.log, P.writes]
  have hbal := P.balance hf0 hw hr
  have hnn := (P.sane hw hf0).1
  have hpc := progress_count_le_frames used
  rw [progress_count_accepting used (fun x hx => (hused x hx).1)] at hpc
  have hfr := P.frames
  rw [P.frames_script] at hfr
  apply Int.le_ediv_of_mul_le hbpf
  have : (used.length : Int) * d.bytes_per_frame ≤ script_frames used * d.bytes_per_frame :=
    mul_le_mul_of_nonneg_right hpc (le_of_lt hbpf)
  omega

/-- C24 (as amended): `alsa_play` terminates for every input size that is
representable as a non-negative `int`, on a session whose staging fill is
below the capacity (`0 <= alsa_buf_fill < sizeof (alsa_buf)`), when
`0 < chunk_bytes <= sizeof (alsa_buf)`, `chunk_bytes` is a multiple of
`bytes_per_frame`, and every hardware write accepts at least one and at most
the requested number of frames: with an answer for each staged frame and an
iteration budget of the size plus two the call returns its size; each slice
copied into the staging buffer is not empty (the fill is below the capacity
at the start of each outer iteration); each inner iteration strictly
decreases `alsa_buf_fill`; and the number of hardware writes is at most the
total number of staged frames. -/
theorem alsa_play_terminates (fuel : Nat) (buff : List Byte) (d : Driver) (w : World)
    (rs : List DevResp) (hcb : 0 < d.chunk_bytes) (hcap : d.chunk_bytes ≤ alsa_buf_size)
    (hbpf : 0 < d.bytes_per_frame) (hmul : d.bytes_per_frame ∣ d.chunk_bytes)
    (hf0 : 0 ≤ d.alsa_buf_fill) (hf1 : d.alsa_buf_fill < alsa_buf_size)
    (hsize : buff.length < 2 ^ 31) (hdev : ∀ x ∈ rs, x.accepts d) :
    ((d.alsa_buf_fill + buff.length) / d.bytes_per_frame ≤ rs.length →
      buff.length + 2 ≤ fuel →
      ∃ d' w' rs', alsa_play fuel buff d w rs = .ret (buff.length, d', w', rs')) ∧
    (∀ p ∈ play_heads buff fuel (size_to_int buff.length) 0 d w rs,
      p.2.alsa_buf_fill < alsa_buf_size ∧ (p.1 ≠ 0 → 0 < to_copy p.1 p.2)) ∧
    (∀ (written : Int) (d1 : Driver) (w1 : World), ∀ x ∈ rs,
      d1.bytes_per_frame = d.bytes_per_frame →
      ∃ d2 w2, flush_iter written d1 w1 x
          = (some (written + x.writei * d1.bytes_per_frame, d2), w2) ∧
        d2.alsa_buf_fill < d1.alsa_buf_fill) ∧
    (∀ r d' w' rs', alsa_play fuel buff d w rs = .ret (r, d', w', rs') →
      r = buff.length ∧
      (writes_issued (w.new_calls w') : Int)
        ≤ (d.alsa_buf_fill + buff.length) / d.bytes_per_frame) := by
  refine ⟨?_, ?_, ?_, ?_⟩
  · intro hlen hfuel
    have hle : d.bytes_per_frame ≤ d.chunk_bytes := Int.le_of_dvd hcb hmul
    have hdiv : d.alsa_buf_fill + buff.length
        < ((d.alsa_buf_fill + buff.length) / d.bytes_per_frame + 1) * d.bytes_per_frame :=
      Int.lt_ediv_add_one_mul_self _ hbpf
    have hmono : ((d.alsa_buf_fill + buff.length) / d.bytes_per_frame + 1) * d.bytes_per_frame
        ≤ ((rs.length : Int) + 1) * d.bytes_per_frame :=
      mul_le_mul_of_nonneg_right (by omega) (le_of_lt hbpf)
    have hpc := progress_count_accepting rs (fun x hx => (hdev x hx).1)
    obtain ⟨r, d', w', rs', hret⟩ := play_loop_returns buff fuel buff.length 0 d w rs hcb hcap
      hbpf (le_of_lt hf1) (Int.ofNat_nonneg _)
      (by rw [hpc]; nlinarith) (Or.inr (by omega))
    have hplay : alsa_play fuel buff d w rs = .ret (r, d', w', rs') := by
      unfold alsa_play
      rw [if_pos hcb, size_to_int_small _ hsize]
      exact hret
    obtain ⟨hr, _⟩ := alsa_play_accepting fuel buff d w rs hcb hbpf hf0 (le_of_lt hf1) hsize
      hdev r d' w' rs' hplay
    rw [hr] at hplay
    exact ⟨d', w', rs', hplay⟩
  · intro p hp
    rw [size_to_int_small _ hsize] at hp
    obtain ⟨_, h2, h3⟩ := play_heads_inv buff fuel buff.length 0 d w rs hcb hcap hbpf
      (Int.ofNat_nonneg _) hf1 p hp
    exact ⟨h2, h3⟩
  · intro written d1 w1 x hx hb
    obtain ⟨d2, w2, e1, _, e3⟩ := flush_iter_accepts written d1 w1 x (by rw [hb]; exact hbpf)
      (hdev x hx).1
    exact ⟨d2, w2, e1, e3⟩
  · intro r d' w' rs' h
    exact alsa_play_accepting fuel buff d w rs hcb hbpf hf0 (le_of_lt hf1) hsize hdev
      r d' w' rs' h

/-- C24 on the small session (frames of 2 bytes, chunks of 4 bytes), six
bytes and writes that accept one or two frames: the call returns 6 after one
hardware write, and the loop condition is evaluated with 6 and with 0 bytes
left to write. -/
theorem alsa_play_terminates_witness :
    alsa_play 8 [1, 2, 3, 4, 5, 6] tiny_driver tiny_world
      [⟨2, 0, 0⟩, ⟨1, 0, 0⟩, ⟨1, 0, 0⟩] = .ret steady_play ∧
    steady_play.1 = 6 ∧ writes_issued (tiny_world.new_calls steady_play.2.2.1) = 1 ∧
    (play_heads [1, 2, 3, 4, 5, 6] 8 6 0 tiny_driver tiny_world
      [⟨2, 0, 0⟩, ⟨1, 0, 0⟩, ⟨1, 0, 0⟩]).map (fun p => (p.1, p.2.alsa_buf_fill))
      = [(6, 0), (0, 2)] ∧
    ∃ d' w' rs', alsa_play 8 [1, 2, 3, 4, 5, 6] tiny_driver tiny_world
      [⟨2, 0, 0⟩, ⟨1, 0, 0⟩, ⟨1, 0, 0⟩]
        = .ret ((([1, 2, 3, 4, 5, 6] : List Byte).length : Int), d', w', rs') :=
  ⟨rfl, by decide, by decide, by decide,
   (alsa_play_terminates 8 [1, 2, 3, 4, 5, 6] tiny_driver tiny_world
      [⟨2, 0, 0⟩, ⟨1, 0, 0⟩, ⟨1, 0, 0⟩] (by decide) (by decide) (by decide) (by decide)
      (by decide) (by decide) (by decide) (by decide)).1 (by decide) (by decide)⟩

/-- C24 as stated fails in two ways.  A size of `2^31` is negative as an
`int` (`int to_write = size`), so the first slice has a negative size and the
call ends in the `memcpy`, without returning.  And after a call of 524288
bytes whose first write failed for good the staging array is full
(`alsa_buf_fill` = `sizeof (alsa_buf)`, with `chunk_bytes` = 4 a multiple of
`bytes_per_frame` = 2): the first slice that the next call copies is
empty. -/
theorem alsa_play_negative_or_empty_slice :
    alsa_play 1 (List.replicate (2 ^ 31) 0) tiny_driver tiny_world [] = .abort ∧
    alsa_play 1 full_buff tiny_driver tiny_world [⟨-32, -19, 0⟩]
      = .ret (-1, full_driver, full_world, []) ∧
    full_driver.alsa_buf_fill = alsa_buf_size ∧ full_driver.chunk_bytes = 4 ∧
    full_driver.bytes_per_frame = 2 ∧
    ((play_heads [1, 2] 1 2 0 full_driver full_world [⟨2, 0, 0⟩]).map
      (fun p => (p.1, p.2.alsa_buf_fill))).head? = some (2, 524288) ∧
    to_copy 2 full_driver = 0 := by
  have hcb : tiny_driver.chunk_bytes > 0 := by decide
  refine ⟨?_, ?_, by decide, by decide, by decide, rfl, by decide⟩
  · have h0 : size_to_int (List.replicate (2 ^ 31) (0 : Byte)).length = -2 ^ 31 := by
      rw [List.length_replicate]; decide
    unfold alsa_play
    rw [if_pos hcb, h0]
    rfl
  · have h0 : size_to_int full_buff.length = 524288 := by
      unfold full_buff
      rw [List.length_replicate]; decide
    unfold alsa_play
    rw [if_pos hcb, h0]
    rfl

end Alsa
